import Mathlib

/-!
# Panel agent: configuration materializer, Panel client and reconciliation loops

A shallow embedding of the Go agent under `apps/agent`:

* `pkg/types/types.go`            : the data model (`NodeConfig`, `UserConfig`, ...)
* `internal/xray/generator.go`    : `ConfigGenerator.Generate`
* `internal/xray/clients.go`      : `buildInboundsWithClients`, `buildClients`, ...
* `internal/client/client.go`     : `Client.doRequest`, `Client.GetConfig`, `Client.GetUsers`
* `internal/xray/process.go`      : `ProcessManager.Start/Stop/Restart`
* `internal/client/reporter.go`   : `Client.ReportTraffic`, `Client.ReportAlive`
* `internal/xray/grpc_client.go`  : `QueryTrafficStats`, `AddUser`, `RemoveUser`, `KickUser`, ...
* `internal/xray/capabilities.go` : `compareVersion`, `parseVersionPart`
* `internal/stats/collector.go`   : `XrayCollector.QueryStats`, `calculateUserRates`
* `internal/manager/loops.go`     : the config, user and alive loops, `hotSyncUsers`
* `internal/manager/tasks.go`     : `register`, `syncConfig`, `syncUsers`,
                                    `generateAndWriteConfig`

Go values of type `interface{}` that hold decoded JSON are embedded as `JVal`.
A Go `map[string]T` is embedded as an association list with the operations
`gmGet`, `gmHas`, `gmSet`, `gmDelete`; a key occurs at most once after `gmSet`,
and where the source ranges over a map the embedding ranges over the list in
insertion order (Go leaves that order unspecified, so statements about such
loops count calls and do not speak of their relative order).
Effects on collaborators (Panel, core RPC, child process, file system) are
recorded in an event trace; their outcomes are supplied by a `World` record.
Values of type `int64` are integers, with `wrapInt64` applied to the counter differences,
duration products and parsed numbers that can leave the `int64` range; values of type
`float64` are rationals, and every `float64` operation rounds its exact result with
`roundFloat64`.
-/

namespace PanelAgent

/-! ## Dynamic JSON values and Go maps -/

/-- Decoded JSON value, the content of a Go `interface{}`; `null` is the nil interface.
Numbers are carried as integers. -/
inductive JVal where
  | null
  | bool (b : Bool)
  | num (n : Int)
  | str (s : String)
  | arr (xs : List JVal)
  | obj (kvs : List (String × JVal))

instance : Inhabited JVal := ⟨JVal.null⟩

/-- The test `v == nil` on an `interface{}`. -/
def JVal.isNil : JVal → Bool
  | .null => true
  | _ => false

/-- Lookup `m[k]` with the comma-ok form. -/
def gmGet {β : Type} (m : List (String × β)) (k : String) : Option β :=
  (m.find? (fun kv => kv.1 == k)).map Prod.snd

/-- Presence test `_, ok := m[k]`. -/
def gmHas {β : Type} (m : List (String × β)) (k : String) : Bool :=
  m.any (fun kv => kv.1 == k)

/-- The call `delete(m, k)`. -/
def gmDelete {β : Type} (m : List (String × β)) (k : String) : List (String × β) :=
  m.filter (fun kv => kv.1 != k)

/-- Assignment `m[k] = v`: an existing binding keeps its place, a new key goes last. -/
def gmSet {β : Type} : List (String × β) → String → β → List (String × β)
  | [], k, v => [(k, v)]
  | (k', v') :: m, k, v => if k' == k then (k, v) :: gmDelete m k else (k', v') :: gmSet m k v

/-- The keys of a map. -/
def gmKeys {β : Type} (m : List (String × β)) : List String :=
  m.map Prod.fst

/-- Field access on a dynamic value: `v.(map[string]interface{})[k]`. -/
def JVal.field (v : JVal) (k : String) : Option JVal :=
  match v with
  | .obj kvs => gmGet kvs k
  | _ => none

/-! ## Data model (`pkg/types/types.go`) -/

structure InboundConfig where
  Tag : String
  Protocol : String
  Port : Int
  Listen : String
  Settings : JVal
  StreamSettings : JVal
  Sniffing : JVal
  Allocate : JVal

structure OutboundConfig where
  Tag : String
  Protocol : String
  SendThrough : String
  Settings : JVal
  StreamSettings : JVal
  ProxySettings : JVal
  Mux : JVal

structure RoutingConfig where
  DomainStrategy : String
  Rules : List JVal
  Balancers : List JVal

structure NodeConfig where
  Version : String
  ETag : String
  Inbounds : List InboundConfig
  Outbounds : List OutboundConfig
  Routing : Option RoutingConfig
  DNS : JVal
  Policy : JVal

structure UserConfig where
  Email : String
  UUID : String
  Password : String
  Flow : String
  AlterID : Int
  Security : String
  Method : String
  Level : Int
  InboundTags : List String
  OutboundTag : String
  TotalBytes : Int
  UsedBytes : Int
  ExpiryTime : Int
  UploadLimit : Int
  DownloadLimit : Int
  DeviceLimit : Int
  deriving DecidableEq, Repr

structure TrafficReport where
  Email : String
  Upload : Int
  Download : Int
  deriving DecidableEq, Repr

structure RateLimitConfig where
  Email : String
  UploadBytesPerSec : Int
  DownloadBytesPerSec : Int
  deriving DecidableEq, Repr

structure UserListResponse where
  Version : String
  ETag : String
  Users : List UserConfig
  RateLimits : List RateLimitConfig
  deriving DecidableEq, Repr

/-! ## Config materializer (`internal/xray/generator.go`, `internal/xray/clients.go`) -/

structure LogConfig where
  Loglevel : String
  Access : String
  Error : String

structure APIConfig where
  Tag : String
  Services : List String

structure XrayConfig where
  Log : LogConfig
  API : APIConfig
  Policy : JVal
  DNS : JVal
  Inbounds : List JVal
  Outbounds : List OutboundConfig
  Routing : Option RoutingConfig

/-- The map `usersByInbound` of `buildInboundsWithClients`: every user is appended
under each entry of its `InboundTags`. -/
def groupUsersByInbound (users : List UserConfig) : List (String × List UserConfig) :=
  users.foldl
    (fun m user =>
      user.InboundTags.foldl (fun m tag => gmSet m tag ((gmGet m tag).getD [] ++ [user])) m)
    []

/-- Embedding of `buildSocksAccounts`. -/
def buildSocksAccounts (users : List UserConfig) : List JVal :=
  users.foldl
    (fun accounts user =>
      accounts ++ [JVal.obj (gmSet (gmSet [] "user" (JVal.str user.Email)) "pass"
        (JVal.str user.Password))])
    []

/-- One iteration of the loop of `buildClients`: the client map of one user. -/
def buildClient (protocol : String) (user : UserConfig) : List (String × JVal) :=
  let client : List (String × JVal) := []
  let client := gmSet client "email" (JVal.str user.Email)
  let client := gmSet client "level" (JVal.num user.Level)
  if protocol = "vless" then
    let client := gmSet client "id" (JVal.str user.UUID)
    if user.Flow ≠ "" then gmSet client "flow" (JVal.str user.Flow) else client
  else if protocol = "vmess" then
    let client := gmSet client "id" (JVal.str user.UUID)
    let client := gmSet client "alterId" (JVal.num user.AlterID)
    if user.Security ≠ "" then gmSet client "security" (JVal.str user.Security) else client
  else if protocol = "trojan" then
    gmSet client "password" (JVal.str user.Password)
  else if protocol = "shadowsocks" then
    let client := gmSet client "password" (JVal.str user.Password)
    if user.Method ≠ "" then gmSet client "method" (JVal.str user.Method) else client
  else
    client

/-- Embedding of `buildClients`. -/
def buildClients (protocol : String) (users : List UserConfig) : List JVal :=
  users.foldl (fun clients user => clients ++ [JVal.obj (buildClient protocol user)]) []

/-- Embedding of `cloneSettings`: the JSON round trip into a `map[string]interface{}`
yields the object itself and `nil` for nil or for any value that is not an object. -/
def cloneSettings (settings : JVal) : Option (List (String × JVal)) :=
  match settings with
  | .obj kvs => some kvs
  | _ => none

/-- The body of the loop of `buildInboundsWithClients` for one inbound. -/
def buildInbound (usersByInbound : List (String × List UserConfig)) (inbound : InboundConfig) :
    JVal :=
  let inboundUsers := (gmGet usersByInbound inbound.Tag).getD []
  let settings := (cloneSettings inbound.Settings).getD []
  let settings :=
    if inbound.Protocol = "socks" then
      gmDelete (gmSet settings "accounts" (JVal.arr (buildSocksAccounts inboundUsers))) "clients"
    else
      gmSet settings "clients" (JVal.arr (buildClients inbound.Protocol inboundUsers))
  let inboundConfig : List (String × JVal) :=
    [("tag", JVal.str inbound.Tag), ("protocol", JVal.str inbound.Protocol),
     ("port", JVal.num inbound.Port), ("listen", JVal.str inbound.Listen),
     ("settings", JVal.obj settings)]
  let inboundConfig :=
    if inbound.StreamSettings.isNil then inboundConfig
    else gmSet inboundConfig "streamSettings" inbound.StreamSettings
  let inboundConfig :=
    if inbound.Sniffing.isNil then inboundConfig
    else gmSet inboundConfig "sniffing" inbound.Sniffing
  let inboundConfig :=
    if inbound.Allocate.isNil then inboundConfig
    else gmSet inboundConfig "allocate" inbound.Allocate
  JVal.obj inboundConfig

/-- Embedding of `buildInboundsWithClients`. -/
def buildInboundsWithClients (inbounds : List InboundConfig) (users : List UserConfig) :
    List JVal :=
  let usersByInbound := groupUsersByInbound users
  inbounds.foldl (fun result inbound => result ++ [buildInbound usersByInbound inbound]) []

/-- The policy synthesized by `Generate` when the node config carries none. -/
def defaultPolicy : JVal :=
  .obj [("levels", .obj [("0", .obj [("statsUserUplink", .bool true),
          ("statsUserDownlink", .bool true), ("statsUserOnline", .bool true)])]),
        ("system", .obj [("statsInboundUplink", .bool true), ("statsInboundDownlink", .bool true),
          ("statsOutboundUplink", .bool true), ("statsOutboundDownlink", .bool true)])]

/-- The fixed API inbound of `Generate`. -/
def apiInbound : JVal :=
  .obj [("tag", .str "api-inbound"), ("listen", .str "127.0.0.1"), ("port", .num 10085),
        ("protocol", .str "dokodemo-door"), ("settings", .obj [("address", .str "127.0.0.1")])]

/-- The API routing rule of `Generate`. -/
def apiRule : JVal :=
  .obj [("type", .str "field"), ("inboundTag", .arr [.str "api-inbound"]),
        ("outboundTag", .str "api")]

/-- The synthesized default outbound `direct`/`freedom` with empty settings. -/
def defaultDirectOutbound : OutboundConfig :=
  { Tag := "direct", Protocol := "freedom", SendThrough := "", Settings := .obj [],
    StreamSettings := .null, ProxySettings := .null, Mux := .null }

/-- The synthesized outbound `api`/`blackhole` with empty settings. -/
def apiOutbound : OutboundConfig :=
  { Tag := "api", Protocol := "blackhole", SendThrough := "", Settings := .obj [],
    StreamSettings := .null, ProxySettings := .null, Mux := .null }

/-- The rule filter loop of `Generate`, started from `[apiRule]`: a rule is kept when it
is a JSON object with an `outboundTag` or a `balancerTag` key. -/
def filterRules (rules : List JVal) : List JVal :=
  rules.foldl
    (fun validRules rule =>
      match rule with
      | .obj ruleMap =>
        if gmHas ruleMap "outboundTag" then validRules ++ [rule]
        else if gmHas ruleMap "balancerTag" then validRules ++ [rule]
        else validRules
      | _ => validRules)
    [apiRule]

/-- The final loop of `Generate`: outbounds whose tag is not yet in `seenTags` are
appended and their tag recorded. The state is `(seenTags, dedupedOutbounds)`. -/
def dedupLoop (outbounds : List OutboundConfig) (seenTags : List String)
    (dedupedOutbounds : List OutboundConfig) : List String × List OutboundConfig :=
  outbounds.foldl
    (fun st ob => if st.1.contains ob.Tag then st else (ob.Tag :: st.1, st.2 ++ [ob]))
    (seenTags, dedupedOutbounds)

/-- The outbound normalization of `Generate` (source lines 119 to 181). -/
def normalizeOutbounds (outbounds : List OutboundConfig) : List OutboundConfig :=
  let hasDirectOutbound := outbounds.any (fun ob => ob.Tag == "direct")
  let outbounds := if hasDirectOutbound then outbounds else outbounds ++ [defaultDirectOutbound]
  let directOutbound := outbounds.find? (fun ob => ob.Tag == "direct")
  let dedupedOutbounds :=
    match directOutbound with
    | some d => [d]
    | none => [defaultDirectOutbound]
  let seenTags := ["direct"]
  let dedupedOutbounds := dedupedOutbounds ++ [apiOutbound]
  let seenTags := "api" :: seenTags
  (dedupLoop outbounds seenTags dedupedOutbounds).2

/-- Embedding of `ConfigGenerator.Generate`. The Go function always returns a nil error.
The second component is the `NodeConfig` behind the argument pointer after the call:
`config.Routing` aliases `nodeConfig.Routing`, so the assignment
`config.Routing.Rules = validRules` is visible through it when a routing section is present. -/
def Generate (nodeConfig : NodeConfig) (users : List UserConfig) : XrayConfig × NodeConfig :=
  let policy := if nodeConfig.Policy.isNil then defaultPolicy else nodeConfig.Policy
  let inbounds := buildInboundsWithClients nodeConfig.Inbounds users
  let routing : RoutingConfig :=
    match nodeConfig.Routing with
    | some r => r
    | none => { DomainStrategy := "AsIs", Rules := [], Balancers := [] }
  let routing := { routing with Rules := filterRules routing.Rules }
  let config : XrayConfig :=
    { Log := { Loglevel := "warning", Access := "", Error := "" }
      API := { Tag := "api", Services := ["HandlerService", "StatsService"] }
      Policy := policy
      DNS := nodeConfig.DNS
      Inbounds := apiInbound :: inbounds
      Outbounds := normalizeOutbounds nodeConfig.Outbounds
      Routing := some routing }
  let nodeConfigAfter : NodeConfig :=
    match nodeConfig.Routing with
    | some _ => { nodeConfig with Routing := some routing }
    | none => nodeConfig
  (config, nodeConfigAfter)

/-- Specification wording of the outbound deduplication: keep only the first occurrence
of each tag, in the original order. -/
def firstOccurrenceByTag : List OutboundConfig → List OutboundConfig
  | [] => []
  | ob :: rest => ob :: (firstOccurrenceByTag rest).filter (fun o => o.Tag != ob.Tag)

/-- The outbounds appended by the loop, as a function of the tags already seen. -/
def keepUnseen : List String → List OutboundConfig → List OutboundConfig
  | _, [] => []
  | seen, ob :: rest =>
    if seen.contains ob.Tag then keepUnseen seen rest else ob :: keepUnseen (ob.Tag :: seen) rest

/-- The users grouped under `tag` by `buildInboundsWithClients`: a user appears once
for every occurrence of `tag` in its `InboundTags`, in user-list order. -/
def membersOf (users : List UserConfig) (tag : String) : List UserConfig :=
  users.flatMap (fun u => List.replicate (u.InboundTags.count tag) u)

/-- The settings key under which the member list is injected. -/
def memberKey (protocol : String) : String :=
  if protocol = "socks" then "accounts" else "clients"

/-- The key of a member entry that carries the email. -/
def emailKey (protocol : String) : String :=
  if protocol = "socks" then "user" else "email"

/-- Specification wording of a socks account: `{user: email, pass: password}`. -/
def accountShape (u : UserConfig) : List (String × JVal) :=
  [("user", JVal.str u.Email), ("pass", JVal.str u.Password)]

/-- Specification wording of the protocol-specific part of a client. -/
def clientExtraShape (protocol : String) (u : UserConfig) : List (String × JVal) :=
  if protocol = "vless" then
    [("id", JVal.str u.UUID)] ++ (if u.Flow = "" then [] else [("flow", JVal.str u.Flow)])
  else if protocol = "vmess" then
    [("id", JVal.str u.UUID), ("alterId", JVal.num u.AlterID)]
      ++ (if u.Security = "" then [] else [("security", JVal.str u.Security)])
  else if protocol = "trojan" then
    [("password", JVal.str u.Password)]
  else if protocol = "shadowsocks" then
    [("password", JVal.str u.Password)]
      ++ (if u.Method = "" then [] else [("method", JVal.str u.Method)])
  else []

/-- Specification wording of a client: `email` and `level`, then the protocol part. -/
def clientShape (protocol : String) (u : UserConfig) : List (String × JVal) :=
  [("email", JVal.str u.Email), ("level", JVal.num u.Level)] ++ clientExtraShape protocol u

/-! ## Events and outcomes of the collaborators -/

/-- The request body as readable from the body reader when a request is created:
no body, the JSON document, or nothing left because an earlier attempt drained the reader. -/
inductive SentBody where
  | absent
  | json (v : JVal)
  | drained

/-- An HTTP request as handed to `httpClient.Do`. -/
structure HttpRequest where
  method : String
  url : String
  headers : List (String × String)
  body : SentBody

/-- Outcome of one `httpClient.Do`: a transport error (with whether the request body was
read before it), or a response with its status code and decoded JSON payload (`none` when
the payload does not decode). A response implies that the request body was read. -/
inductive RoundTrip (α : Type) where
  | transportError (bodyRead : Bool)
  | response (status : Int) (payload : Option α)

/-- A call on the core RPC client whose result the reconciliation loops only log. -/
inductive CoreCall where
  | addUser (tag : String) (user : UserConfig)
  | removeUser (tag : String) (email : String)
  | setUserRateLimit (email : String) (up down : Int)
  | removeUserRateLimit (email : String)
  deriving DecidableEq, Repr

/-- Observable effects, in the order in which the agent performs them. -/
inductive Event where
  | sleep (seconds : Nat)
  | httpDo (req : HttpRequest)
  | getConfig
  | getUsers
  | reportTraffic (traffics : List TrafficReport)
  | writeConfig (cfg : XrayConfig)
  | queryTrafficStats (reset : Bool)
  | core (call : CoreCall) (ok : Bool)
  | procStop
  | procStart

/-- Errors returned by the Panel client. -/
inductive ClientError where
  | createRequest
  | requestFailed (retries : Int)
  | badStatus (status : Int)
  | decode
  deriving DecidableEq, Repr

/-! ## Panel client (`internal/client/client.go`, `internal/client/reporter.go`) -/

/-- State of the Panel client. `urlOk` tells whether `baseURL + path` is accepted by
`http.NewRequestWithContext`. -/
structure Client where
  baseURL : String
  apiBasePath : String
  nodeToken : String
  urlOk : Bool
  retryCount : Int
  configETag : String
  usersETag : String
  deriving DecidableEq, Repr

/-- Result of `doRequest`: the response or error, the round trips the Panel has still
to answer, and the effects performed. -/
structure DoResult (α : Type) where
  result : Except ClientError (Int × Option α)
  panel : List (RoundTrip α)
  trace : List Event

/-- The retry loop of `doRequest`, `fuel` iterations left, loop variable `i`.
`drained` tells whether an earlier attempt consumed the shared body reader.
A Panel that has no further answer is a transport error. -/
def doRequestLoop {α : Type} (c : Client) (method path : String) (body : Option JVal)
    (headers : List (String × String)) :
    Nat → Nat → Bool → List (RoundTrip α) → List Event → DoResult α
  | 0, _, _, panel, tr => ⟨.error (.requestFailed c.retryCount), panel, tr⟩
  | fuel + 1, i, drained, panel, tr =>
    let tr := if i > 0 then tr ++ [Event.sleep i] else tr
    if !c.urlOk then ⟨.error .createRequest, panel, tr⟩
    else
      let sent : SentBody :=
        match body with
        | none => .absent
        | some v => if drained then .drained else .json v
      let req : HttpRequest :=
        { method := method, url := c.baseURL ++ path,
          headers := [("Content-Type", "application/json"), ("X-Node-Token", c.nodeToken)]
            ++ headers,
          body := sent }
      let tr := tr ++ [Event.httpDo req]
      match panel with
      | [] => doRequestLoop c method path body headers fuel (i + 1) drained [] tr
      | .transportError bodyRead :: rest =>
        doRequestLoop c method path body headers fuel (i + 1) (drained || bodyRead) rest tr
      | .response status payload :: rest =>
        if status ≥ 500 then doRequestLoop c method path body headers fuel (i + 1) true rest tr
        else ⟨.ok (status, payload), rest, tr⟩

/-- Embedding of `Client.doRequest`: the loop `for i := 0; i <= c.retryCount; i++`
runs `retryCount + 1` times when that is positive and not at all otherwise. -/
def doRequest {α : Type} (c : Client) (method path : String) (body : Option JVal)
    (headers : List (String × String)) (panel : List (RoundTrip α)) : DoResult α :=
  doRequestLoop c method path body headers (c.retryCount + 1).toNat 0 false panel []

/-- Number of `httpClient.Do` attempts in a trace. -/
def attempts (tr : List Event) : Nat :=
  tr.countP (fun e => match e with | .httpDo _ => true | _ => false)

/-- The payload `{"config": ..., "etag": ...}` of a 200 response to `GET /agent/config`. -/
structure ConfigWrapper where
  Config : NodeConfig
  ETag : String

/-- Result of a client call that may change the client state. -/
structure ClientResult (ρ α : Type) where
  result : Except ClientError ρ
  client : Client
  panel : List (RoundTrip α)
  trace : List Event

/-- Embedding of `Client.GetConfig`; `some cfg` is `changed = true`, `none` is
`changed = false`. -/
def GetConfig (c : Client) (panel : List (RoundTrip ConfigWrapper)) :
    ClientResult (Option NodeConfig) ConfigWrapper :=
  let headers := if c.configETag ≠ "" then [("If-None-Match", c.configETag)] else []
  let r := doRequest c "GET" (c.apiBasePath ++ "/agent/config") none headers panel
  match r.result with
  | .error e => ⟨.error e, c, r.panel, r.trace⟩
  | .ok (status, payload) =>
    if status = 304 then ⟨.ok none, c, r.panel, r.trace⟩
    else if status ≠ 200 then ⟨.error (.badStatus status), c, r.panel, r.trace⟩
    else
      match payload with
      | none => ⟨.error .decode, c, r.panel, r.trace⟩
      | some wrapper =>
        ⟨.ok (some { wrapper.Config with ETag := wrapper.ETag }),
          { c with configETag := wrapper.ETag }, r.panel, r.trace⟩

/-- Embedding of `Client.GetUsers`; `some resp` is `changed = true`. -/
def GetUsers (c : Client) (panel : List (RoundTrip UserListResponse)) :
    ClientResult (Option UserListResponse) UserListResponse :=
  let headers := if c.usersETag ≠ "" then [("If-None-Match", c.usersETag)] else []
  let r := doRequest c "GET" (c.apiBasePath ++ "/agent/users") none headers panel
  match r.result with
  | .error e => ⟨.error e, c, r.panel, r.trace⟩
  | .ok (status, payload) =>
    if status = 304 then ⟨.ok none, c, r.panel, r.trace⟩
    else if status ≠ 200 then ⟨.error (.badStatus status), c, r.panel, r.trace⟩
    else
      match payload with
      | none => ⟨.error .decode, c, r.panel, r.trace⟩
      | some result => ⟨.ok (some result), { c with usersETag := result.ETag }, r.panel, r.trace⟩

/-- The JSON body `{"traffics": [...]}` of `ReportTraffic`. -/
def trafficBody (traffics : List TrafficReport) : JVal :=
  .obj [("traffics", .arr (traffics.map (fun t =>
    JVal.obj [("email", .str t.Email), ("upload", .num t.Upload),
      ("download", .num t.Download)])))]

/-- Embedding of `Client.ReportTraffic`. -/
def ReportTraffic (c : Client) (traffics : List TrafficReport) (panel : List (RoundTrip Unit)) :
    ClientResult Unit Unit :=
  let r := doRequest c "POST" (c.apiBasePath ++ "/agent/traffic") (some (trafficBody traffics))
    [] panel
  match r.result with
  | .error e => ⟨.error e, c, r.panel, r.trace⟩
  | .ok (status, _) =>
    if status ≠ 200 ∧ status ≠ 201 then ⟨.error (.badStatus status), c, r.panel, r.trace⟩
    else ⟨.ok (), c, r.panel, r.trace⟩

/-! ## Core RPC client (`internal/xray/grpc_client.go`) -/

/-- Scanner of `strings.Split` for a non-empty separator: `skip` characters of a matched
separator are still to be passed over, `cur` holds the current piece in reverse. -/
def splitAux (sep : List Char) : List Char → Nat → List Char → List (List Char)
  | [], _, cur => [cur.reverse]
  | _ :: cs, skip + 1, cur => splitAux sep cs skip cur
  | c :: cs, 0, cur =>
    if sep.isPrefixOf (c :: cs) then cur.reverse :: splitAux sep cs (sep.length - 1) []
    else splitAux sep cs 0 (c :: cur)

/-- The call `strings.Split(s, sep)` for a non-empty `sep`. -/
def stringsSplit (s sep : String) : List String :=
  (splitAux sep.toList s.toList 0 []).map String.mk

/-- One step of the parsing loop of `QueryTrafficStats` over `trafficMap`. -/
def trafficStep (trafficMap : List (String × TrafficReport)) (stat : String × Int) :
    List (String × TrafficReport) :=
  match stringsSplit stat.1 ">>>" with
  | [p0, email, p2, direction] =>
    if p0 ≠ "user" ∨ p2 ≠ "traffic" then trafficMap
    else
      let trafficMap :=
        if gmHas trafficMap email then trafficMap
        else gmSet trafficMap email { Email := email, Upload := 0, Download := 0 }
      let r := (gmGet trafficMap email).getD { Email := email, Upload := 0, Download := 0 }
      if direction = "uplink" then gmSet trafficMap email { r with Upload := stat.2 }
      else if direction = "downlink" then gmSet trafficMap email { r with Download := stat.2 }
      else trafficMap
  | _ => trafficMap

/-- Embedding of `GRPCClient.QueryTrafficStats`: `stats` is the answer of the core's
`QueryStats` for the pattern `user>>>` (name and value of each counter), `none` when the
dial or the RPC fails. -/
def QueryTrafficStats (stats : Option (List (String × Int))) : Option (List TrafficReport) :=
  match stats with
  | none => none
  | some stat =>
    let trafficMap := stat.foldl trafficStep []
    some (trafficMap.foldl
      (fun reports kv =>
        if kv.2.Upload > 0 ∨ kv.2.Download > 0 then reports ++ [kv.2] else reports)
      [])

/-! ## Core supervisor (`internal/xray/process.go`) -/

/-- State of the supervisor: the `running` flag and whether `m.cmd` and `m.cmd.Process`
are both non-nil. -/
structure ProcessManager where
  running : Bool
  hasProcess : Bool
  deriving DecidableEq, Repr

/-- Outcomes supplied by the environment during one tick. -/
structure World where
  configPanel : List (RoundTrip ConfigWrapper)
  usersPanel : List (RoundTrip UserListResponse)
  trafficPanel : List (RoundTrip Unit)
  writeOk : Bool
  coreStats : Option (List (String × Int))
  coreCallOk : CoreCall → Bool
  sigtermOk : Bool
  spawnOk : Bool

/-- Embedding of `ProcessManager.Start`; the flag is `true` when no error is returned. -/
def ProcessManager.Start (p : ProcessManager) (w : World) : Bool × ProcessManager :=
  if p.running then (true, p)
  else if !w.spawnOk then (false, { p with hasProcess := false })
  else (true, { running := true, hasProcess := true })

/-- Embedding of `ProcessManager.Stop`: after a delivered SIGTERM the child exits or is
killed after five seconds, and `running` is cleared. -/
def ProcessManager.Stop (p : ProcessManager) (w : World) : Bool × ProcessManager :=
  if !p.running || !p.hasProcess then (true, p)
  else if !w.sigtermOk then (false, p)
  else (true, { p with running := false })

/-- Embedding of `ProcessManager.Restart`: `Stop`, then (after a pause of 500 ms, which
leaves no event) `Start` unless `Stop` failed. -/
def ProcessManager.Restart (p : ProcessManager) (w : World) :
    Bool × ProcessManager × List Event :=
  let r := p.Stop w
  if !r.1 then (false, r.2, [Event.procStop])
  else
    let r2 := r.2.Start w
    (r2.1, r2.2, [Event.procStop, Event.procStart])

/-! ## Reconciliation engine (`internal/manager`) -/

/-- The agent state owned by the manager. -/
structure Manager where
  client : Client
  process : ProcessManager
  nodeConfig : Option NodeConfig
  users : List UserConfig
  rateLimits : List RateLimitConfig
  userEmails : List String

/-- Result of a manager step: whether it returned a nil error, the state, the remaining
environment, and the effects performed. -/
structure Step where
  ok : Bool
  m : Manager
  w : World
  trace : List Event

/-- Embedding of `Manager.syncConfig`. -/
def Manager.syncConfig (m : Manager) (w : World) : Step :=
  let r := GetConfig m.client w.configPanel
  let m := { m with client := r.client }
  let w := { w with configPanel := r.panel }
  let tr := Event.getConfig :: r.trace
  match r.result with
  | .error _ => ⟨false, m, w, tr⟩
  | .ok none => ⟨true, m, w, tr⟩
  | .ok (some config) => ⟨true, { m with nodeConfig := some config }, w, tr⟩

/-- Embedding of `Manager.syncUsers`. -/
def Manager.syncUsers (m : Manager) (w : World) : Step :=
  let r := GetUsers m.client w.usersPanel
  let m := { m with client := r.client }
  let w := { w with usersPanel := r.panel }
  let tr := Event.getUsers :: r.trace
  match r.result with
  | .error _ => ⟨false, m, w, tr⟩
  | .ok none => ⟨true, m, w, tr⟩
  | .ok (some resp) => ⟨true, { m with users := resp.Users, rateLimits := resp.RateLimits }, w, tr⟩

/-- Embedding of `Manager.generateAndWriteConfig`: `Generate` works on the stored
`*NodeConfig`, so its change of the routing rules stays in the manager state.
`WriteConfig` marshals the document, which cannot fail for decoded JSON values, and
calls `os.WriteFile`, whose outcome is `w.writeOk`. -/
def Manager.generateAndWriteConfig (m : Manager) (w : World) : Step :=
  match m.nodeConfig with
  | none => ⟨true, m, w, []⟩
  | some nodeConfig =>
    let g := Generate nodeConfig m.users
    ⟨w.writeOk, { m with nodeConfig := some g.2 }, w, [Event.writeConfig g.1]⟩

/-- Embedding of `Manager.flushTrafficBeforeRestart`. -/
def Manager.flushTrafficBeforeRestart (m : Manager) (w : World) : Step :=
  match QueryTrafficStats w.coreStats with
  | none => ⟨true, m, w, [Event.queryTrafficStats true]⟩
  | some traffics =>
    if traffics.length > 0 then
      let r := ReportTraffic m.client traffics w.trafficPanel
      ⟨true, { m with client := r.client }, { w with trafficPanel := r.panel },
        [Event.queryTrafficStats true, Event.reportTraffic traffics] ++ r.trace⟩
    else ⟨true, m, w, [Event.queryTrafficStats true]⟩

/-- The step `m.process.Restart(ctx)` of a loop; its error is only logged. -/
def Manager.restart (m : Manager) (w : World) : Step :=
  let r := m.process.Restart w
  ⟨r.1, { m with process := r.2.1 }, w, r.2.2⟩

/-- One tick of `Manager.configSyncLoop`. -/
def Manager.configTick (m : Manager) (w : World) : Step :=
  let s1 := m.syncConfig w
  if !s1.ok then s1
  else
    let s2 := s1.m.generateAndWriteConfig s1.w
    if !s2.ok then ⟨false, s2.m, s2.w, s1.trace ++ s2.trace⟩
    else
      let s3 := s2.m.flushTrafficBeforeRestart s2.w
      let s4 := s3.m.restart s3.w
      ⟨s4.ok, s4.m, s4.w, s1.trace ++ s2.trace ++ s3.trace ++ s4.trace⟩

/-- The map `oldMap` of `hotSyncUsers`: inbound tag to the set of member emails. -/
def buildOldMap (oldUsers : List UserConfig) : List (String × List (String × Bool)) :=
  oldUsers.foldl
    (fun m u =>
      u.InboundTags.foldl
        (fun m tag => gmSet m tag (gmSet ((gmGet m tag).getD []) u.Email true)) m)
    []

/-- The map `newMap` of `hotSyncUsers`: inbound tag to email to user record. -/
def buildNewMap (newUsers : List UserConfig) : List (String × List (String × UserConfig)) :=
  newUsers.foldl
    (fun m u =>
      u.InboundTags.foldl
        (fun m tag => gmSet m tag (gmSet ((gmGet m tag).getD []) u.Email u)) m)
    []

/-- The set `allTags` of `hotSyncUsers`: the keys of `oldMap`, then those of `newMap`. -/
def buildAllTags (oldMap : List (String × List (String × Bool)))
    (newMap : List (String × List (String × UserConfig))) : List (String × Bool) :=
  (gmKeys newMap).foldl (fun t tag => gmSet t tag true)
    ((gmKeys oldMap).foldl (fun t tag => gmSet t tag true) [])

/-- The removal loop of `hotSyncUsers` for one inbound tag. -/
def removeCalls (ok : CoreCall → Bool) (tag : String) (oldEmails : List (String × Bool))
    (newUserMap : List (String × UserConfig)) : List Event :=
  (gmKeys oldEmails).foldl
    (fun tr email =>
      if !gmHas newUserMap email then
        tr ++ [Event.core (.removeUser tag email) (ok (.removeUser tag email))]
      else tr)
    []

/-- The addition loop of `hotSyncUsers` for one inbound tag. -/
def addCalls (ok : CoreCall → Bool) (tag : String) (oldEmails : List (String × Bool))
    (newUserMap : List (String × UserConfig)) : List Event :=
  newUserMap.foldl
    (fun tr kv =>
      if !(gmGet oldEmails kv.1).getD false then
        tr ++ [Event.core (.addUser tag kv.2) (ok (.addUser tag kv.2))]
      else tr)
    []

/-- The core calls of `hotSyncUsers`, inbound tag by inbound tag. -/
def hotSyncCalls (ok : CoreCall → Bool) (oldUsers newUsers : List UserConfig) : List Event :=
  let oldMap := buildOldMap oldUsers
  let newMap := buildNewMap newUsers
  (gmKeys (buildAllTags oldMap newMap)).foldl
    (fun tr tag =>
      let oldEmails := (gmGet oldMap tag).getD []
      let newUserMap := (gmGet newMap tag).getD []
      tr ++ removeCalls ok tag oldEmails newUserMap ++ addCalls ok tag oldEmails newUserMap)
    []

/-- Embedding of `Manager.hotSyncUsers`: every failed call is logged and the function
returns nil on every path. -/
def Manager.hotSyncUsers (m : Manager) (w : World) (oldUsers newUsers : List UserConfig) :
    Step :=
  let tr := hotSyncCalls w.coreCallOk oldUsers newUsers
  let userEmails := newUsers.foldl (fun emails u => emails ++ [u.Email]) []
  ⟨true, { m with userEmails := userEmails }, w, tr⟩

/-- The maps `oldMap` and `newMap` of `hotSyncRateLimits`: email to rate limit. -/
def buildLimitMap (limits : List RateLimitConfig) : List (String × RateLimitConfig) :=
  limits.foldl (fun m rl => gmSet m rl.Email rl) []

/-- The core calls of `hotSyncRateLimits`: removals, then settings. -/
def rateLimitCalls (ok : CoreCall → Bool) (oldLimits newLimits : List RateLimitConfig) :
    List Event :=
  let oldMap := buildLimitMap oldLimits
  let newMap := buildLimitMap newLimits
  let removed := (gmKeys oldMap).foldl
    (fun tr email =>
      if !gmHas newMap email then
        tr ++ [Event.core (.removeUserRateLimit email) (ok (.removeUserRateLimit email))]
      else tr)
    []
  newMap.foldl
    (fun tr kv =>
      let exists_ := gmHas oldMap kv.1
      let oldRL := (gmGet oldMap kv.1).getD
        { Email := "", UploadBytesPerSec := 0, DownloadBytesPerSec := 0 }
      if !exists_ ∨ oldRL.UploadBytesPerSec ≠ kv.2.UploadBytesPerSec
          ∨ oldRL.DownloadBytesPerSec ≠ kv.2.DownloadBytesPerSec then
        tr ++ [Event.core
          (.setUserRateLimit kv.1 kv.2.UploadBytesPerSec kv.2.DownloadBytesPerSec)
          (ok (.setUserRateLimit kv.1 kv.2.UploadBytesPerSec kv.2.DownloadBytesPerSec))]
      else tr)
    removed

/-- Embedding of `Manager.hotSyncRateLimits`; it returns nil on every path. -/
def Manager.hotSyncRateLimits (m : Manager) (w : World)
    (oldLimits newLimits : List RateLimitConfig) : Step :=
  ⟨true, m, w, rateLimitCalls w.coreCallOk oldLimits newLimits⟩

/-- One tick of `Manager.userSyncLoop`. -/
def Manager.userTick (m : Manager) (w : World) : Step :=
  let oldUsers := m.users
  let oldRateLimits := m.rateLimits
  let s1 := m.syncUsers w
  if !s1.ok then s1
  else
    let s2 := s1.m.hotSyncUsers s1.w oldUsers s1.m.users
    if !s2.ok then
      let s3 := s2.m.generateAndWriteConfig s2.w
      if !s3.ok then ⟨false, s3.m, s3.w, s1.trace ++ s2.trace ++ s3.trace⟩
      else
        let s4 := s3.m.restart s3.w
        let s5 := s4.m.hotSyncRateLimits s4.w oldRateLimits s4.m.rateLimits
        ⟨s5.ok, s5.m, s5.w, s1.trace ++ s2.trace ++ s3.trace ++ s4.trace ++ s5.trace⟩
    else
      let s5 := s2.m.hotSyncRateLimits s2.w oldRateLimits s2.m.rateLimits
      ⟨s5.ok, s5.m, s5.w, s1.trace ++ s2.trace ++ s5.trace⟩

/-- The kinds of effect named by the ordering claims of the config loop. -/
inductive EffectKind where
  | query (reset : Bool)
  | report
  | write
  | stop
  | start
  deriving DecidableEq, Repr

/-- The effect kind of an event, `none` for events the ordering claims do not name. -/
def Event.kind : Event → Option EffectKind
  | .queryTrafficStats reset => some (.query reset)
  | .reportTraffic _ => some .report
  | .writeConfig _ => some .write
  | .procStop => some .stop
  | .procStart => some .start
  | _ => none

/-- The sequence of effect kinds of a trace. -/
def effects (tr : List Event) : List EffectKind :=
  tr.filterMap Event.kind

/-- The core calls of a trace with their outcomes (`true` for success). -/
def coreCalls (tr : List Event) : List (CoreCall × Bool) :=
  tr.filterMap (fun e => match e with | .core c ok => some (c, ok) | _ => none)

/-- Membership of `email` in inbound `tag` according to a user list: some user record
has that email and lists the tag. -/
def isMemberB (users : List UserConfig) (tag email : String) : Bool :=
  users.any (fun u => u.Email == email && u.InboundTags.contains tag)

/-- Whether a core call is `AddUser(tag, user)` for a user record with the given email. -/
def CoreCall.isAddFor (tag email : String) : CoreCall → Bool
  | .addUser t u => t == tag && u.Email == email
  | _ => false

/-- Whether a core call is `RemoveUser(tag, email)`. -/
def CoreCall.isRemoveFor (tag email : String) : CoreCall → Bool
  | .removeUser t e => t == tag && e == email
  | _ => false

/-- The two-level map built by the first loops of `hotSyncUsers`, from a start map. -/
def buildTagMap {β : Type} (val : UserConfig → β) (users : List UserConfig)
    (m : List (String × List (String × β))) : List (String × List (String × β)) :=
  users.foldl
    (fun m u =>
      u.InboundTags.foldl
        (fun m tag => gmSet m tag (gmSet ((gmGet m tag).getD []) u.Email (val u))) m)
    m

/-- Two-level lookup `m[tag][email]`. -/
def lookup2 {β : Type} (m : List (String × List (String × β))) (tag email : String) :
    Option β :=
  gmGet ((gmGet m tag).getD []) email

/-- Keys are pairwise distinct at both levels of a two-level map. -/
def WF2 {β : Type} (m : List (String × List (String × β))) : Prop :=
  (gmKeys m).Nodup ∧ ∀ tag, (gmKeys ((gmGet m tag).getD [])).Nodup

/-- Specification wording of a valid routing rule: it has an `outboundTag` or a
`balancerTag` key. -/
def hasTargetKey (rule : JVal) : Bool :=
  (rule.field "outboundTag").isSome || (rule.field "balancerTag").isSome

/-- The routing rules of a materialized configuration. -/
def XrayConfig.rules (cfg : XrayConfig) : List JVal :=
  (cfg.Routing.map (fun r => r.Rules)).getD []

/-- Specification wording of "the limit of an email in a rate-limit list": the entry of the
list with that email, the last one when the list holds several. -/
def limitOf (limits : List RateLimitConfig) (email : String) : Option RateLimitConfig :=
  (limits.filter (fun rl => rl.Email == email)).getLast?

/-- Specification wording: the email is in the new list, and it is absent from the old
list or its upload or download limit differs from the old one. -/
def needsSet (oldLimits newLimits : List RateLimitConfig) (email : String) : Bool :=
  match limitOf newLimits email with
  | none => false
  | some n =>
    match limitOf oldLimits email with
    | none => true
    | some o =>
      o.UploadBytesPerSec != n.UploadBytesPerSec || o.DownloadBytesPerSec != n.DownloadBytesPerSec

/-- Specification wording: the email is in the old list and absent from the new list. -/
def needsRemove (oldLimits newLimits : List RateLimitConfig) (email : String) : Bool :=
  (limitOf oldLimits email).isSome && (limitOf newLimits email).isNone

/-- Whether a core call is `SetUserRateLimit` for the given email. -/
def CoreCall.isSetLimitFor (email : String) : CoreCall → Bool
  | .setUserRateLimit e _ _ => e == email
  | _ => false

/-- Whether a core call is `RemoveUserRateLimit` for the given email. -/
def CoreCall.isRemoveLimitFor (email : String) : CoreCall → Bool
  | .removeUserRateLimit e => e == email
  | _ => false

/-- Whether a core call is `AddUser` or `RemoveUser`. -/
def CoreCall.isUserCall : CoreCall → Bool
  | .addUser _ _ => true
  | .removeUser _ _ => true
  | _ => false

/-! ## Hot user management (`internal/xray/grpc_client.go`) -/

/-- The values of `shadowsocks.CipherType` that `buildProtocolUser` selects. -/
inductive CipherType where
  | AES_128_GCM
  | AES_256_GCM
  | CHACHA20_POLY1305
  | NONE
  deriving DecidableEq, Repr

/-- The account variant packed into `protocol.User.Account`. -/
inductive Account where
  | vless (id flow : String)
  | vmess (id : String)
  | shadowsocks (password : String) (cipherType : CipherType)
  | trojan (password : String)
  deriving DecidableEq, Repr

/-- The message `protocol.User`; `Level` is a `uint32`. -/
structure ProtocolUser where
  Level : Nat
  Email : String
  Account : PanelAgent.Account
  deriving DecidableEq, Repr

/-- The two errors of `buildProtocolUser`. -/
inductive BuildError where
  | parseUUID
  | noCredentials
  deriving DecidableEq, Repr

/-- The conversion `uint32(n)` of a Go `int`. -/
def toUint32 (n : Int) : Nat :=
  (n % 4294967296).toNat

/-- Embedding of `GRPCClient.buildProtocolUser`. `parseUUID` stands for
`uuid.ParseString` followed by `String()` of the xray-core library: the canonical text
of the UUID, `none` when the text does not parse. -/
def buildProtocolUser (parseUUID : String → Option String) (user : UserConfig) :
    Except BuildError ProtocolUser :=
  if user.UUID ≠ "" then
    match parseUUID user.UUID with
    | none => .error .parseUUID
    | some uid =>
      if user.Flow ≠ "" then
        .ok { Level := toUint32 user.Level, Email := user.Email,
              Account := .vless uid user.Flow }
      else
        .ok { Level := toUint32 user.Level, Email := user.Email, Account := .vmess uid }
  else if user.Password ≠ "" then
    if user.Method ≠ "" then
      let cipherType :=
        if user.Method = "aes-128-gcm" then CipherType.AES_128_GCM
        else if user.Method = "chacha20-poly1305" ∨ user.Method = "chacha20-ietf-poly1305" then
          CipherType.CHACHA20_POLY1305
        else if user.Method = "none" then CipherType.NONE
        else CipherType.AES_256_GCM
      .ok { Level := toUint32 user.Level, Email := user.Email,
            Account := .shadowsocks user.Password cipherType }
    else
      .ok { Level := toUint32 user.Level, Email := user.Email,
            Account := .trojan user.Password }
  else .error .noCredentials

/-- The operation carried by an `AlterInboundRequest`. -/
inductive AlterOp where
  | addUser (user : ProtocolUser)
  | removeUser (email : String)
  deriving DecidableEq, Repr

/-- What the core RPC client does on the wire: open a connection, send a request. -/
inductive RpcEvent where
  | dial
  | alterInbound (tag : String) (op : AlterOp)
  | setUserRateLimit (email : String) (up down : Int)
  | removeUserRateLimit (email : String)
  deriving DecidableEq, Repr

/-- The core as seen by the RPC client: whether the dial succeeds and whether the core
accepts each request; `parseUUID` as in `buildProtocolUser`. -/
structure CoreEnv where
  parseUUID : String → Option String
  dialOk : Bool
  alterInboundOk : String → AlterOp → Bool
  setRateLimitOk : String → Int → Int → Bool
  removeRateLimitOk : String → Bool

/-- Embedding of `GRPCClient.AddUser`; the flag is `true` when no error is returned. -/
def GRPCClient.AddUser (env : CoreEnv) (inboundTag : String) (user : UserConfig) :
    Bool × List RpcEvent :=
  if !env.dialOk then (false, [.dial])
  else
    match buildProtocolUser env.parseUUID user with
    | .error _ => (false, [.dial])
    | .ok protoUser =>
      (env.alterInboundOk inboundTag (.addUser protoUser),
        [.dial, .alterInbound inboundTag (.addUser protoUser)])

/-- Embedding of `GRPCClient.RemoveUser`. -/
def GRPCClient.RemoveUser (env : CoreEnv) (inboundTag email : String) :
    Bool × List RpcEvent :=
  if !env.dialOk then (false, [.dial])
  else
    (env.alterInboundOk inboundTag (.removeUser email),
      [.dial, .alterInbound inboundTag (.removeUser email)])

/-- Embedding of `GRPCClient.SetUserRateLimit`. -/
def GRPCClient.SetUserRateLimit (env : CoreEnv) (email : String) (up down : Int) :
    Bool × List RpcEvent :=
  if !env.dialOk then (false, [.dial])
  else (env.setRateLimitOk email up down, [.dial, .setUserRateLimit email up down])

/-- Embedding of `GRPCClient.RemoveUserRateLimit`. -/
def GRPCClient.RemoveUserRateLimit (env : CoreEnv) (email : String) : Bool × List RpcEvent :=
  if !env.dialOk then (false, [.dial])
  else (env.removeRateLimitOk email, [.dial, .removeUserRateLimit email])

/-- The outcome of each core call of the reconciliation loops, as computed by the RPC
client against a core `env`. -/
def coreCallOutcome (env : CoreEnv) : CoreCall → Bool
  | .addUser tag user => (GRPCClient.AddUser env tag user).1
  | .removeUser tag email => (GRPCClient.RemoveUser env tag email).1
  | .setUserRateLimit email up down => (GRPCClient.SetUserRateLimit env email up down).1
  | .removeUserRateLimit email => (GRPCClient.RemoveUserRateLimit env email).1

/-! ## Sequences of conditional polls -/

/-- The value of the `If-None-Match` header of a request, `none` when the header is absent. -/
def ifNoneMatch (req : HttpRequest) : Option String :=
  gmGet req.headers "If-None-Match"

/-- The `If-None-Match` headers of the requests sent in a trace, in order. -/
def sentHeaders (tr : List Event) : List (Option String) :=
  tr.filterMap (fun e => match e with | .httpDo req => some (ifNoneMatch req) | _ => none)

/-- One call of a poll sequence, with the answers the Panel gives to its attempts. -/
inductive Poll where
  | config (panel : List (RoundTrip ConfigWrapper))
  | users (panel : List (RoundTrip UserListResponse))

/-- What is observed of one call on the wire: the resource and the `If-None-Match` header
of each request sent. -/
structure PollRecord where
  isConfig : Bool
  sent : List (Option String)
  deriving DecidableEq, Repr

/-- One `GetConfig` or `GetUsers` call: the client afterwards and the record of the call. -/
def pollStep (c : Client) : Poll → Client × PollRecord
  | .config panel =>
    let r := GetConfig c panel
    (r.client, { isConfig := true, sent := sentHeaders r.trace })
  | .users panel =>
    let r := GetUsers c panel
    (r.client, { isConfig := false, sent := sentHeaders r.trace })

/-- The records of a sequence of calls made with one client. -/
def runPolls (c : Client) : List Poll → List PollRecord
  | [] => []
  | p :: ps => (pollStep c p).2 :: runPolls (pollStep c p).1 ps

/-- The etag a client holds for a resource. -/
def Client.etagFor (c : Client) (isConfig : Bool) : String :=
  if isConfig then c.configETag else c.usersETag

/-- The conditional header that carries an etag; the empty string, which is how the Go
client holds "no etag", sends no header. -/
def etagHeader (etag : String) : Option String :=
  if etag = "" then none else some etag

/-! ## Counter names and values (specification side of `QueryTrafficStats`) -/

/-- Joining pieces with a separator, the inverse direction of `strings.Split`. -/
def joinSep (sep : List Char) : List (List Char) → List Char
  | [] => []
  | [x] => x
  | x :: y :: rest => x ++ sep ++ joinSep sep (y :: rest)

/-- Specification wording: the counter has a name of the shape
`user>>>EMAIL>>>traffic>>>DIRECTION`, that is, its `>>>`-separated fields are `user`,
the email, `traffic` and the direction. -/
def isCounter (email direction : String) (stat : String × Int) : Bool :=
  stringsSplit stat.1 ">>>" == ["user", email, "traffic", direction]

/-- Specification wording: the name is one of `user>>>EMAIL>>>traffic>>>uplink` and
`user>>>EMAIL>>>traffic>>>downlink`, for some email. -/
def isUserTrafficName (name : String) : Bool :=
  match stringsSplit name ">>>" with
  | [p0, _, p2, direction] =>
    p0 == "user" && p2 == "traffic" && (direction == "uplink" || direction == "downlink")
  | _ => false

/-- Specification wording: the value of the counter of `email` in `direction`, 0 when the
core reports no such counter. -/
def counterValue (stats : List (String × Int)) (email direction : String) : Int :=
  ((stats.find? (isCounter email direction)).map Prod.snd).getD 0

/-- The projection of `trafficStep` to the entry of one email. -/
def repStep (e : String) (acc : Option TrafficReport) (stat : String × Int) :
    Option TrafficReport :=
  match stringsSplit stat.1 ">>>" with
  | [p0, email, p2, direction] =>
    if p0 ≠ "user" ∨ p2 ≠ "traffic" then acc
    else if email ≠ e then acc
    else
      let r := acc.getD { Email := e, Upload := 0, Download := 0 }
      if direction = "uplink" then some { r with Upload := stat.2 }
      else if direction = "downlink" then some { r with Download := stat.2 }
      else some r
  | _ => acc

/-! ## Version comparison (`internal/xray/capabilities.go`) -/

/-- The value of a Go `int64` (and of `int` on the 64-bit platforms) that holds the
mathematical integer `n` after wrap-around. -/
def wrapInt64 (n : Int) : Int :=
  (n + 9223372036854775808) % 18446744073709551616 - 9223372036854775808

/-- The loop of `parseVersionPart` over the runes of the string, loop variable `n`. -/
def parseVersionPartLoop : List Char → Int → Int
  | [], n => n
  | c :: cs, n =>
    if '0' ≤ c ∧ c ≤ '9' then
      parseVersionPartLoop cs (wrapInt64 (n * 10 + ((c.toNat : Int) - ('0'.toNat : Int))))
    else n

/-- Embedding of `parseVersionPart`. -/
def parseVersionPart (s : String) : Int :=
  parseVersionPartLoop s.toList 0

/-- The loop `for i := 0; i < 3; i++` of `compareVersion`, `fuel` iterations left. -/
def compareVersionLoop (parts1 parts2 : List String) : Nat → Nat → Int
  | 0, _ => 0
  | fuel + 1, i =>
    let n1 : Int :=
      match parts1[i]? with
      | some p => parseVersionPart p
      | none => 0
    let n2 : Int :=
      match parts2[i]? with
      | some p => parseVersionPart p
      | none => 0
    if n1 < n2 then -1
    else if n1 > n2 then 1
    else compareVersionLoop parts1 parts2 fuel (i + 1)

/-- Embedding of `compareVersion`. -/
def compareVersion (v1 v2 : String) : Int :=
  if v1 = "unknown" then -1
  else compareVersionLoop (stringsSplit v1 ".") (stringsSplit v2 ".") 3 0

/-! ## Device-limit enforcement (`internal/xray/grpc_client.go`, `internal/manager/loops.go`) -/

/-- Embedding of `GRPCClient.RemoveUserFromAllInbounds`: one dial, whose failure is
returned before any request; then one `AlterInbound` request per tag, where a failed
request is logged and the loop goes on; nil is returned after the loop. -/
def GRPCClient.RemoveUserFromAllInbounds (env : CoreEnv) (email : String)
    (inboundTags : List String) : Bool × List RpcEvent :=
  if !env.dialOk then (false, [.dial])
  else
    (true,
      inboundTags.foldl
        (fun tr tag =>
          let tr := tr ++ [RpcEvent.alterInbound tag (.removeUser email)]
          if !env.alterInboundOk tag (.removeUser email) then tr else tr)
        [.dial])

/-- Embedding of `GRPCClient.KickUser`. -/
def GRPCClient.KickUser (env : CoreEnv) (email : String) (inboundTags : List String) :
    Bool × List RpcEvent :=
  GRPCClient.RemoveUserFromAllInbounds env email inboundTags

/-- An entry of the alive report. -/
structure AliveUser where
  Email : String
  IP : String
  DeviceID : String
  deriving DecidableEq, Repr

/-- The payload of a 200 response to `POST /agent/alive`. -/
structure AliveResponse where
  Success : Bool
  KickUsers : List String
  deriving DecidableEq, Repr

/-- Embedding of `GRPCClient.GetUserOnlineIPs`: the map of online addresses, which the
source leaves empty, with a nil error. -/
def GRPCClient.GetUserOnlineIPs (_email : String) : List (String × Int) :=
  []

/-- Embedding of `GRPCClient.GetAllOnlineUsers`; it returns a nil error. -/
def GRPCClient.GetAllOnlineUsers (emails : List String) : List AliveUser :=
  emails.foldl
    (fun aliveUsers email =>
      (GRPCClient.GetUserOnlineIPs email).foldl
        (fun aliveUsers ip => aliveUsers ++ [{ Email := email, IP := ip.1, DeviceID := "" }])
        aliveUsers)
    []

/-- The JSON body `{"aliveUsers": ...}` of `ReportAlive`; a slice that was never appended
to is nil and is encoded as `null`. -/
def aliveBody (users : List AliveUser) : JVal :=
  .obj [("aliveUsers",
    if users.isEmpty then .null
    else .arr (users.map (fun u =>
      JVal.obj ([("email", JVal.str u.Email), ("ip", JVal.str u.IP)]
        ++ (if u.DeviceID = "" then [] else [("deviceId", JVal.str u.DeviceID)])))))]

/-- Embedding of `Client.ReportAlive`. -/
def ReportAlive (c : Client) (users : List AliveUser) (panel : List (RoundTrip AliveResponse)) :
    ClientResult AliveResponse AliveResponse :=
  let r := doRequest c "POST" (c.apiBasePath ++ "/agent/alive") (some (aliveBody users)) [] panel
  match r.result with
  | .error e => ⟨.error e, c, r.panel, r.trace⟩
  | .ok (status, payload) =>
    if status ≠ 200 ∧ status ≠ 201 then ⟨.error (.badStatus status), c, r.panel, r.trace⟩
    else
      match payload with
      | none => ⟨.error .decode, c, r.panel, r.trace⟩
      | some result => ⟨.ok result, c, r.panel, r.trace⟩

/-- Embedding of `Manager.getInboundTags`. -/
def Manager.getInboundTags (m : Manager) : List String :=
  match m.nodeConfig with
  | none => []
  | some nodeConfig => nodeConfig.Inbounds.foldl (fun tags inb => tags ++ [inb.Tag]) []

/-- What one tick of the alive loop does: the requests sent to the Panel and the
operations on the core RPC. -/
structure AliveStep where
  client : Client
  panel : List (RoundTrip AliveResponse)
  trace : List Event
  rpc : List RpcEvent

/-- One tick of `Manager.aliveReportLoop`; every error is logged only. -/
def Manager.aliveTick (m : Manager) (env : CoreEnv) (panel : List (RoundTrip AliveResponse)) :
    AliveStep :=
  let aliveUsers := GRPCClient.GetAllOnlineUsers m.userEmails
  let r := ReportAlive m.client aliveUsers panel
  match r.result with
  | .error _ => ⟨r.client, r.panel, r.trace, []⟩
  | .ok resp =>
    if resp.KickUsers.length > 0 then
      let inboundTags := m.getInboundTags
      ⟨r.client, r.panel, r.trace,
        resp.KickUsers.foldl
          (fun rpc email => rpc ++ (GRPCClient.KickUser env email inboundTags).2) []⟩
    else ⟨r.client, r.panel, r.trace, []⟩

/-- The `RemoveUser` operations of an RPC trace, as pairs (inbound tag, email), in order. -/
def removals (rpc : List RpcEvent) : List (String × String) :=
  rpc.filterMap (fun e =>
    match e with
    | .alterInbound tag (.removeUser email) => some (tag, email)
    | _ => none)

/-! ## Outcomes of Panel round trips -/

/-- Whether `doRequest` takes a round trip as a failure to be retried: a transport error
or a response with a status of 500 or above. -/
def RoundTrip.isFailure {α : Type} : RoundTrip α → Bool
  | .transportError _ => true
  | .response status _ => decide (status ≥ 500)

/-- The `changed` flag returned by `GetConfig` and `GetUsers`: it is `true` only together
with a payload and a nil error. -/
def ClientResult.changed {ρ α : Type} (r : ClientResult (Option ρ) α) : Bool :=
  match r.result with
  | .ok (some _) => true
  | _ => false

/-- The request bodies of the attempts of a trace, in order. -/
def sentBodies (tr : List Event) : List SentBody :=
  tr.filterMap (fun e => match e with | .httpDo req => some req.body | _ => none)

/-! ## Answers of the Panel to a sequence of polls (specification side) -/

/-- The number of requests a call may send: `retryCount + 1` when that is positive, none
when the request cannot be created. -/
def Client.attemptsAllowed (c : Client) : Nat :=
  if c.urlOk then (c.retryCount + 1).toNat else 0

/-- Specification wording: the etag of the 200 response that the Panel gives to a call
sending at most `attempts` requests. The response of the call is the first of the Panel's
answers to these requests that is not retried; it delivers an etag when its status is 200
and its payload decodes, `etagOf` reading the etag of the payload. -/
def answeredEtag {α : Type} (etagOf : α → String) (attempts : Nat)
    (panel : List (RoundTrip α)) : Option String :=
  match (panel.take attempts).find? (fun rt => !rt.isFailure) with
  | some (.response status (some payload)) => if status = 200 then some (etagOf payload) else none
  | _ => none

/-- The resource a poll asks for. -/
def Poll.isConfig : Poll → Bool
  | .config _ => true
  | .users _ => false

/-- Specification wording: the etag of the 200 response that the Panel gives to a poll. -/
def Poll.answeredEtag (attempts : Nat) : Poll → Option String
  | .config panel => PanelAgent.answeredEtag (fun w => w.ETag) attempts panel
  | .users panel => PanelAgent.answeredEtag (fun r => r.ETag) attempts panel

/-- Specification wording: the etag of the most recent 200 response that the Panel gave
to an earlier poll for the resource, `init` (the etag held before the first call, empty
for a new client) when there was none. -/
def lastAnsweredEtag (isConfig : Bool) (init : String) (attempts : Nat)
    (earlier : List Poll) : String :=
  (((earlier.filter (fun p => p.isConfig == isConfig)).filterMap
    (fun p => p.answeredEtag attempts)).getLast?).getD init

/-! ## Registration (`internal/client/client.go`, `internal/manager/tasks.go`) -/

/-- The section `interval` of the agent configuration; each field is a `time.Duration`,
an `int64` count of nanoseconds. -/
structure IntervalConfig where
  ConfigPoll : Int
  UserPoll : Int
  TrafficReport : Int
  StatusReport : Int
  AlivePoll : Int
  deriving DecidableEq, Repr

/-- The request of `POST /agent/register`; `register` leaves `Capabilities` nil. -/
structure RegisterRequest where
  Hostname : String
  OS : String
  Arch : String
  PublicIP : String
  XrayVersion : String
  deriving DecidableEq, Repr

/-- The payload of a 200 or 201 response to `POST /agent/register`; intervals in seconds. -/
structure RegisterResponse where
  NodeID : String
  NodeName : String
  ConfigPollInterval : Int
  UserPollInterval : Int
  TrafficReportInterval : Int
  StatusReportInterval : Int
  AlivePollInterval : Int
  deriving DecidableEq, Repr

/-- The JSON body of `Register`. -/
def registerBody (req : RegisterRequest) : JVal :=
  .obj [("hostname", .str req.Hostname), ("os", .str req.OS), ("arch", .str req.Arch),
        ("publicIp", .str req.PublicIP), ("xrayVersion", .str req.XrayVersion)]

/-- Embedding of `Client.Register`. -/
def Register (c : Client) (req : RegisterRequest) (panel : List (RoundTrip RegisterResponse)) :
    ClientResult RegisterResponse RegisterResponse :=
  let r := doRequest c "POST" (c.apiBasePath ++ "/agent/register") (some (registerBody req)) []
    panel
  match r.result with
  | .error e => ⟨.error e, c, r.panel, r.trace⟩
  | .ok (status, payload) =>
    if status ≠ 200 ∧ status ≠ 201 then ⟨.error (.badStatus status), c, r.panel, r.trace⟩
    else
      match payload with
      | none => ⟨.error .decode, c, r.panel, r.trace⟩
      | some result => ⟨.ok result, c, r.panel, r.trace⟩

/-- The expression `time.Duration(n) * time.Second`: an `int64` product in nanoseconds. -/
def secondsDuration (n : Int) : Int :=
  wrapInt64 (n * 1000000000)

/-- Result of `Manager.register`: whether it returned nil, the intervals of the agent
configuration afterwards, the client, the answers the Panel has left, and the effects. -/
structure RegisterStep where
  ok : Bool
  intervals : IntervalConfig
  client : Client
  panel : List (RoundTrip RegisterResponse)
  trace : List Event

/-- Embedding of `Manager.register`; `req` is the request built from the host name, the
operating system, the architecture, the public address and the core version. -/
def Manager.register (c : Client) (intervals : IntervalConfig) (req : RegisterRequest)
    (panel : List (RoundTrip RegisterResponse)) : RegisterStep :=
  let r := Register c req panel
  match r.result with
  | .error _ => ⟨false, intervals, r.client, r.panel, r.trace⟩
  | .ok resp =>
    let intervals :=
      if resp.ConfigPollInterval > 0 then
        { intervals with ConfigPoll := secondsDuration resp.ConfigPollInterval }
      else intervals
    let intervals :=
      if resp.UserPollInterval > 0 then
        { intervals with UserPoll := secondsDuration resp.UserPollInterval }
      else intervals
    let intervals :=
      if resp.TrafficReportInterval > 0 then
        { intervals with TrafficReport := secondsDuration resp.TrafficReportInterval }
      else intervals
    let intervals :=
      if resp.StatusReportInterval > 0 then
        { intervals with StatusReport := secondsDuration resp.StatusReportInterval }
      else intervals
    let intervals :=
      if resp.AlivePollInterval > 0 then
        { intervals with AlivePoll := secondsDuration resp.AlivePollInterval }
      else intervals
    ⟨true, intervals, r.client, r.panel, r.trace⟩

/-! ## binary64 arithmetic (Go `float64`) -/

/-- Rounding of a rational to the nearest number with a significand of 53 bits, ties to
the even significand. This is the rounding of IEEE 754 binary64 for every result in the
normal range; the bounds of the exponent are not embedded: a binary64 result that is
subnormal or zero is below 1 in magnitude here as well, and a binary64 result that is
infinite is at least 2^1023 in magnitude here, which is all that the conversions to
`int64` below distinguish. -/
def roundFloat64 (q : ℚ) : ℚ :=
  if q = 0 then 0
  else
    let e : Int := Int.log 2 |q|
    let ulp : ℚ := (2 : ℚ) ^ (e - 52)
    let m : ℚ := |q| / ulp
    let f : Int := ⌊m⌋
    let n : Int :=
      if m - f < 1 / 2 then f
      else if 1 / 2 < m - f then f + 1
      else if f % 2 = 0 then f
      else f + 1
    if q < 0 then -((n : ℚ) * ulp) else (n : ℚ) * ulp

/-- The conversion `float64(n)` of an integer. -/
def float64OfInt (n : Int) : ℚ :=
  roundFloat64 n

/-- The quotient `x / y` of two `float64` values, `y` not zero. -/
def float64Div (x y : ℚ) : ℚ :=
  roundFloat64 (x / y)

/-- The sum `x + y` of two `float64` values. -/
def float64Add (x y : ℚ) : ℚ :=
  roundFloat64 (x + y)

/-- The processor architectures for which the result of an out-of-range conversion from
`float64` to `int64` is embedded. -/
inductive Arch where
  | amd64
  | arm64
  deriving DecidableEq, Repr

/-- The conversion `int64(x)` of a `float64`: the fraction is discarded (truncation
toward zero). When the truncated value does not fit in an `int64`, the Go specification
leaves the result to the implementation: amd64 yields the minimum `int64`
(-9223372036854775808), arm64 yields the nearest bound of the `int64` range. -/
def int64OfFloat64 (arch : Arch) (x : ℚ) : Int :=
  let t : Int := if 0 ≤ x then ⌊x⌋ else ⌈x⌉
  if -9223372036854775808 ≤ t ∧ t < 9223372036854775808 then t
  else
    match arch with
    | .amd64 => -9223372036854775808
    | .arm64 => if x < 0 then -9223372036854775808 else 9223372036854775807

/-! ## Stats aggregator (`internal/stats/collector.go`) -/

structure UserTraffic where
  Email : String
  Upload : Int
  Download : Int
  UploadRate : Int
  DownloadRate : Int
  deriving DecidableEq, Repr

structure InboundTraffic where
  Tag : String
  Upload : Int
  Download : Int
  deriving DecidableEq, Repr

structure OutboundTraffic where
  Tag : String
  Upload : Int
  Download : Int
  deriving DecidableEq, Repr

structure TrafficStats where
  Users : List UserTraffic
  Inbounds : List InboundTraffic
  Outbounds : List OutboundTraffic
  Timestamp : Int
  deriving DecidableEq, Repr

/-- State of the collector. A time instant is embedded as its count of nanoseconds since
the Unix epoch; `none` is the zero `time.Time`. -/
structure XrayCollector where
  lastStats : Option TrafficStats
  lastQueryTime : Option Int

/-- The three maps of the parsing loop of `QueryStats`. -/
structure StatMaps where
  userMap : List (String × UserTraffic)
  inboundMap : List (String × InboundTraffic)
  outboundMap : List (String × OutboundTraffic)
  deriving DecidableEq, Repr

/-- One case of the `switch` of the parsing loop, which the source writes out for each of
the three maps: create the entry of `name` with `mk` when the map has none, then store the
value as upload for the direction `uplink` and as download for `downlink`. -/
def bumpCounter {τ : Type} (mk : String → τ) (setUpload setDownload : τ → Int → τ)
    (m : List (String × τ)) (name direction : String) (value : Int) : List (String × τ) :=
  let m := if (gmGet m name).isNone then gmSet m name (mk name) else m
  let cur := (gmGet m name).getD (mk name)
  if direction = "uplink" then gmSet m name (setUpload cur value)
  else if direction = "downlink" then gmSet m name (setDownload cur value)
  else m

/-- The record `&UserTraffic{Email: name}`. -/
def UserTraffic.new (name : String) : UserTraffic :=
  { Email := name, Upload := 0, Download := 0, UploadRate := 0, DownloadRate := 0 }

/-- The record `&InboundTraffic{Tag: name}`. -/
def InboundTraffic.new (name : String) : InboundTraffic :=
  { Tag := name, Upload := 0, Download := 0 }

/-- The record `&OutboundTraffic{Tag: name}`. -/
def OutboundTraffic.new (name : String) : OutboundTraffic :=
  { Tag := name, Upload := 0, Download := 0 }

/-- The body of the parsing loop of `QueryStats` for one counter (name, value). -/
def statStep (maps : StatMaps) (stat : String × Int) : StatMaps :=
  match stringsSplit stat.1 ">>>" with
  | category :: name :: statType :: direction :: _ =>
    if statType ≠ "traffic" then maps
    else if category = "user" then
      { maps with
        userMap := bumpCounter UserTraffic.new (fun u v => { u with Upload := v })
          (fun u v => { u with Download := v }) maps.userMap name direction stat.2 }
    else if category = "inbound" then
      { maps with
        inboundMap := bumpCounter InboundTraffic.new (fun u v => { u with Upload := v })
          (fun u v => { u with Download := v }) maps.inboundMap name direction stat.2 }
    else if category = "outbound" then
      { maps with
        outboundMap := bumpCounter OutboundTraffic.new (fun u v => { u with Upload := v })
          (fun u v => { u with Download := v }) maps.outboundMap name direction stat.2 }
    else maps
  | _ => maps

/-- Embedding of `XrayCollector.calculateUserRates` for a positive `elapsed`; the result is
`userMap` after the call. -/
def XrayCollector.calculateUserRates (arch : Arch) (c : XrayCollector)
    (userMap : List (String × UserTraffic)) (elapsed : ℚ) : List (String × UserTraffic) :=
  match c.lastStats with
  | none => userMap
  | some lastStats =>
    let lastUserMap := lastStats.Users.foldl (fun m u => gmSet m u.Email u) []
    userMap.map (fun kv =>
      match gmGet lastUserMap kv.1 with
      | some last =>
        let uploadDiff := wrapInt64 (kv.2.Upload - last.Upload)
        let downloadDiff := wrapInt64 (kv.2.Download - last.Download)
        let current :=
          if uploadDiff > 0 then
            { kv.2 with
              UploadRate := int64OfFloat64 arch (float64Div (float64OfInt uploadDiff) elapsed) }
          else kv.2
        let current :=
          if downloadDiff > 0 then
            { current with
              DownloadRate :=
                int64OfFloat64 arch (float64Div (float64OfInt downloadDiff) elapsed) }
          else current
        (kv.1, current)
      | none => kv)

/-- The duration `t.Sub(u)`: the difference in nanoseconds, kept within the `int64` range. -/
def timeSub (t u : Int) : Int :=
  max (-9223372036854775808) (min 9223372036854775807 (t - u))

/-- The method `Duration.Seconds`: whole seconds plus the remaining nanoseconds over 1e9. -/
def durationSeconds (d : Int) : ℚ :=
  float64Add (float64OfInt (d.tdiv 1000000000))
    (float64Div (float64OfInt (d.tmod 1000000000)) 1000000000)

/-- Embedding of `XrayCollector.QueryStats`: `resp` is the answer of the core's `QueryStats`
for the empty pattern (name and value of each counter), `none` when the dial or the RPC
fails; `now` is the reading of `time.Now()`. The result is the returned snapshot (`none`
for an error) and the collector afterwards. -/
def XrayCollector.QueryStats (arch : Arch) (c : XrayCollector) (now : Int)
    (resp : Option (List (String × Int))) : Option TrafficStats × XrayCollector :=
  match resp with
  | none => (none, c)
  | some stat =>
    let maps := stat.foldl statStep { userMap := [], inboundMap := [], outboundMap := [] }
    let userMap :=
      match c.lastStats, c.lastQueryTime with
      | some _, some lastQueryTime =>
        let elapsed := durationSeconds (timeSub now lastQueryTime)
        if elapsed > 0 then c.calculateUserRates arch maps.userMap elapsed else maps.userMap
      | _, _ => maps.userMap
    let stats : TrafficStats :=
      { Users := userMap.foldl
          (fun users kv =>
            if kv.2.Upload > 0 ∨ kv.2.Download > 0 then users ++ [kv.2] else users) []
        Inbounds := maps.inboundMap.foldl
          (fun inbounds kv =>
            if kv.2.Upload > 0 ∨ kv.2.Download > 0 then inbounds ++ [kv.2] else inbounds) []
        Outbounds := maps.outboundMap.foldl
          (fun outbounds kv =>
            if kv.2.Upload > 0 ∨ kv.2.Download > 0 then outbounds ++ [kv.2] else outbounds) []
        Timestamp := now / 1000000000 }
    (some stats, { lastStats := some stats, lastQueryTime := some now })

/-- Specification wording of "the sample of an email in the previous snapshot": the sample
of the list with that email, the last one when the list holds several. -/
def lastSample (users : List UserTraffic) (email : String) : Option UserTraffic :=
  (users.filter (fun u => u.Email == email)).getLast?

/-- Specification wording of the rate `max(0, Δ)/Δt`: zero for a delta that is negative or
zero, otherwise the `float64` quotient of the delta by the elapsed seconds, converted to
`int64`. -/
def clippedRate (arch : Arch) (delta : Int) (elapsed : ℚ) : Int :=
  if delta > 0 then int64OfFloat64 arch (float64Div (float64OfInt delta) elapsed) else 0

/-- Specification wording: the name has exactly the shape
`<scope>>>><name>>>>traffic>>><direction>`, that is, exactly four `>>>`-separated fields,
with the scope `user`, `inbound` or `outbound`, the third field `traffic`, and the
direction `uplink` or `downlink`. -/
def hasCounterShape (name : String) : Bool :=
  match stringsSplit name ">>>" with
  | [scope, _, statType, direction] =>
    (scope == "user" || scope == "inbound" || scope == "outbound") && statType == "traffic"
      && (direction == "uplink" || direction == "downlink")
  | _ => false

/-- The names whose first four `>>>`-separated fields are as in `hasCounterShape`; the
name may go on with further fields. -/
def leadsWithCounterShape (name : String) : Bool :=
  match stringsSplit name ">>>" with
  | scope :: _ :: statType :: direction :: _ =>
    (scope == "user" || scope == "inbound" || scope == "outbound") && statType == "traffic"
      && (direction == "uplink" || direction == "downlink")
  | _ => false

/-- The entry of `name` in a map of the parsing loop, the fresh record when the map has
none. -/
def entryOr {τ : Type} (mk : String → τ) (m : List (String × τ)) (name : String) : τ :=
  (gmGet m name).getD (mk name)

/-- The effect of one counter on the entries of the map of one scope. -/
def scopeStep {τ : Type} (setUpload setDownload : τ → Int → τ) (scope : String)
    (g : String → τ) (stat : String × Int) : String → τ :=
  match stringsSplit stat.1 ">>>" with
  | category :: name :: statType :: direction :: _ =>
    if statType = "traffic" ∧ category = scope then
      if direction = "uplink" then
        fun k => if k = name then setUpload (g name) stat.2 else g k
      else if direction = "downlink" then
        fun k => if k = name then setDownload (g name) stat.2 else g k
      else g
    else g
  | _ => g

/-- The sample of one user after the rate computation against the samples of the previous
snapshot: the email and the counters stay, the rates are set for positive deltas. -/
def ratedEntry (arch : Arch) (prevUsers : List UserTraffic) (elapsed : ℚ)
    (kv : String × UserTraffic) : String × UserTraffic :=
  match lastSample prevUsers kv.1 with
  | some last =>
    (kv.1,
      { Email := kv.2.Email, Upload := kv.2.Upload, Download := kv.2.Download,
        UploadRate :=
          if wrapInt64 (kv.2.Upload - last.Upload) > 0 then
            clippedRate arch (wrapInt64 (kv.2.Upload - last.Upload)) elapsed
          else kv.2.UploadRate,
        DownloadRate :=
          if wrapInt64 (kv.2.Download - last.Download) > 0 then
            clippedRate arch (wrapInt64 (kv.2.Download - last.Download)) elapsed
          else kv.2.DownloadRate })
  | none => kv

/-! ## The way back from a materialized configuration (specification side of the round trip) -/

/-- Whether a materialized inbound carries the tag `api-inbound`. -/
def isApiInbound (v : JVal) : Bool :=
  match v.field "tag" with
  | some (.str tag) => tag == "api-inbound"
  | _ => false

/-- Whether a routing rule is the API rule of `Generate`. -/
def isApiRule : JVal → Bool
  | .obj [("type", .str "field"), ("inboundTag", .arr [.str "api-inbound"]),
          ("outboundTag", .str "api")] => true
  | _ => false

/-- Specification wording of "parsing a materialized inbound and stripping the injected
clients/accounts": the fields are read back under their JSON names, an absent optional
blob is nil, and the injected member list is deleted from the settings. -/
def stripInbound (v : JVal) : Option InboundConfig :=
  match v.field "tag", v.field "protocol", v.field "port", v.field "listen",
      v.field "settings" with
  | some (.str tag), some (.str protocol), some (.num port), some (.str listen),
      some (.obj settings) =>
    some
      { Tag := tag, Protocol := protocol, Port := port, Listen := listen,
        Settings := .obj (gmDelete settings (memberKey protocol)),
        StreamSettings := (v.field "streamSettings").getD .null,
        Sniffing := (v.field "sniffing").getD .null,
        Allocate := (v.field "allocate").getD .null }
  | _, _, _, _, _ => none

/-- What the way back yields: inbounds, outbounds and routing rules. -/
structure Declared where
  Inbounds : List InboundConfig
  Outbounds : List OutboundConfig
  Rules : List JVal

/-- Specification wording of the way back: strip the `api-inbound` inbound and the
injected members, the `api` outbound, the `direct` outbound when it was synthesized
(`synthesizedDirect`), and the API routing rule. -/
def stripGenerated (synthesizedDirect : Bool) (cfg : XrayConfig) : Declared :=
  { Inbounds := (cfg.Inbounds.eraseP isApiInbound).filterMap stripInbound
    Outbounds :=
      let obs := cfg.Outbounds.eraseP (fun ob => ob.Tag == "api")
      if synthesizedDirect then obs.eraseP (fun ob => ob.Tag == "direct") else obs
    Rules := cfg.rules.eraseP isApiRule }

/-- An inbound as the way back returns it: its settings are the settings object (empty
when the settings are not an object) without the keys that `Generate` replaces, `clients`
and, for `socks`, `accounts`. -/
def InboundConfig.withoutMembers (ib : InboundConfig) : InboundConfig :=
  { ib with
    Settings :=
      .obj (if ib.Protocol = "socks" then
          gmDelete (gmDelete ((cloneSettings ib.Settings).getD []) "clients") "accounts"
        else gmDelete ((cloneSettings ib.Settings).getD []) "clients") }

/-- The routing rules declared by a NodeConfig, none when it has no routing section. -/
def NodeConfig.rules (nodeConfig : NodeConfig) : List JVal :=
  (nodeConfig.Routing.map (fun r => r.Rules)).getD []

/-- Whether `Generate` synthesizes the `direct` outbound for a NodeConfig. -/
def NodeConfig.lacksDirect (nodeConfig : NodeConfig) : Bool :=
  !nodeConfig.Outbounds.any (fun ob => ob.Tag == "direct")

/-! ## Concrete inputs used by witnesses and counterexamples -/

/-- A user record with the given email, credentials and inbound tags; other fields zero. -/
def mkUser (email uuid password : String) (tags : List String) : UserConfig :=
  { Email := email, UUID := uuid, Password := password, Flow := "", AlterID := 0,
    Security := "", Method := "", Level := 0, InboundTags := tags, OutboundTag := "",
    TotalBytes := 0, UsedBytes := 0, ExpiryTime := 0, UploadLimit := 0, DownloadLimit := 0,
    DeviceLimit := 0 }

/-- An inbound with the given tag, protocol, port and settings; no optional blobs. -/
def mkInbound (tag protocol : String) (port : Int) (settings : JVal) : InboundConfig :=
  { Tag := tag, Protocol := protocol, Port := port, Listen := "0.0.0.0", Settings := settings,
    StreamSettings := .null, Sniffing := .null, Allocate := .null }

/-- A node config with the given inbounds, no outbounds, no routing, no dns, no policy. -/
def mkNode (inbounds : List InboundConfig) : NodeConfig :=
  { Version := "1", ETag := "e1", Inbounds := inbounds, Outbounds := [], Routing := none,
    DNS := .null, Policy := .null }

/-- Scenario 1 of the specification: one vless inbound `in0` on port 443. -/
def exVlessIn0 : InboundConfig := mkInbound "in0" "vless" 443 (.obj [("decryption", .str "none")])

/-- Scenario 6 of the specification: the socks inbound `s0`, here with a prior `clients` key. -/
def exSocksS0 : InboundConfig := mkInbound "s0" "socks" 1080 (.obj [("clients", .arr [])])

/-- User `a@x` of scenario 1, member of `in0`. -/
def exUserA : UserConfig := mkUser "a@x" "6ba7b810-9dad-11d1-80b4-00c04fd430c8" "" ["in0"]

/-- User `u1` of scenario 6, member of `s0`. -/
def exUserU1 : UserConfig := mkUser "u1" "" "p" ["s0"]

/-- A user record that lists the inbound tag `in0` twice. -/
def exUserTwice : UserConfig :=
  mkUser "a@x" "6ba7b810-9dad-11d1-80b4-00c04fd430c8" "" ["in0", "in0"]

/-- A Panel client with `retry_count = 3` that holds an etag for both resources. -/
def exClient : Client :=
  { baseURL := "https://panel.example", apiBasePath := "/api", nodeToken := "token",
    urlOk := true, retryCount := 3, configETag := "e1", usersETag := "u1" }

/-- The agent after the cold boot of scenario 1: core running, `in0` with user `a@x`. -/
def exManager : Manager :=
  { client := exClient, process := { running := true, hasProcess := true },
    nodeConfig := some (mkNode [exVlessIn0]), users := [exUserA], rateLimits := [],
    userEmails := ["a@x"] }

/-- The changed node config delivered in scenario 3: a second inbound `in1`. -/
def exNewConfig : ConfigWrapper :=
  { Config := mkNode [exVlessIn0, mkInbound "in1" "trojan" 8443 .null], ETag := "e2" }

/-- An environment in which everything succeeds and the core holds the counter
`user>>>a@x>>>traffic>>>uplink = 1000` of scenario 3; the answers of the Panel to
`GET /agent/config` and `GET /agent/users` are given. -/
def exWorld (configPanel : List (RoundTrip ConfigWrapper))
    (usersPanel : List (RoundTrip UserListResponse)) : World :=
  { configPanel := configPanel, usersPanel := usersPanel,
    trafficPanel := [.response 200 (some ())], writeOk := true,
    coreStats := some [("user>>>a@x>>>traffic>>>uplink", 1000)],
    coreCallOk := fun _ => true, sigtermOk := true, spawnOk := true }

/-- User `b@x` of scenario 2, member of `in0`. -/
def exUserB : UserConfig := mkUser "b@x" "6ba7b811-9dad-11d1-80b4-00c04fd430c8" "" ["in0"]

/-- The users answer of scenario 2: `a@x` and the added `b@x`. -/
def exUsersAdded : UserListResponse :=
  { Version := "2", ETag := "u2", Users := [exUserA, exUserB], RateLimits := [] }

/-- The agent of `exManager` facing a core whose RPC endpoint is unavailable: every core
call fails and the counter query fails. -/
def exWorldCoreDown (configPanel : List (RoundTrip ConfigWrapper))
    (usersPanel : List (RoundTrip UserListResponse)) : World :=
  { exWorld configPanel usersPanel with coreStats := none, coreCallOk := fun _ => false }

/-- The Panel of scenario 5: three answers 503, then 200 with a changed config. -/
def exPanel503 : List (RoundTrip ConfigWrapper) :=
  [.response 503 none, .response 503 none, .response 503 none,
   .response 200 (some exNewConfig)]

/-- A user-supplied routing rule that sends the domain `example.com` to `direct`. -/
def exRule : JVal :=
  .obj [("type", .str "field"), ("domain", .arr [.str "example.com"]),
        ("outboundTag", .str "direct")]

/-- The node config of scenario 1 with a routing section holding `exRule`. -/
def exRoutedNode : NodeConfig :=
  { mkNode [exVlessIn0] with
    Routing := some { DomainStrategy := "IPIfNonMatch", Rules := [exRule], Balancers := [] } }

/-- A user record with neither UUID nor password, member of `in0`. -/
def exUserBad : UserConfig := mkUser "bad@x" "" "" ["in0"]

/-- The users answer of a Panel whose user list is the stored one, under a new etag. -/
def exUsersSame : UserListResponse :=
  { Version := "2", ETag := "u2", Users := [exUserA],
    RateLimits := [{ Email := "a@x", UploadBytesPerSec := 1000, DownloadBytesPerSec := 2000 }] }

/-- An environment as `exWorld` in which the child process cannot be spawned. -/
def exWorldSpawnFails : World :=
  { exWorld [] [] with spawnOk := false }

/-- An environment as `exWorld` in which SIGTERM cannot be delivered. -/
def exWorldSigtermFails : World :=
  { exWorld [] [] with sigtermOk := false }

/-- A core that is reachable and accepts every request; every UUID text parses to itself. -/
def exCoreEnv : CoreEnv :=
  { parseUUID := fun s => some s, dialOk := true, alterInboundOk := fun _ _ => true,
    setRateLimitOk := fun _ _ _ => true, removeRateLimitOk := fun _ => true }

/-- User `a@x` with level `-1`. -/
def exUserNegLevel : UserConfig := { exUserA with Level := -1 }

/-- User `v@x` with a UUID and a flow, member of `in0`. -/
def exUserVless : UserConfig := { exUserA with Email := "v@x", Flow := "xtls-rprx-vision" }

/-- A new Panel client: no etag held for either resource. -/
def exNewClient : Client := { exClient with configETag := "", usersETag := "" }

/-- A poll sequence: config answered 200 with etag `e2`, users answered 200 with etag
`u2`, config answered 503 four times, users answered 304, config answered 304, users
answered by a transport error and then 304. -/
def exPolls : List Poll :=
  [.config [.response 200 (some exNewConfig)],
   .users [.response 200 (some exUsersAdded)],
   .config [.response 503 none, .response 503 none, .response 503 none, .response 503 none],
   .users [.response 304 none],
   .config [.response 304 none],
   .users [.transportError false, .response 304 none]]

/-- The counter of scenario 3 after two counters that share a name which is not a user
traffic name. -/
def exStatsRepeated : List (String × Int) :=
  [("user>>>a@x>>>online", 1), ("user>>>a@x>>>online", 2),
   ("user>>>a@x>>>traffic>>>uplink", 1000)]

/-- A counter list whose only counter holds a negative value. -/
def exStatsNegative : List (String × Int) := [("user>>>a@x>>>traffic>>>uplink", -5)]

/-- A core whose API endpoint cannot be dialled. -/
def exCoreUnreachable : CoreEnv :=
  { exCoreEnv with dialOk := false }

/-- A reachable core that rejects every `AlterInbound` request on the tag `in0`. -/
def exCoreRejectsIn0 : CoreEnv :=
  { exCoreEnv with alterInboundOk := fun tag _ => tag != "in0" }

/-- The agent of `exManager` with the two inbounds `in0` and `in1` of `exNewConfig`. -/
def exManagerTwoInbounds : Manager :=
  { exManager with nodeConfig := some exNewConfig.Config }

/-- The Panel answer of scenario 4: kick `a@x`. -/
def exKickA : List (RoundTrip AliveResponse) :=
  [.response 200 (some { Success := true, KickUsers := ["a@x"] })]

/-- A reachable core that holds no user `ghost@x`: it rejects the removal of that email
and accepts every other request. -/
def exCoreNoSuchUser : CoreEnv :=
  { exCoreEnv with
    alterInboundOk := fun _ op =>
      match op with
      | .removeUser email => email != "ghost@x"
      | _ => true }

/-- A Panel that answers 503 and then 403. -/
def exPanel403 : List (RoundTrip ConfigWrapper) :=
  [.response 503 none, .response 403 none, .response 200 (some exNewConfig)]

/-- The traffic report of scenario 3. -/
def exTraffic : List TrafficReport :=
  [{ Email := "a@x", Upload := 1000, Download := 0 }]

/-- User `a@x` after a credential change: a new UUID, a flow and another level; the email
and the inbound tags are those of `exUserA`. -/
def exUserARekeyed : UserConfig :=
  { exUserA with UUID := "6ba7b812-9dad-11d1-80b4-00c04fd430c8", Flow := "xtls-rprx-vision",
                 Level := 1 }

/-- The default intervals of the agent configuration: 30 s, 30 s, 10 s, 10 s, 60 s. -/
def exIntervals : IntervalConfig :=
  { ConfigPoll := 30000000000, UserPoll := 30000000000, TrafficReport := 10000000000,
    StatusReport := 10000000000, AlivePoll := 60000000000 }

/-- The register request of a Linux host. -/
def exRegisterRequest : RegisterRequest :=
  { Hostname := "node1", OS := "linux", Arch := "amd64", PublicIP := "192.0.2.1",
    XrayVersion := "1.8.4" }

/-- A register response that sets the config poll interval to 5 s and the alive poll
interval to 120 s and leaves the other three at zero. -/
def exRegisterResponse : RegisterResponse :=
  { NodeID := "n1", NodeName := "node1", ConfigPollInterval := 5, UserPollInterval := 0,
    TrafficReportInterval := 0, StatusReportInterval := 0, AlivePollInterval := 120 }

/-- A register response whose config poll interval is 9223372037 s, one second more than
a `time.Duration` can hold. -/
def exRegisterResponseHuge : RegisterResponse :=
  { exRegisterResponse with ConfigPollInterval := 9223372037 }

/-- A snapshot taken at time 0: `a@x` with upload 0 and download 1, `b@x` with upload 100
and download 100. -/
def exPrevSnapshot : TrafficStats :=
  { Users := [{ Email := "a@x", Upload := 0, Download := 1, UploadRate := 0,
                DownloadRate := 0 },
              { Email := "b@x", Upload := 100, Download := 100, UploadRate := 0,
                DownloadRate := 0 }],
    Inbounds := [], Outbounds := [], Timestamp := 0 }

/-- A collector whose previous snapshot is `exPrevSnapshot`. -/
def exCollector : XrayCollector :=
  { lastStats := some exPrevSnapshot, lastQueryTime := some 0 }

/-- Current samples in which the upload counter of `a@x` is the largest `int64`. -/
def exUserMapHuge : List (String × UserTraffic) :=
  [("a@x", { Email := "a@x", Upload := 9223372036854775807, Download := 1, UploadRate := 0,
             DownloadRate := 0 })]

/-- Current samples: `b@x` has uploaded 500 more bytes and its download counter has fallen
to 50; `n@x` is not in the previous snapshot. -/
def exUserMap : List (String × UserTraffic) :=
  [("b@x", { Email := "b@x", Upload := 600, Download := 50, UploadRate := 0,
             DownloadRate := 0 }),
   ("n@x", { Email := "n@x", Upload := 3, Download := 0, UploadRate := 0, DownloadRate := 0 })]

/-- Counters of the core one second after the snapshot of `exCollector`: the upload
counter of `a@x` is the largest `int64`. -/
def exStatsHuge : List (String × Int) :=
  [("user>>>a@x>>>traffic>>>uplink", 9223372036854775807),
   ("user>>>a@x>>>traffic>>>downlink", 1)]

/-- A counter whose name goes on after the direction. -/
def exStatsExtraField : List (String × Int) :=
  [("user>>>a@x>>>traffic>>>uplink>>>extra", 7)]

/-- A new collector: no previous snapshot. -/
def exNewCollector : XrayCollector :=
  { lastStats := none, lastQueryTime := none }

/-- An outbound with the given tag and protocol, empty settings and no optional blobs. -/
def mkOutbound (tag protocol : String) : OutboundConfig :=
  { Tag := tag, Protocol := protocol, SendThrough := "", Settings := .obj [],
    StreamSettings := .null, ProxySettings := .null, Mux := .null }

/-- A routing rule without `outboundTag` and without `balancerTag`. -/
def exRuleNoTarget : JVal :=
  .obj [("type", .str "field"), ("domain", .arr [.str "example.org"])]

/-- A NodeConfig with the single inbound `in0`, two outbounds that share the tag `proxy`,
and the routing rules `exRule` and `exRuleNoTarget`; no tag is `api`. -/
def exLossyNode : NodeConfig :=
  { mkNode [exVlessIn0] with
    Outbounds := [mkOutbound "proxy" "vless", mkOutbound "proxy" "trojan"],
    Routing := some { DomainStrategy := "AsIs", Rules := [exRule, exRuleNoTarget],
                      Balancers := [] } }

/-- A socks inbound `s1` whose settings hold neither `clients` nor `accounts`. -/
def exSocksS1 : InboundConfig := mkInbound "s1" "socks" 1080 (.obj [("auth", .str "password")])

/-- A NodeConfig with the inbounds `in0` and `s1`, the outbounds `proxy` and `direct`, and
the routing rule `exRule`. -/
def exFullNode : NodeConfig :=
  { mkNode [exVlessIn0, exSocksS1] with
    Outbounds := [mkOutbound "proxy" "vless", mkOutbound "direct" "freedom"],
    Routing := some { DomainStrategy := "AsIs", Rules := [exRule], Balancers := [] } }

/-! ## Properties of the materializer -/

theorem dedupLoop_snd (outbounds : List OutboundConfig) (seen : List String)
    (acc : List OutboundConfig) :
    (dedupLoop outbounds seen acc).2 = acc ++ keepUnseen seen outbounds := by
  induction outbounds generalizing seen acc with
  | nil => simp [dedupLoop, keepUnseen]
  | cons ob rest ih =>
    have step : dedupLoop (ob :: rest) seen acc
        = if seen.contains ob.Tag then dedupLoop rest seen acc
          else dedupLoop rest (ob.Tag :: seen) (acc ++ [ob]) := by
      unfold dedupLoop
      rw [List.foldl_cons]
      by_cases h : seen.contains ob.Tag = true
      · simp only [h, if_true]
      · simp only [h]
        rfl
    rw [step]
    by_cases h : seen.contains ob.Tag = true
    · rw [if_pos h, ih]
      simp only [keepUnseen, h, if_true]
    · rw [if_neg h, ih]
      simp only [keepUnseen, h]
      simp

theorem firstOccurrenceByTag_filter (t : String) (l : List OutboundConfig) :
    (firstOccurrenceByTag l).filter (fun o => o.Tag != t)
      = firstOccurrenceByTag (l.filter (fun o => o.Tag != t)) := by
  induction l with
  | nil => simp [firstOccurrenceByTag]
  | cons x l ih =>
    by_cases hx : x.Tag = t
    · subst hx
      simp [firstOccurrenceByTag, List.filter_cons, List.filter_filter, ← ih]
    · have hx2 : (x.Tag != t) = true := by simpa using hx
      simp only [firstOccurrenceByTag, List.filter_cons, hx2, if_true]
      rw [← ih, List.filter_filter, List.filter_filter]
      congr 2
      funext o
      exact Bool.and_comm _ _

theorem keepUnseen_eq (seen : List String) (l : List OutboundConfig) :
    keepUnseen seen l = firstOccurrenceByTag (l.filter (fun o => !seen.contains o.Tag)) := by
  induction l generalizing seen with
  | nil => simp [keepUnseen, firstOccurrenceByTag]
  | cons x l ih =>
    by_cases h : seen.contains x.Tag = true
    · have hf : (!seen.contains x.Tag) = false := by rw [h]; rfl
      rw [List.filter_cons, hf]
      simp only [keepUnseen, h, if_true, Bool.false_eq_true, if_false]
      exact ih seen
    · have hf : (!seen.contains x.Tag) = true := by
        cases hc : seen.contains x.Tag
        · rfl
        · exact absurd hc h
      rw [List.filter_cons, hf]
      simp only [keepUnseen, h, if_true, if_false, firstOccurrenceByTag, Bool.false_eq_true]
      rw [ih, firstOccurrenceByTag_filter, List.filter_filter]
      congr 2
      apply List.filter_congr
      intro o _
      by_cases ho : o.Tag = x.Tag
      · simp [ho]
      · simp [ho]

theorem firstOccurrenceByTag_sublist (l : List OutboundConfig) :
    List.Sublist (firstOccurrenceByTag l) l := by
  induction l with
  | nil => simp [firstOccurrenceByTag]
  | cons x l ih =>
    simp only [firstOccurrenceByTag]
    exact List.Sublist.cons₂ x ((List.filter_sublist _).trans ih)

theorem firstOccurrenceByTag_nodup (l : List OutboundConfig) :
    ((firstOccurrenceByTag l).map (fun o => o.Tag)).Nodup := by
  induction l with
  | nil => simp [firstOccurrenceByTag]
  | cons x l ih =>
    simp only [firstOccurrenceByTag, List.map_cons, List.nodup_cons]
    constructor
    · intro hmem
      rcases List.mem_map.1 hmem with ⟨o, ho, htag⟩
      have := (List.mem_filter.1 ho).2
      simp [htag] at this
    · exact ih.sublist ((List.filter_sublist _).map _)

/-- Closed form of the outbound normalization. -/
theorem normalizeOutbounds_eq (obs : List OutboundConfig) :
    normalizeOutbounds obs
      = (obs.find? (fun ob => ob.Tag == "direct")).getD defaultDirectOutbound
        :: apiOutbound
        :: firstOccurrenceByTag
            (obs.filter (fun ob => ob.Tag != "direct" && ob.Tag != "api")) := by
  have hpred : ∀ l : List OutboundConfig,
      l.filter (fun o => !(List.contains ["api", "direct"] o.Tag))
        = l.filter (fun ob => ob.Tag != "direct" && ob.Tag != "api") := by
    intro l
    apply List.filter_congr
    intro o _
    by_cases h1 : o.Tag = "direct"
    · simp [h1]
    · by_cases h2 : o.Tag = "api"
      · simp [h2]
      · simp [h1, h2]
  unfold normalizeOutbounds
  cases hany : obs.any (fun ob => ob.Tag == "direct")
  · have hnone : obs.find? (fun ob => ob.Tag == "direct") = none := by
      rw [List.find?_eq_none]
      intro x hx
      have := List.any_eq_false.1 hany x hx
      simpa using this
    have hfind : (obs ++ [defaultDirectOutbound]).find? (fun ob => ob.Tag == "direct")
        = some defaultDirectOutbound := by
      rw [List.find?_append, hnone]
      rfl
    simp only [Bool.false_eq_true, if_false, hfind, hnone, Option.getD_none]
    rw [dedupLoop_snd, keepUnseen_eq, hpred, List.filter_append]
    have : [defaultDirectOutbound].filter (fun ob => ob.Tag != "direct" && ob.Tag != "api")
        = [] := by rfl
    rw [this]
    simp
  · obtain ⟨d, hd⟩ : ∃ d, obs.find? (fun ob => ob.Tag == "direct") = some d := by
      rcases List.any_eq_true.1 hany with ⟨x, hx, hp⟩
      cases hf : obs.find? (fun ob => ob.Tag == "direct") with
      | none => exact absurd hp (by simpa using (List.find?_eq_none.1 hf) x hx)
      | some d => exact ⟨d, rfl⟩
    simp only [if_true, hd, Option.getD_some]
    rw [dedupLoop_snd, keepUnseen_eq, hpred]
    simp

/-! ### Go map operations -/

theorem gmGet_nil {β : Type} (k : String) : gmGet ([] : List (String × β)) k = none := rfl

theorem gmGet_cons {β : Type} (k' : String) (v' : β) (m : List (String × β)) (k : String) :
    gmGet ((k', v') :: m) k = if k' = k then some v' else gmGet m k := by
  unfold gmGet
  by_cases h : k' = k
  · simp [List.find?_cons, h]
  · simp [List.find?_cons, h]

theorem gmGet_gmDelete {β : Type} (m : List (String × β)) (k k' : String) :
    gmGet (gmDelete m k) k' = if k' = k then none else gmGet m k' := by
  induction m with
  | nil => simp [gmDelete, gmGet_nil]
  | cons kv m ih =>
    obtain ⟨a, b⟩ := kv
    unfold gmDelete at ih ⊢
    by_cases ha : a = k
    · have : ((a, b).1 != k) = false := by simp [ha]
      rw [List.filter_cons, this]
      simp only [Bool.false_eq_true, if_false, ih, gmGet_cons]
      by_cases hk : k' = k
      · simp [hk]
      · have : ¬ a = k' := fun h => hk (h ▸ ha)
        simp [hk, this]
    · have : ((a, b).1 != k) = true := by simp [ha]
      rw [List.filter_cons, this]
      simp only [if_true, gmGet_cons, ih]
      by_cases hk : k' = k
      · have : ¬ a = k' := fun h => ha (h.trans hk)
        simp [hk, this]
        intro h
        exact absurd h ha
      · simp [hk]

theorem gmGet_gmSet {β : Type} (m : List (String × β)) (k : String) (v : β) (k' : String) :
    gmGet (gmSet m k v) k' = if k' = k then some v else gmGet m k' := by
  induction m with
  | nil =>
    simp only [gmSet, gmGet_cons, gmGet_nil]
    by_cases h : k = k'
    · simp [h]
    · have : ¬ k' = k := fun e => h e.symm
      simp [h, this]
  | cons kv m ih =>
    obtain ⟨a, b⟩ := kv
    by_cases ha : a = k
    · have hb : (a == k) = true := by simp [ha]
      simp only [gmSet, hb, if_true, gmGet_cons, gmGet_gmDelete]
      by_cases hk : k' = k
      · simp [hk]
      · have h1 : ¬ k = k' := fun e => hk e.symm
        have h2 : ¬ a = k' := fun e => hk (e ▸ ha)
        simp [hk, h1, h2]
    · have hb : (a == k) = false := by simp [ha]
      simp only [gmSet, hb, Bool.false_eq_true, if_false, gmGet_cons, ih]
      by_cases hk : k' = k
      · have h2 : ¬ a = k' := fun e => ha (e.trans hk)
        simp [hk, h2]
        intro h
        exact absurd h ha
      · simp [hk]

theorem gmHas_eq_isSome {β : Type} (m : List (String × β)) (k : String) :
    gmHas m k = (gmGet m k).isSome := by
  induction m with
  | nil => rfl
  | cons kv m ih =>
    obtain ⟨a, b⟩ := kv
    rw [gmGet_cons]
    unfold gmHas at ih ⊢
    by_cases h : a = k
    · simp [h]
    · simp [h, ih]

theorem foldl_append_singleton {α β : Type} (f : α → β) (l : List α) (init : List β) :
    l.foldl (fun acc x => acc ++ [f x]) init = init ++ l.map f := by
  induction l generalizing init with
  | nil => simp
  | cons x l ih => simp [ih]

/-! ### Inbound member injection -/

theorem groupTags_get (u : UserConfig) (tag : String) (tags : List String)
    (m : List (String × List UserConfig)) :
    (gmGet (tags.foldl (fun m t => gmSet m t ((gmGet m t).getD [] ++ [u])) m) tag).getD []
      = (gmGet m tag).getD [] ++ List.replicate (tags.count tag) u := by
  induction tags generalizing m with
  | nil => simp
  | cons t ts ih =>
    rw [List.foldl_cons, ih, gmGet_gmSet, List.count_cons]
    by_cases h : tag = t
    · subst h
      simp [List.replicate_succ, List.append_assoc]
    · have h2 : ¬ t = tag := fun e => h e.symm
      simp [h, h2]

theorem groupUsers_get_aux (users : List UserConfig) (tag : String)
    (m : List (String × List UserConfig)) :
    (gmGet (users.foldl (fun m user =>
        user.InboundTags.foldl (fun m t => gmSet m t ((gmGet m t).getD [] ++ [user])) m) m)
      tag).getD []
      = (gmGet m tag).getD [] ++ membersOf users tag := by
  induction users generalizing m with
  | nil => simp [membersOf]
  | cons u us ih =>
    rw [List.foldl_cons, ih, groupTags_get]
    simp [membersOf, List.flatMap_cons, List.append_assoc]

/-- The lookup `usersByInbound[tag]` yields the users grouped under `tag`. -/
theorem groupUsersByInbound_get (users : List UserConfig) (tag : String) :
    (gmGet (groupUsersByInbound users) tag).getD [] = membersOf users tag := by
  unfold groupUsersByInbound
  rw [groupUsers_get_aux]
  simp [gmGet_nil]

/-- When no user lists a tag twice, the grouped users are the users that list the tag. -/
theorem membersOf_eq_filter (users : List UserConfig) (tag : String)
    (hnd : ∀ u ∈ users, u.InboundTags.Nodup) :
    membersOf users tag = users.filter (fun u => decide (tag ∈ u.InboundTags)) := by
  induction users with
  | nil => rfl
  | cons u us ih =>
    have hu := hnd u (List.mem_cons_self _ _)
    have hrest := ih (fun v hv => hnd v (List.mem_cons_of_mem _ hv))
    unfold membersOf at hrest ⊢
    rw [List.flatMap_cons, hrest, List.filter_cons]
    by_cases hm : tag ∈ u.InboundTags
    · rw [List.count_eq_one_of_mem hu hm]
      simp [hm]
    · rw [List.count_eq_zero.2 hm]
      simp [hm]

theorem buildClients_eq_map (protocol : String) (users : List UserConfig) :
    buildClients protocol users = users.map (fun u => JVal.obj (buildClient protocol u)) := by
  unfold buildClients
  rw [foldl_append_singleton (fun u => JVal.obj (buildClient protocol u))]
  simp

theorem buildSocksAccounts_eq_map (users : List UserConfig) :
    buildSocksAccounts users = users.map (fun u => JVal.obj (accountShape u)) := by
  unfold buildSocksAccounts
  rw [foldl_append_singleton (fun (u : UserConfig) =>
    JVal.obj (gmSet (gmSet [] "user" (JVal.str u.Email)) "pass" (JVal.str u.Password)))]
  simp only [List.nil_append]
  rfl

theorem buildInboundsWithClients_eq_map (inbounds : List InboundConfig)
    (users : List UserConfig) :
    buildInboundsWithClients inbounds users
      = inbounds.map (buildInbound (groupUsersByInbound users)) := by
  unfold buildInboundsWithClients
  simp only
  rw [foldl_append_singleton (buildInbound (groupUsersByInbound users))]
  simp

/-- The client map built for one user has the shape the specification words. -/
theorem buildClient_eq_shape (protocol : String) (u : UserConfig) :
    buildClient protocol u = clientShape protocol u := by
  unfold buildClient clientShape clientExtraShape
  by_cases h1 : protocol = "vless"
  · by_cases hf : u.Flow = "" <;> simp [h1, hf, gmSet, gmDelete]
  · by_cases h2 : protocol = "vmess"
    · by_cases hf : u.Security = "" <;> simp [h2, hf, gmSet, gmDelete]
    · by_cases h3 : protocol = "trojan"
      · simp [h3, gmSet, gmDelete]
      · by_cases h4 : protocol = "shadowsocks"
        · by_cases hf : u.Method = "" <;> simp [h4, hf, gmSet, gmDelete]
        · simp [h1, h2, h3, h4, gmSet, gmDelete]

theorem buildInbound_settings (m : List (String × List UserConfig)) (ib : InboundConfig) :
    (buildInbound m ib).field "settings"
      = some (JVal.obj
          (if ib.Protocol = "socks" then
            gmDelete (gmSet ((cloneSettings ib.Settings).getD []) "accounts"
              (JVal.arr (buildSocksAccounts ((gmGet m ib.Tag).getD [])))) "clients"
          else
            gmSet ((cloneSettings ib.Settings).getD []) "clients"
              (JVal.arr (buildClients ib.Protocol ((gmGet m ib.Tag).getD []))))) := by
  unfold buildInbound
  cases ib.StreamSettings.isNil <;> cases ib.Sniffing.isNil <;> cases ib.Allocate.isNil <;>
    simp [JVal.field, gmGet_gmSet, gmGet_cons]

theorem generate_inbounds (nodeConfig : NodeConfig) (users : List UserConfig) :
    (Generate nodeConfig users).1.Inbounds
      = apiInbound :: nodeConfig.Inbounds.map (buildInbound (groupUsersByInbound users)) := by
  simp [Generate, buildInboundsWithClients_eq_map]

theorem generate_outbounds (nodeConfig : NodeConfig) (users : List UserConfig) :
    (Generate nodeConfig users).1.Outbounds = normalizeOutbounds nodeConfig.Outbounds := by
  simp [Generate]

/-- The settings of the materialized inbound at position `i + 1`, for input inbound `i`. -/
theorem generate_inbound_settings (nodeConfig : NodeConfig) (users : List UserConfig) (i : Nat)
    (ib : InboundConfig) (hib : nodeConfig.Inbounds[i]? = some ib) :
    ∃ out st, (Generate nodeConfig users).1.Inbounds[i + 1]? = some out
      ∧ out.field "settings" = some (JVal.obj st)
      ∧ st = (if ib.Protocol = "socks" then
            gmDelete (gmSet ((cloneSettings ib.Settings).getD []) "accounts"
              (JVal.arr ((membersOf users ib.Tag).map (fun u => JVal.obj (accountShape u)))))
              "clients"
          else
            gmSet ((cloneSettings ib.Settings).getD []) "clients"
              (JVal.arr ((membersOf users ib.Tag).map
                (fun u => JVal.obj (clientShape ib.Protocol u))))) := by
  refine ⟨buildInbound (groupUsersByInbound users) ib, _, ?_, buildInbound_settings _ ib, ?_⟩
  · rw [generate_inbounds, List.getElem?_cons_succ, List.getElem?_map, hib]
    rfl
  · rw [groupUsersByInbound_get, buildSocksAccounts_eq_map, buildClients_eq_map]
    simp only [buildClient_eq_shape]

theorem directHead_tag (obs : List OutboundConfig) :
    ((obs.find? (fun ob => ob.Tag == "direct")).getD defaultDirectOutbound).Tag = "direct" := by
  cases h : obs.find? (fun ob => ob.Tag == "direct") with
  | none => rfl
  | some d =>
    have := List.find?_some h
    simpa using this

theorem rest_tags (obs : List OutboundConfig) (o : OutboundConfig)
    (ho : o ∈ firstOccurrenceByTag
      (obs.filter (fun ob => ob.Tag != "direct" && ob.Tag != "api"))) :
    o ∈ obs ∧ o.Tag ≠ "direct" ∧ o.Tag ≠ "api" := by
  have hmem := (firstOccurrenceByTag_sublist _).subset ho
  rcases List.mem_filter.1 hmem with ⟨h1, h2⟩
  simp only [Bool.and_eq_true, bne_iff_ne] at h2
  exact ⟨h1, h2.1, h2.2⟩

theorem firstOccurrenceByTag_find (l : List OutboundConfig) (o : OutboundConfig)
    (ho : o ∈ firstOccurrenceByTag l) :
    l.find? (fun x => x.Tag == o.Tag) = some o := by
  induction l with
  | nil => simp [firstOccurrenceByTag] at ho
  | cons x l ih =>
    simp only [firstOccurrenceByTag, List.mem_cons] at ho
    rcases ho with h | h
    · subst h
      simp [List.find?_cons]
    · rcases List.mem_filter.1 h with ⟨h1, h2⟩
      have hne : ¬ x.Tag = o.Tag := by
        intro e
        simp [e] at h2
      have : (x.Tag == o.Tag) = false := by simpa using hne
      rw [List.find?_cons, this]
      exact ih h1

theorem find_filter_of_imp {α : Type} (p q : α → Bool) (l : List α)
    (h : ∀ x, p x = true → q x = true) :
    (l.filter q).find? p = l.find? p := by
  induction l with
  | nil => rfl
  | cons x l ih =>
    by_cases hq : q x = true
    · rw [List.filter_cons, if_pos hq, List.find?_cons, List.find?_cons, ih]
    · have hp : p x = false := by
        cases hpx : p x
        · rfl
        · exact absurd (h x hpx) hq
      rw [List.filter_cons, if_neg hq, List.find?_cons, hp, ih]

/-! ## Claims about the materializer -/

/-- C1: for every NodeConfig and user list, the configuration returned by Generate has an
outbound tagged `direct` at index 0, an outbound tagged `api` with protocol `blackhole`
at index 1, pairwise distinct outbound tags, and an inbound tagged `api-inbound` at
index 0. -/
theorem generate_fixed_positions (nodeConfig : NodeConfig) (users : List UserConfig) :
    ((Generate nodeConfig users).1.Outbounds[0]?).map (fun o => o.Tag) = some "direct"
    ∧ ((Generate nodeConfig users).1.Outbounds[1]?).map (fun o => (o.Tag, o.Protocol))
        = some ("api", "blackhole")
    ∧ ((Generate nodeConfig users).1.Outbounds.map (fun o => o.Tag)).Nodup
    ∧ ((Generate nodeConfig users).1.Inbounds[0]?).bind (fun i => i.field "tag")
        = some (JVal.str "api-inbound") := by
  rw [generate_outbounds, normalizeOutbounds_eq, generate_inbounds]
  refine ⟨?_, ?_, ?_, ?_⟩
  · simp [directHead_tag]
  · simp [apiOutbound]
  · simp only [List.map_cons, List.nodup_cons, List.mem_cons, List.mem_map, directHead_tag]
    refine ⟨?_, ?_, firstOccurrenceByTag_nodup _⟩
    · rintro (h | ⟨o, ho, htag⟩)
      · exact absurd h (by decide)
      · exact (rest_tags _ o ho).2.1 htag
    · rintro ⟨o, ho, htag⟩
      exact (rest_tags _ o ho).2.2 htag
  · simp [apiInbound, JVal.field, gmGet_cons]

/-- C8: the outbounds of Generate's result from index 2 onward are exactly the input
outbounds whose tag is neither `direct` nor `api`, in their original order and keeping
only the first occurrence of each tag (each kept outbound is the first input outbound
carrying its tag); the outbound at index 0 is the first input outbound tagged `direct`
when one exists and otherwise the synthesized outbound with tag `direct` and protocol
`freedom`. -/
theorem generate_outbounds_normalized (nodeConfig : NodeConfig) (users : List UserConfig) :
    (Generate nodeConfig users).1.Outbounds.drop 2
        = firstOccurrenceByTag
            (nodeConfig.Outbounds.filter (fun ob => ob.Tag != "direct" && ob.Tag != "api"))
    ∧ (∀ ob ∈ (Generate nodeConfig users).1.Outbounds.drop 2,
        nodeConfig.Outbounds.find? (fun o => o.Tag == ob.Tag) = some ob)
    ∧ (Generate nodeConfig users).1.Outbounds[0]?
        = some ((nodeConfig.Outbounds.find? (fun ob => ob.Tag == "direct")).getD
            defaultDirectOutbound)
    ∧ defaultDirectOutbound.Tag = "direct" ∧ defaultDirectOutbound.Protocol = "freedom" := by
  rw [generate_outbounds, normalizeOutbounds_eq]
  refine ⟨rfl, ?_, rfl, rfl, rfl⟩
  intro ob hob
  have hob2 : ob ∈ firstOccurrenceByTag
      (nodeConfig.Outbounds.filter (fun ob => ob.Tag != "direct" && ob.Tag != "api")) := hob
  have htags := rest_tags _ ob hob2
  rw [← firstOccurrenceByTag_find _ ob hob2]
  symm
  apply find_filter_of_imp
  intro x hx
  have hx2 : x.Tag = ob.Tag := by simpa using hx
  simp [hx2, htags.2.1, htags.2.2]

/-- C9 (as stated, refuted): for the vless inbound `in0` and the single user `a@x` whose
InboundTags is `[in0, in0]`, Generate injects two clients although one user matches. -/
theorem generate_injected_members_duplicate_tag :
    ∃ out st members,
      (Generate (mkNode [exVlessIn0]) [exUserTwice]).1.Inbounds[0 + 1]? = some out
      ∧ out.field "settings" = some (JVal.obj st)
      ∧ gmGet st (memberKey exVlessIn0.Protocol) = some (JVal.arr members)
      ∧ members.map (fun m => m.field (emailKey exVlessIn0.Protocol))
          = [some (JVal.str "a@x"), some (JVal.str "a@x")]
      ∧ ([exUserTwice].filter (fun u => decide (exVlessIn0.Tag ∈ u.InboundTags))).map
          (fun u => some (JVal.str u.Email)) = [some (JVal.str "a@x")] :=
  ⟨_, _, _, rfl, rfl, rfl, rfl, rfl⟩

/-- C9 (amended): for every inbound of the NodeConfig and every user list, the member list
that Generate injects into that inbound's settings has exactly one entry per occurrence of
the inbound's tag in a user's InboundTags, in user-list order, and the entry's email (for
socks, its `user` field) equals that user's email; when no user lists a tag twice this is
exactly one entry per user whose InboundTags contains the tag; the injected list is empty
when the user list is empty. -/
theorem generate_injected_members (nodeConfig : NodeConfig) (users : List UserConfig)
    (i : Nat) (ib : InboundConfig) (hib : nodeConfig.Inbounds[i]? = some ib) :
    ∃ out st members,
      (Generate nodeConfig users).1.Inbounds[i + 1]? = some out
      ∧ out.field "settings" = some (JVal.obj st)
      ∧ gmGet st (memberKey ib.Protocol) = some (JVal.arr members)
      ∧ members.map (fun m => m.field (emailKey ib.Protocol))
          = (users.flatMap (fun u => List.replicate (u.InboundTags.count ib.Tag) u)).map
              (fun u => some (JVal.str u.Email))
      ∧ ((∀ u ∈ users, u.InboundTags.Nodup) →
          members.map (fun m => m.field (emailKey ib.Protocol))
            = (users.filter (fun u => decide (ib.Tag ∈ u.InboundTags))).map
                (fun u => some (JVal.str u.Email)))
      ∧ (users = [] → members = []) := by
  obtain ⟨out, st, hout, hset, hst⟩ := generate_inbound_settings nodeConfig users i ib hib
  by_cases hs : ib.Protocol = "socks"
  · refine ⟨out, st, (membersOf users ib.Tag).map (fun u => JVal.obj (accountShape u)),
      hout, hset, ?_, ?_, ?_, ?_⟩
    · rw [hst, if_pos hs]
      simp [memberKey, hs, gmGet_gmDelete, gmGet_gmSet]
    · simp [emailKey, hs, membersOf, accountShape, JVal.field, gmGet_cons]
    · intro hnd
      rw [← membersOf_eq_filter users ib.Tag hnd]
      simp [emailKey, hs, accountShape, JVal.field, gmGet_cons]
    · intro hu
      subst hu
      rfl
  · refine ⟨out, st, (membersOf users ib.Tag).map (fun u => JVal.obj (clientShape ib.Protocol u)),
      hout, hset, ?_, ?_, ?_, ?_⟩
    · rw [hst, if_neg hs]
      simp [memberKey, hs, gmGet_gmSet]
    · simp [emailKey, hs, membersOf, clientShape, JVal.field, gmGet_cons]
    · intro hnd
      rw [← membersOf_eq_filter users ib.Tag hnd]
      simp [emailKey, hs, clientShape, JVal.field, gmGet_cons]
    · intro hu
      subst hu
      rfl

/-- Witness for C9 (amended): scenario 1, inbound `in0` at index 0 with user `a@x`. -/
theorem generate_injected_members_witness :
    (mkNode [exVlessIn0]).Inbounds[0]? = some exVlessIn0
    ∧ ∃ out st members,
      (Generate (mkNode [exVlessIn0]) [exUserA]).1.Inbounds[0 + 1]? = some out
      ∧ out.field "settings" = some (JVal.obj st)
      ∧ gmGet st (memberKey exVlessIn0.Protocol) = some (JVal.arr members)
      ∧ members.map (fun m => m.field (emailKey exVlessIn0.Protocol))
          = ([exUserA].flatMap
              (fun u => List.replicate (u.InboundTags.count exVlessIn0.Tag) u)).map
              (fun u => some (JVal.str u.Email))
      ∧ ((∀ u ∈ [exUserA], u.InboundTags.Nodup) →
          members.map (fun m => m.field (emailKey exVlessIn0.Protocol))
            = ([exUserA].filter (fun u => decide (exVlessIn0.Tag ∈ u.InboundTags))).map
                (fun u => some (JVal.str u.Email)))
      ∧ ([exUserA] = [] → members = []) :=
  ⟨rfl, generate_injected_members (mkNode [exVlessIn0]) [exUserA] 0 exVlessIn0 rfl⟩

/-- C10: the shape of the injected members depends on the inbound protocol: for `socks`
the settings have key `accounts` with entries `{user: email, pass: password}` and no
`clients` key (a prior one is removed); for every other protocol the settings have key
`clients`, each client has `email` and `level`, plus for vless `id` and `flow` only when
the flow is non-empty, for vmess `id`, `alterId` and `security` only when non-empty, for
trojan `password`, for shadowsocks `password` and `method` only when non-empty, and no
further keys (`clientShape`, `accountShape`). -/
theorem generate_member_shape (nodeConfig : NodeConfig) (users : List UserConfig)
    (i : Nat) (ib : InboundConfig) (hib : nodeConfig.Inbounds[i]? = some ib) :
    ∃ out st,
      (Generate nodeConfig users).1.Inbounds[i + 1]? = some out
      ∧ out.field "settings" = some (JVal.obj st)
      ∧ (ib.Protocol = "socks" →
          gmGet st "accounts"
              = some (JVal.arr ((membersOf users ib.Tag).map
                  (fun u => JVal.obj [("user", JVal.str u.Email), ("pass", JVal.str u.Password)])))
          ∧ gmHas st "clients" = false)
      ∧ (ib.Protocol ≠ "socks" →
          gmGet st "clients"
              = some (JVal.arr ((membersOf users ib.Tag).map
                  (fun u => JVal.obj (clientShape ib.Protocol u))))) := by
  obtain ⟨out, st, hout, hset, hst⟩ := generate_inbound_settings nodeConfig users i ib hib
  refine ⟨out, st, hout, hset, ?_, ?_⟩
  · intro hs
    rw [hst, if_pos hs]
    refine ⟨?_, ?_⟩
    · simp [gmGet_gmDelete, gmGet_gmSet, accountShape]
    · rw [gmHas_eq_isSome, gmGet_gmDelete]
      simp
  · intro hs
    rw [hst, if_neg hs]
    simp [gmGet_gmSet]

/-- Witness for C10: scenario 6, the socks inbound `s0` with a prior `clients` key. -/
theorem generate_member_shape_witness :
    (mkNode [exSocksS0]).Inbounds[0]? = some exSocksS0
    ∧ ∃ out st,
      (Generate (mkNode [exSocksS0]) [exUserU1]).1.Inbounds[0 + 1]? = some out
      ∧ out.field "settings" = some (JVal.obj st)
      ∧ (exSocksS0.Protocol = "socks" →
          gmGet st "accounts"
              = some (JVal.arr ((membersOf [exUserU1] exSocksS0.Tag).map
                  (fun u => JVal.obj [("user", JVal.str u.Email), ("pass", JVal.str u.Password)])))
          ∧ gmHas st "clients" = false)
      ∧ (exSocksS0.Protocol ≠ "socks" →
          gmGet st "clients"
              = some (JVal.arr ((membersOf [exUserU1] exSocksS0.Tag).map
                  (fun u => JVal.obj (clientShape exSocksS0.Protocol u))))) :=
  ⟨rfl, generate_member_shape (mkNode [exSocksS0]) [exUserU1] 0 exSocksS0 rfl⟩

/-! ## Properties of the Panel client -/

theorem attempts_append (a b : List Event) : attempts (a ++ b) = attempts a + attempts b := by
  simp [attempts, List.countP_append]

theorem effects_append (a b : List Event) : effects (a ++ b) = effects a ++ effects b := by
  simp [effects, List.filterMap_append]

theorem doRequestLoop_attempts {α : Type} (c : Client) (method path : String)
    (body : Option JVal) (headers : List (String × String)) (fuel i : Nat) (drained : Bool)
    (panel : List (RoundTrip α)) (tr : List Event) :
    attempts (doRequestLoop c method path body headers fuel i drained panel tr).trace
      ≤ attempts tr + fuel := by
  induction fuel generalizing i drained panel tr with
  | zero => simp [doRequestLoop]
  | succ n ih =>
    have hsleep : attempts (if i > 0 then tr ++ [Event.sleep i] else tr) = attempts tr := by
      split
      · simp [attempts_append, attempts]
      · rfl
    unfold doRequestLoop
    simp only
    cases hurl : c.urlOk
    · simp only [Bool.not_false, if_true, hsleep]
      omega
    · simp only [Bool.not_true, Bool.false_eq_true, if_false]
      have hdo : ∀ req : HttpRequest,
          attempts ((if i > 0 then tr ++ [Event.sleep i] else tr) ++ [Event.httpDo req])
            = attempts tr + 1 := by
        intro req
        rw [attempts_append, hsleep]
        rfl
      cases panel with
      | nil =>
        refine (ih _ _ _ _).trans ?_
        rw [hdo]
        omega
      | cons rt rest =>
        cases rt with
        | transportError bodyRead =>
          refine (ih _ _ _ _).trans ?_
          rw [hdo]
          omega
        | response status payload =>
          simp only
          split
          · refine (ih _ _ _ _).trans ?_
            rw [hdo]
            omega
          · simp only [hdo]
            omega

theorem doRequestLoop_effects {α : Type} (c : Client) (method path : String)
    (body : Option JVal) (headers : List (String × String)) (fuel i : Nat) (drained : Bool)
    (panel : List (RoundTrip α)) (tr : List Event) :
    effects (doRequestLoop c method path body headers fuel i drained panel tr).trace
      = effects tr
    ∧ coreCalls (doRequestLoop c method path body headers fuel i drained panel tr).trace
      = coreCalls tr := by
  induction fuel generalizing i drained panel tr with
  | zero => simp [doRequestLoop]
  | succ n ih =>
    have hsleep : effects (if i > 0 then tr ++ [Event.sleep i] else tr) = effects tr
        ∧ coreCalls (if i > 0 then tr ++ [Event.sleep i] else tr) = coreCalls tr := by
      split
      · simp [effects, coreCalls, Event.kind]
      · exact ⟨rfl, rfl⟩
    have hdo : ∀ req : HttpRequest,
        effects ((if i > 0 then tr ++ [Event.sleep i] else tr) ++ [Event.httpDo req])
          = effects tr
        ∧ coreCalls ((if i > 0 then tr ++ [Event.sleep i] else tr) ++ [Event.httpDo req])
          = coreCalls tr := by
      intro req
      constructor
      · rw [effects_append, hsleep.1]
        simp [effects, Event.kind]
      · unfold coreCalls at hsleep ⊢
        rw [List.filterMap_append, hsleep.2]
        simp
    unfold doRequestLoop
    simp only
    cases hurl : c.urlOk
    · simpa using hsleep
    · simp only [Bool.not_true, Bool.false_eq_true, if_false]
      cases panel with
      | nil =>
        rw [(ih _ _ _ _).1, (ih _ _ _ _).2]
        exact hdo _
      | cons rt rest =>
        cases rt with
        | transportError bodyRead =>
          rw [(ih _ _ _ _).1, (ih _ _ _ _).2]
          exact hdo _
        | response status payload =>
          simp only
          split
          · rw [(ih _ _ _ _).1, (ih _ _ _ _).2]
            exact hdo _
          · exact hdo _

theorem doRequest_effects {α : Type} (c : Client) (method path : String)
    (body : Option JVal) (headers : List (String × String)) (panel : List (RoundTrip α)) :
    effects (doRequest c method path body headers panel).trace = []
    ∧ coreCalls (doRequest c method path body headers panel).trace = [] := by
  unfold doRequest
  exact doRequestLoop_effects c method path body headers _ 0 false panel []

theorem GetConfig_trace (c : Client) (panel : List (RoundTrip ConfigWrapper)) :
    (GetConfig c panel).trace
      = (doRequest c "GET" (c.apiBasePath ++ "/agent/config") none
          (if c.configETag ≠ "" then [("If-None-Match", c.configETag)] else []) panel).trace := by
  unfold GetConfig
  simp only
  split
  · rfl
  · split
    · rfl
    · split
      · rfl
      · split <;> rfl

theorem GetUsers_trace (c : Client) (panel : List (RoundTrip UserListResponse)) :
    (GetUsers c panel).trace
      = (doRequest c "GET" (c.apiBasePath ++ "/agent/users") none
          (if c.usersETag ≠ "" then [("If-None-Match", c.usersETag)] else []) panel).trace := by
  unfold GetUsers
  simp only
  split
  · rfl
  · split
    · rfl
    · split
      · rfl
      · split <;> rfl

theorem ReportTraffic_trace (c : Client) (traffics : List TrafficReport)
    (panel : List (RoundTrip Unit)) :
    (ReportTraffic c traffics panel).trace
      = (doRequest c "POST" (c.apiBasePath ++ "/agent/traffic") (some (trafficBody traffics))
          [] panel).trace := by
  unfold ReportTraffic
  simp only
  split
  · rfl
  · split <;> rfl

/-! ## Properties of the reconciliation loops -/

theorem syncConfig_effects (m : Manager) (w : World) :
    effects (m.syncConfig w).trace = [] ∧ coreCalls (m.syncConfig w).trace = [] := by
  have h := doRequest_effects m.client "GET" (m.client.apiBasePath ++ "/agent/config") none
    (if m.client.configETag ≠ "" then [("If-None-Match", m.client.configETag)] else [])
    w.configPanel
  rw [← GetConfig_trace] at h
  unfold Manager.syncConfig
  simp only
  split <;> simpa [effects, coreCalls, Event.kind] using h

theorem syncUsers_effects (m : Manager) (w : World) :
    effects (m.syncUsers w).trace = [] ∧ coreCalls (m.syncUsers w).trace = [] := by
  have h := doRequest_effects m.client "GET" (m.client.apiBasePath ++ "/agent/users") none
    (if m.client.usersETag ≠ "" then [("If-None-Match", m.client.usersETag)] else [])
    w.usersPanel
  rw [← GetUsers_trace] at h
  unfold Manager.syncUsers
  simp only
  split <;> simpa [effects, coreCalls, Event.kind] using h

theorem syncConfig_ok (m : Manager) (w : World) :
    (m.syncConfig w).ok = true ↔ ∃ r, (GetConfig m.client w.configPanel).result = .ok r := by
  unfold Manager.syncConfig
  simp only
  split <;> simp_all

theorem generateAndWriteConfig_effects (m : Manager) (w : World) :
    effects (m.generateAndWriteConfig w).trace
      = if m.nodeConfig.isSome then [EffectKind.write] else [] := by
  unfold Manager.generateAndWriteConfig
  cases m.nodeConfig <;> rfl

theorem flush_effects (m : Manager) (w : World) :
    effects (m.flushTrafficBeforeRestart w).trace
      = match QueryTrafficStats w.coreStats with
        | none => [EffectKind.query true]
        | some traffics =>
          if traffics.length > 0 then [EffectKind.query true, EffectKind.report]
          else [EffectKind.query true] := by
  unfold Manager.flushTrafficBeforeRestart
  cases QueryTrafficStats w.coreStats with
  | none => rfl
  | some traffics =>
    simp only
    split
    · rw [effects_append, ReportTraffic_trace, (doRequest_effects _ _ _ _ _ _).1]
      rfl
    · rfl

theorem restart_effects (m : Manager) (w : World) :
    effects (m.restart w).trace
      = if (m.process.Stop w).1 then [EffectKind.stop, EffectKind.start]
        else [EffectKind.stop] := by
  unfold Manager.restart ProcessManager.Restart
  simp only
  cases (m.process.Stop w).1 <;> rfl

theorem syncConfig_frame (m : Manager) (w : World) :
    (m.syncConfig w).m.process = m.process ∧ (m.syncConfig w).m.users = m.users
    ∧ (m.syncConfig w).w.writeOk = w.writeOk ∧ (m.syncConfig w).w.coreStats = w.coreStats
    ∧ (m.syncConfig w).w.sigtermOk = w.sigtermOk ∧ (m.syncConfig w).w.spawnOk = w.spawnOk
    ∧ (m.syncConfig w).w.trafficPanel = w.trafficPanel := by
  unfold Manager.syncConfig
  simp only
  split <;> simp

theorem syncConfig_nodeConfig (m : Manager) (w : World) :
    (m.syncConfig w).m.nodeConfig
      = match (GetConfig m.client w.configPanel).result with
        | .ok (some config) => some config
        | _ => m.nodeConfig := by
  unfold Manager.syncConfig
  simp only
  split <;> simp_all

theorem generateAndWriteConfig_frame (m : Manager) (w : World) :
    (m.generateAndWriteConfig w).w = w
    ∧ (m.generateAndWriteConfig w).m.process = m.process
    ∧ (m.generateAndWriteConfig w).ok = (if m.nodeConfig.isSome then w.writeOk else true) := by
  unfold Manager.generateAndWriteConfig
  cases m.nodeConfig <;> simp

theorem flush_frame (m : Manager) (w : World) :
    (m.flushTrafficBeforeRestart w).m.process = m.process
    ∧ (m.flushTrafficBeforeRestart w).w.sigtermOk = w.sigtermOk
    ∧ (m.flushTrafficBeforeRestart w).w.spawnOk = w.spawnOk := by
  unfold Manager.flushTrafficBeforeRestart
  cases QueryTrafficStats w.coreStats with
  | none => simp
  | some traffics =>
    simp only
    split <;> simp

theorem Stop_congr (p : ProcessManager) (w w' : World) (h : w'.sigtermOk = w.sigtermOk) :
    p.Stop w' = p.Stop w := by
  unfold ProcessManager.Stop
  rw [h]

/-- The effect kinds of one config-loop tick, step by step. -/
theorem configTick_effects (m : Manager) (w : World) :
    effects (m.configTick w).trace
      = if (m.syncConfig w).ok then
          if ((m.syncConfig w).m.generateAndWriteConfig (m.syncConfig w).w).ok then
            (if (m.syncConfig w).m.nodeConfig.isSome then [EffectKind.write] else [])
            ++ (match QueryTrafficStats w.coreStats with
                | none => [EffectKind.query true]
                | some traffics =>
                  if traffics.length > 0 then [EffectKind.query true, EffectKind.report]
                  else [EffectKind.query true])
            ++ (if (m.process.Stop w).1 then [EffectKind.stop, EffectKind.start]
                else [EffectKind.stop])
          else (if (m.syncConfig w).m.nodeConfig.isSome then [EffectKind.write] else [])
        else [] := by
  unfold Manager.configTick
  simp only
  cases h1 : (m.syncConfig w).ok
  · simp [(syncConfig_effects m w).1]
  · simp only [Bool.not_true, Bool.false_eq_true, if_false, if_true]
    cases h2 : ((m.syncConfig w).m.generateAndWriteConfig (m.syncConfig w).w).ok
    · simp [effects_append, (syncConfig_effects m w).1, generateAndWriteConfig_effects]
    · simp only [Bool.not_true, Bool.false_eq_true, if_false, if_true, effects_append,
        (syncConfig_effects m w).1, generateAndWriteConfig_effects, flush_effects,
        restart_effects, List.nil_append, (generateAndWriteConfig_frame _ _).1,
        (syncConfig_frame m w).2.2.2.1, (flush_frame _ _).1, (generateAndWriteConfig_frame _ _).2.1,
        (syncConfig_frame m w).1]
      rw [Stop_congr m.process w _
        (((flush_frame _ _).2.1).trans (syncConfig_frame m w).2.2.2.2.1)]

theorem generateAndWriteConfig_ok (m : Manager) (w w' : World) (h : w'.writeOk = w.writeOk) :
    (m.generateAndWriteConfig w').ok = (m.generateAndWriteConfig w).ok := by
  rw [(generateAndWriteConfig_frame m w').2.2, (generateAndWriteConfig_frame m w).2.2, h]

theorem syncConfig_congr (m : Manager) (w w' : World) (h : w'.configPanel = w.configPanel) :
    (m.syncConfig w').ok = (m.syncConfig w).ok ∧ (m.syncConfig w').m = (m.syncConfig w).m := by
  unfold Manager.syncConfig
  simp only [h]
  split <;> simp

/-- A config-loop tick calls `Stop` exactly when `syncConfig` and
`generateAndWriteConfig` both return nil. -/
theorem configTick_stop_iff (m : Manager) (w : World) :
    EffectKind.stop ∈ effects (m.configTick w).trace
      ↔ (m.syncConfig w).ok = true
        ∧ ((m.syncConfig w).m.generateAndWriteConfig (m.syncConfig w).w).ok = true := by
  rw [configTick_effects]
  cases h1 : (m.syncConfig w).ok
  · simp
  · cases h2 : ((m.syncConfig w).m.generateAndWriteConfig (m.syncConfig w).w).ok
    · simp only [if_true, Bool.false_eq_true, if_false, and_false, iff_false]
      split <;> simp
    · simp only [if_true, and_self, iff_true, List.mem_append]
      right
      split <;> simp

/-! ## Claims about the config loop -/

/-- C2 (code at the failing input): a config-loop tick whose GetConfig is answered 304
(changed = false, no error) still rewrites the on-disk configuration, flushes the traffic
counters and restarts the core. -/
theorem configTick_unchanged_still_restarts :
    (GetConfig exManager.client [.response 304 none]).result = .ok none
    ∧ effects (exManager.configTick (exWorld [.response 304 none] [])).trace
        = [.write, .query true, .report, .stop, .start] :=
  ⟨rfl, by decide⟩

/-- C3: in every config-loop tick that calls the supervisor's Stop (the first step of
Restart), a QueryTrafficStats call with reset = true comes before it; the Restart is
performed whenever GetConfig returned no error and the configuration was written, and
whether it is performed does not depend on the outcome of the counter query or of the
traffic report. -/
theorem configTick_flush_precedes_stop (m : Manager) (w : World) :
    (EffectKind.stop ∈ effects (m.configTick w).trace →
      ∃ pre post, effects (m.configTick w).trace = pre ++ EffectKind.query true :: post
        ∧ EffectKind.stop ∉ pre ∧ EffectKind.start ∉ pre ∧ EffectKind.stop ∈ post)
    ∧ (∀ r, (GetConfig m.client w.configPanel).result = .ok r → w.writeOk = true →
        EffectKind.stop ∈ effects (m.configTick w).trace)
    ∧ (∀ stats panel,
        EffectKind.stop ∈ effects (m.configTick w).trace
          ↔ EffectKind.stop ∈ effects
              (m.configTick { w with coreStats := stats, trafficPanel := panel }).trace) := by
  refine ⟨?_, ?_, ?_⟩
  · intro hstop
    have hok := (configTick_stop_iff m w).1 hstop
    rw [configTick_effects, if_pos hok.1, if_pos hok.2]
    refine ⟨if (m.syncConfig w).m.nodeConfig.isSome then [EffectKind.write] else [],
      (match QueryTrafficStats w.coreStats with
        | none => []
        | some traffics => if traffics.length > 0 then [EffectKind.report] else [])
      ++ (if (m.process.Stop w).1 then [EffectKind.stop, EffectKind.start]
          else [EffectKind.stop]), ?_, ?_, ?_, ?_⟩
    · cases QueryTrafficStats w.coreStats with
      | none => simp
      | some traffics =>
        simp only [List.append_assoc, List.append_cancel_left_eq]
        by_cases hl : traffics.length > 0
        · simp [hl]
        · simp [hl]
    · split <;> simp
    · split <;> simp
    · rw [List.mem_append]
      right
      split <;> simp
  · intro r hr hw
    rw [configTick_stop_iff]
    refine ⟨(syncConfig_ok m w).2 ⟨r, hr⟩, ?_⟩
    rw [(generateAndWriteConfig_frame _ _).2.2, (syncConfig_frame m w).2.2.1, hw]
    split <;> rfl
  · intro stats panel
    rw [configTick_stop_iff, configTick_stop_iff]
    have hc := syncConfig_congr m w { w with coreStats := stats, trafficPanel := panel } rfl
    rw [hc.1, hc.2]
    rw [generateAndWriteConfig_ok (m.syncConfig w).m (m.syncConfig w).w
      (m.syncConfig { w with coreStats := stats, trafficPanel := panel }).w
      (by rw [(syncConfig_frame m _).2.2.1, (syncConfig_frame m w).2.2.1])]

/-- Witness for C3: the Panel delivers a changed config while the core RPC endpoint is
down, so the counter query fails; Stop is still called, after the query. -/
theorem configTick_flush_precedes_stop_witness :
    EffectKind.stop ∈ effects
        (exManager.configTick
          (exWorldCoreDown [.response 200 (some exNewConfig)] [])).trace
    ∧ ∃ pre post,
        effects (exManager.configTick
          (exWorldCoreDown [.response 200 (some exNewConfig)] [])).trace
          = pre ++ EffectKind.query true :: post
        ∧ EffectKind.stop ∉ pre ∧ EffectKind.start ∉ pre ∧ EffectKind.stop ∈ post :=
  ⟨by decide,
    (configTick_flush_precedes_stop exManager
      (exWorldCoreDown [.response 200 (some exNewConfig)] [])).1 (by decide)⟩

/-- C4 (as stated, refuted): in scenario 3 (changed config, counter
`user>>>a@x>>>traffic>>>uplink = 1000`) the on-disk rewrite comes first, before the
counter query and the report, not between the report and Stop. -/
theorem configTick_changed_order_refuted :
    effects (exManager.configTick (exWorld [.response 200 (some exNewConfig)] [])).trace
        = [.write, .query true, .report, .stop, .start]
    ∧ effects (exManager.configTick (exWorld [.response 200 (some exNewConfig)] [])).trace
        ≠ [.query true, .report, .write, .stop, .start] :=
  ⟨by decide, by decide⟩

/-- C4 (amended): in a config-loop tick that observes a changed NodeConfig while the core
holds non-zero user counters, and in which the configuration write and Stop succeed, the
effects occur in exactly this order: on-disk configuration rewrite,
QueryTrafficStats(reset = true), ReportTraffic (of the counters read), Stop, Start. -/
theorem configTick_changed_order (m : Manager) (w : World) (cfg : NodeConfig)
    (traffics : List TrafficReport)
    (hget : (GetConfig m.client w.configPanel).result = .ok (some cfg))
    (hw : w.writeOk = true)
    (hq : QueryTrafficStats w.coreStats = some traffics) (hne : traffics ≠ [])
    (hstop : (m.process.Stop w).1 = true) :
    effects (m.configTick w).trace = [.write, .query true, .report, .stop, .start]
    ∧ Event.reportTraffic traffics ∈ (m.configTick w).trace := by
  have hok1 : (m.syncConfig w).ok = true := (syncConfig_ok m w).2 ⟨_, hget⟩
  have hnc : (m.syncConfig w).m.nodeConfig = some cfg := by
    rw [syncConfig_nodeConfig, hget]
  have hok2 : ((m.syncConfig w).m.generateAndWriteConfig (m.syncConfig w).w).ok = true := by
    rw [(generateAndWriteConfig_frame _ _).2.2, hnc, (syncConfig_frame m w).2.2.1, hw]
    rfl
  have hlen : traffics.length > 0 := List.length_pos.2 hne
  constructor
  · rw [configTick_effects, if_pos hok1, if_pos hok2, hnc, hq, hstop]
    simp [hlen]
  · unfold Manager.configTick
    simp only [hok1, hok2, Bool.not_true, Bool.false_eq_true, if_false]
    apply List.mem_append_left
    apply List.mem_append_right
    unfold Manager.flushTrafficBeforeRestart
    rw [(generateAndWriteConfig_frame _ _).1, (syncConfig_frame m w).2.2.2.1, hq]
    simp [hlen]

/-- Witness for C4 (amended): scenario 3. -/
theorem configTick_changed_order_witness :
    effects (exManager.configTick (exWorld [.response 200 (some exNewConfig)] [])).trace
        = [.write, .query true, .report, .stop, .start]
    ∧ Event.reportTraffic [{ Email := "a@x", Upload := 1000, Download := 0 }]
        ∈ (exManager.configTick (exWorld [.response 200 (some exNewConfig)] [])).trace :=
  configTick_changed_order exManager (exWorld [.response 200 (some exNewConfig)] [])
    { exNewConfig.Config with ETag := exNewConfig.ETag }
    [{ Email := "a@x", Upload := 1000, Download := 0 }] rfl rfl (by decide) (by decide) rfl

/-! ## Claims about the Panel client -/

/-- C7 (as stated, refuted): with retry_count = 3 and a Panel that answers 503 three times
and then 200, the first GetConfig call makes four attempts and returns the 200 response. -/
theorem getConfig_retry_scenario_refuted :
    exClient.retryCount = 3
    ∧ attempts (GetConfig exClient exPanel503).trace = 4
    ∧ (GetConfig exClient exPanel503).result
        = .ok (some { exNewConfig.Config with ETag := exNewConfig.ETag }) :=
  ⟨rfl, by decide, rfl⟩

/-- C7 (amended): with retry_count = N, doRequest makes at most N + 1 attempts (the first
attempt and N retries; none when N is negative): in particular with retry_count = 3 and a
Panel that answers 503 three times and 200 afterwards, the first GetConfig call makes four
attempts and returns the 200 response. -/
theorem doRequest_attempts_bound (c : Client) :
    (∀ (α : Type) (method path : String) (body : Option JVal)
        (headers : List (String × String)) (panel : List (RoundTrip α)),
        attempts (doRequest c method path body headers panel).trace
          ≤ (c.retryCount + 1).toNat)
    ∧ (c.retryCount = 3 → c.urlOk = true →
        ∀ (wrapper : ConfigWrapper) (rest : List (RoundTrip ConfigWrapper)),
          attempts (GetConfig c (.response 503 none :: .response 503 none
              :: .response 503 none :: .response 200 (some wrapper) :: rest)).trace = 4
          ∧ (GetConfig c (.response 503 none :: .response 503 none
              :: .response 503 none :: .response 200 (some wrapper) :: rest)).result
            = .ok (some { wrapper.Config with ETag := wrapper.ETag })) := by
  constructor
  · intro α method path body headers panel
    have h := doRequestLoop_attempts c method path body headers (c.retryCount + 1).toNat 0
      false panel []
    simpa [doRequest, attempts] using h
  · intro hrc hurl wrapper rest
    have h4 : (c.retryCount + 1).toNat = 4 := by rw [hrc]; rfl
    constructor
    · rw [GetConfig_trace]
      unfold doRequest
      rw [h4]
      simp [doRequestLoop, hurl, attempts]
    · unfold GetConfig doRequest
      rw [h4]
      simp [doRequestLoop, hurl]

/-- Witness for C7 (amended): the client of scenario 5. -/
theorem doRequest_attempts_bound_witness :
    attempts (GetConfig exClient (.response 503 none :: .response 503 none
        :: .response 503 none :: .response 200 (some exNewConfig) :: [])).trace = 4
    ∧ (GetConfig exClient (.response 503 none :: .response 503 none
        :: .response 503 none :: .response 200 (some exNewConfig) :: [])).result
      = .ok (some { exNewConfig.Config with ETag := exNewConfig.ETag }) :=
  (doRequest_attempts_bound exClient).2 rfl rfl exNewConfig []

/-! ## Properties of `hotSyncUsers` -/

theorem mem_gmKeys_iff {β : Type} (m : List (String × β)) (k : String) :
    k ∈ gmKeys m ↔ (gmGet m k).isSome = true := by
  induction m with
  | nil => simp [gmKeys, gmGet_nil]
  | cons kv m ih =>
    obtain ⟨a, b⟩ := kv
    rw [gmGet_cons]
    unfold gmKeys at ih ⊢
    by_cases h : a = k
    · simp [h]
    · have h2 : ¬ k = a := fun e => h e.symm
      simp [h, h2, ih]

theorem gmKeys_gmDelete_sublist {β : Type} (m : List (String × β)) (k : String) :
    List.Sublist (gmKeys (gmDelete m k)) (gmKeys m) := by
  unfold gmKeys gmDelete
  exact (List.filter_sublist _).map _

theorem gmKeys_gmSet_nodup {β : Type} (m : List (String × β)) (k : String) (v : β)
    (h : (gmKeys m).Nodup) : (gmKeys (gmSet m k v)).Nodup := by
  induction m with
  | nil => simp [gmSet, gmKeys]
  | cons kv m ih =>
    obtain ⟨a, b⟩ := kv
    have hnd : a ∉ gmKeys m ∧ (gmKeys m).Nodup := by
      simpa [gmKeys] using h
    by_cases ha : a = k
    · have hb : (a == k) = true := by simp [ha]
      simp only [gmSet, hb, if_true]
      show (k :: gmKeys (gmDelete m k)).Nodup
      rw [List.nodup_cons]
      refine ⟨?_, hnd.2.sublist (gmKeys_gmDelete_sublist m k)⟩
      rw [mem_gmKeys_iff, gmGet_gmDelete]
      simp
    · have hb : (a == k) = false := by simp [ha]
      simp only [gmSet, hb, Bool.false_eq_true, if_false]
      show (a :: gmKeys (gmSet m k v)).Nodup
      rw [List.nodup_cons]
      refine ⟨?_, ih hnd.2⟩
      rw [mem_gmKeys_iff, gmGet_gmSet, if_neg ha, ← mem_gmKeys_iff]
      exact hnd.1

theorem gmGet_of_mem {β : Type} (m : List (String × β)) (h : (gmKeys m).Nodup)
    (k : String) (v : β) (hm : (k, v) ∈ m) : gmGet m k = some v := by
  induction m with
  | nil => simp at hm
  | cons kv m ih =>
    obtain ⟨a, b⟩ := kv
    have hnd : a ∉ gmKeys m ∧ (gmKeys m).Nodup := by
      simpa [gmKeys] using h
    rw [gmGet_cons]
    rcases List.mem_cons.1 hm with heq | hmem
    · cases heq
      simp
    · have hk : k ∈ gmKeys m := List.mem_map.2 ⟨(k, v), hmem, rfl⟩
      have hne : ¬ a = k := fun e => hnd.1 (e ▸ hk)
      rw [if_neg hne]
      exact ih hnd.2 hmem

theorem foldl_cond_append {α β : Type} (c : α → Bool) (e : α → β) (l : List α)
    (init : List β) :
    l.foldl (fun tr x => if c x then tr ++ [e x] else tr) init
      = init ++ (l.filter c).map e := by
  induction l generalizing init with
  | nil => simp
  | cons x l ih =>
    rw [List.foldl_cons, ih]
    by_cases hc : c x = true
    · simp [hc, List.filter_cons]
    · simp [hc, List.filter_cons]

theorem foldl_append_flatMap {α β : Type} (f : α → List β) (l : List α) (init : List β) :
    l.foldl (fun tr x => tr ++ f x) init = init ++ l.flatMap f := by
  induction l generalizing init with
  | nil => simp
  | cons x l ih => rw [List.foldl_cons, ih, List.flatMap_cons, List.append_assoc]

theorem sum_map_single (l : List String) (hnd : l.Nodup) (g : String → Nat) (t : String)
    (h : ∀ x ∈ l, x ≠ t → g x = 0) :
    (l.map g).sum = if t ∈ l then g t else 0 := by
  induction l with
  | nil => simp
  | cons x l ih =>
    have hx : x ∉ l ∧ l.Nodup := List.nodup_cons.1 hnd
    have ih2 := ih hx.2 (fun y hy hne => h y (List.mem_cons_of_mem _ hy) hne)
    rw [List.map_cons, List.sum_cons, ih2]
    by_cases hxt : x = t
    · subst hxt
      simp [hx.1]
    · have h0 := h x (List.mem_cons_self _ _) hxt
      have : ¬ t = x := fun e => hxt e.symm
      simp [h0, this]

theorem lookup2_step {β : Type} (m : List (String × List (String × β))) (t e : String)
    (v : β) (tag email : String) :
    lookup2 (gmSet m t (gmSet ((gmGet m t).getD []) e v)) tag email
      = if tag = t ∧ email = e then some v else lookup2 m tag email := by
  unfold lookup2
  rw [gmGet_gmSet]
  by_cases ht : tag = t
  · subst ht
    simp only [if_true, Option.getD_some, gmGet_gmSet, true_and]
  · simp [ht]

theorem lookup2_tags {β : Type} (u : UserConfig) (v : β) (tags : List String)
    (m : List (String × List (String × β))) (tag email : String) :
    lookup2 (tags.foldl (fun m t => gmSet m t (gmSet ((gmGet m t).getD []) u.Email v)) m)
        tag email
      = if email = u.Email ∧ tag ∈ tags then some v else lookup2 m tag email := by
  induction tags generalizing m with
  | nil => simp
  | cons t ts ih =>
    rw [List.foldl_cons, ih, lookup2_step]
    by_cases he : email = u.Email
    · by_cases h1 : tag ∈ ts
      · simp [he, h1]
      · by_cases h2 : tag = t
        · simp [he, h2]
        · simp [he, h1, h2]
    · simp [he]

theorem lookup2_buildTagMap {β : Type} (val : UserConfig → β) (users : List UserConfig)
    (m : List (String × List (String × β))) (tag email : String) :
    lookup2 (buildTagMap val users m) tag email
      = users.foldl
          (fun acc u => if email = u.Email ∧ tag ∈ u.InboundTags then some (val u) else acc)
          (lookup2 m tag email) := by
  unfold buildTagMap
  induction users generalizing m with
  | nil => rfl
  | cons u us ih => rw [List.foldl_cons, ih, lookup2_tags, List.foldl_cons]

theorem lastMatch_isSome {β : Type} (val : UserConfig → β) (users : List UserConfig)
    (tag email : String) (init : Option β) :
    (users.foldl
        (fun acc u => if email = u.Email ∧ tag ∈ u.InboundTags then some (val u) else acc)
        init).isSome
      = (init.isSome || isMemberB users tag email) := by
  induction users generalizing init with
  | nil => simp [isMemberB]
  | cons u us ih =>
    rw [List.foldl_cons, ih]
    unfold isMemberB
    by_cases h : email = u.Email ∧ tag ∈ u.InboundTags
    · have hb : (u.Email == email && u.InboundTags.contains tag) = true := by
        simp [h.1, h.2]
      rw [if_pos h, List.any_cons, hb]
      simp
    · rw [if_neg h]
      have hb : (u.Email == email && u.InboundTags.contains tag) = false := by
        by_cases he : u.Email = email
        · have : ¬ tag ∈ u.InboundTags := fun ht => h ⟨he.symm, ht⟩
          simp [he, this]
        · simp [he]
      rw [List.any_cons, hb]
      simp

theorem lastMatch_some {β : Type} (val : UserConfig → β) (users : List UserConfig)
    (tag email : String) (init : Option β) (v : β)
    (h : users.foldl
        (fun acc u => if email = u.Email ∧ tag ∈ u.InboundTags then some (val u) else acc)
        init = some v) :
    init = some v
      ∨ ∃ u ∈ users, u.Email = email ∧ tag ∈ u.InboundTags ∧ v = val u := by
  induction users generalizing init with
  | nil => exact Or.inl h
  | cons u us ih =>
    rw [List.foldl_cons] at h
    rcases ih _ h with h1 | ⟨u', hu', hrest⟩
    · by_cases hc : email = u.Email ∧ tag ∈ u.InboundTags
      · rw [if_pos hc] at h1
        right
        exact ⟨u, List.mem_cons_self _ _, hc.1.symm, hc.2, (Option.some.inj h1).symm⟩
      · rw [if_neg hc] at h1
        exact Or.inl h1
    · right
      exact ⟨u', List.mem_cons_of_mem _ hu', hrest⟩

theorem WF2_step {β : Type} (m : List (String × List (String × β))) (t e : String) (v : β)
    (h : WF2 m) : WF2 (gmSet m t (gmSet ((gmGet m t).getD []) e v)) := by
  refine ⟨gmKeys_gmSet_nodup _ _ _ h.1, ?_⟩
  intro tag
  rw [gmGet_gmSet]
  by_cases ht : tag = t
  · subst ht
    simp only [if_true, Option.getD_some]
    exact gmKeys_gmSet_nodup _ _ _ (h.2 tag)
  · rw [if_neg ht]
    exact h.2 tag

theorem WF2_buildTagMap {β : Type} (val : UserConfig → β) (users : List UserConfig)
    (m : List (String × List (String × β))) (h : WF2 m) : WF2 (buildTagMap val users m) := by
  unfold buildTagMap
  induction users generalizing m with
  | nil => exact h
  | cons u us ih =>
    rw [List.foldl_cons]
    apply ih
    generalize u.InboundTags = tags
    induction tags generalizing m with
    | nil => exact h
    | cons t ts iht =>
      rw [List.foldl_cons]
      exact iht _ (WF2_step m t u.Email (val u) h)

theorem WF2_nil {β : Type} : WF2 ([] : List (String × List (String × β))) := by
  refine ⟨List.nodup_nil, ?_⟩
  intro tag
  simp [gmGet_nil, gmKeys]

theorem oldEmails_get (old : List UserConfig) (tag email : String) :
    gmGet ((gmGet (buildOldMap old) tag).getD []) email
      = if isMemberB old tag email then some true else none := by
  have hb : buildOldMap old = buildTagMap (fun _ => true) old [] := rfl
  have hl := lookup2_buildTagMap (fun _ => true) old [] tag email
  have hs := lastMatch_isSome (fun _ => true) old tag email (lookup2 [] tag email)
  rw [← hl] at hs
  unfold lookup2 at hs hl
  rw [hb]
  cases hg : gmGet ((gmGet (buildTagMap (fun _ => true) old []) tag).getD []) email with
  | none =>
    rw [hg] at hs
    simp [gmGet_nil] at hs
    simp [hs]
  | some v =>
    rw [hg] at hs hl
    simp [gmGet_nil] at hs
    rcases lastMatch_some (fun _ => true) old tag email _ v hl.symm with h1 | ⟨u, _, _, _, hv⟩
    · simp [gmGet_nil] at h1
    · simp [← hs, hv]

theorem newUserMap_has (new : List UserConfig) (tag email : String) :
    gmHas ((gmGet (buildNewMap new) tag).getD []) email = isMemberB new tag email := by
  have hb : buildNewMap new = buildTagMap (fun u => u) new [] := rfl
  have hl := lookup2_buildTagMap (fun u => u) new [] tag email
  have hs := lastMatch_isSome (fun u => u) new tag email (lookup2 [] tag email)
  rw [← hl] at hs
  unfold lookup2 at hs
  rw [gmHas_eq_isSome, hb, hs]
  simp [gmGet_nil]

theorem oldMap_WF2 (old : List UserConfig) : WF2 (buildOldMap old) :=
  WF2_buildTagMap (fun _ => true) old [] WF2_nil

theorem newMap_WF2 (new : List UserConfig) : WF2 (buildNewMap new) :=
  WF2_buildTagMap (fun u => u) new [] WF2_nil

theorem newUserMap_entry (new : List UserConfig) (tag : String) (kv : String × UserConfig)
    (hkv : kv ∈ (gmGet (buildNewMap new) tag).getD []) :
    kv.2.Email = kv.1 ∧ kv.2 ∈ new ∧ tag ∈ kv.2.InboundTags := by
  obtain ⟨k, v⟩ := kv
  have hget := gmGet_of_mem _ ((newMap_WF2 new).2 tag) k v hkv
  have hl := lookup2_buildTagMap (fun u => u) new [] tag k
  unfold lookup2 at hl
  have hb : buildNewMap new = buildTagMap (fun u => u) new [] := rfl
  rw [← hb, hget] at hl
  rcases lastMatch_some (fun u => u) new tag k _ v hl.symm with h1 | ⟨u, hu, he, ht, hv⟩
  · simp [gmGet_nil] at h1
  · subst hv
    exact ⟨he, hu, ht⟩

theorem allTags_get (l : List String) (acc : List (String × Bool)) (x : String) :
    (gmGet (l.foldl (fun t tag => gmSet t tag true) acc) x).isSome
      = ((gmGet acc x).isSome || decide (x ∈ l)) := by
  induction l generalizing acc with
  | nil => simp
  | cons a l ih =>
    rw [List.foldl_cons, ih, gmGet_gmSet]
    by_cases h : x = a
    · simp [h]
    · simp [h]

theorem allTags_nodup (l : List String) (acc : List (String × Bool))
    (h : (gmKeys acc).Nodup) :
    (gmKeys (l.foldl (fun t tag => gmSet t tag true) acc)).Nodup := by
  induction l generalizing acc with
  | nil => exact h
  | cons a l ih =>
    rw [List.foldl_cons]
    exact ih _ (gmKeys_gmSet_nodup acc a true h)

theorem buildAllTags_nodup (oldMap : List (String × List (String × Bool)))
    (newMap : List (String × List (String × UserConfig))) :
    (gmKeys (buildAllTags oldMap newMap)).Nodup := by
  unfold buildAllTags
  exact allTags_nodup _ _ (allTags_nodup _ _ List.nodup_nil)

theorem buildAllTags_mem (oldMap : List (String × List (String × Bool)))
    (newMap : List (String × List (String × UserConfig))) (tag : String) :
    tag ∈ gmKeys (buildAllTags oldMap newMap) ↔ tag ∈ gmKeys oldMap ∨ tag ∈ gmKeys newMap := by
  unfold buildAllTags
  rw [mem_gmKeys_iff, allTags_get, allTags_get]
  simp [gmGet_nil]

theorem getD_nil_of_not_mem {β : Type} (m : List (String × List β)) (tag : String)
    (h : tag ∉ gmKeys m) : (gmGet m tag).getD [] = [] := by
  rw [mem_gmKeys_iff] at h
  cases hg : gmGet m tag with
  | none => rfl
  | some v => simp [hg] at h

theorem coreCalls_append (a b : List Event) :
    coreCalls (a ++ b) = coreCalls a ++ coreCalls b := by
  simp [coreCalls, List.filterMap_append]

theorem coreCalls_map_core {α : Type} (l : List α) (c : α → CoreCall) (b : α → Bool) :
    coreCalls (l.map (fun x => Event.core (c x) (b x))) = l.map (fun x => (c x, b x)) := by
  induction l with
  | nil => rfl
  | cons x l ih =>
    unfold coreCalls at ih ⊢
    rw [List.map_cons, List.filterMap_cons, ih]
    rfl

theorem effects_map_core {α : Type} (l : List α) (c : α → CoreCall) (b : α → Bool) :
    effects (l.map (fun x => Event.core (c x) (b x))) = [] := by
  induction l with
  | nil => rfl
  | cons x l ih =>
    unfold effects at ih ⊢
    rw [List.map_cons, List.filterMap_cons, ih]
    rfl

theorem removeCalls_eq (ok : CoreCall → Bool) (tag : String)
    (oldEmails : List (String × Bool)) (newUserMap : List (String × UserConfig)) :
    removeCalls ok tag oldEmails newUserMap
      = ((gmKeys oldEmails).filter (fun email => !gmHas newUserMap email)).map
          (fun email => Event.core (.removeUser tag email) (ok (.removeUser tag email))) := by
  unfold removeCalls
  rw [foldl_cond_append (fun email => !gmHas newUserMap email)
    (fun email => Event.core (.removeUser tag email) (ok (.removeUser tag email)))]
  simp

theorem addCalls_eq (ok : CoreCall → Bool) (tag : String)
    (oldEmails : List (String × Bool)) (newUserMap : List (String × UserConfig)) :
    addCalls ok tag oldEmails newUserMap
      = (newUserMap.filter (fun kv => !(gmGet oldEmails kv.1).getD false)).map
          (fun kv => Event.core (.addUser tag kv.2) (ok (.addUser tag kv.2))) := by
  unfold addCalls
  rw [foldl_cond_append (fun (kv : String × UserConfig) => !(gmGet oldEmails kv.1).getD false)
    (fun kv => Event.core (.addUser tag kv.2) (ok (.addUser tag kv.2)))]
  simp

/-- The core calls made for one inbound tag: removals, then additions. -/
theorem hotSyncCalls_eq (ok : CoreCall → Bool) (old new : List UserConfig) :
    hotSyncCalls ok old new
      = (gmKeys (buildAllTags (buildOldMap old) (buildNewMap new))).flatMap
          (fun tag =>
            removeCalls ok tag ((gmGet (buildOldMap old) tag).getD [])
              ((gmGet (buildNewMap new) tag).getD [])
            ++ addCalls ok tag ((gmGet (buildOldMap old) tag).getD [])
              ((gmGet (buildNewMap new) tag).getD [])) := by
  unfold hotSyncCalls
  simp only
  rw [← List.nil_append (List.flatMap _ _), ← foldl_append_flatMap]
  congr 1
  funext tr tag
  rw [List.append_assoc]

theorem countP_key_nodup (l : List String) (hnd : l.Nodup) (c : String → Bool)
    (email : String) :
    l.countP (fun k => k == email && c k) = if email ∈ l ∧ c email = true then 1 else 0 := by
  induction l with
  | nil => simp
  | cons x l ih =>
    have hx : x ∉ l ∧ l.Nodup := List.nodup_cons.1 hnd
    rw [List.countP_cons, ih hx.2]
    by_cases hxe : x = email
    · subst hxe
      by_cases hc : c x = true
      · simp [hx.1, hc]
      · simp [hx.1, hc]
    · have h2 : ¬ email = x := fun e => hxe e.symm
      simp [hxe, h2]

theorem perTag_remove_count (ok : CoreCall → Bool) (old new : List UserConfig)
    (t tag email : String) :
    (coreCalls
        (removeCalls ok t ((gmGet (buildOldMap old) t).getD [])
            ((gmGet (buildNewMap new) t).getD [])
          ++ addCalls ok t ((gmGet (buildOldMap old) t).getD [])
            ((gmGet (buildNewMap new) t).getD []))).countP
        (fun c => c.1.isRemoveFor tag email)
      = if t = tag then (if isMemberB old tag email && !isMemberB new tag email then 1 else 0)
        else 0 := by
  rw [coreCalls_append, removeCalls_eq, addCalls_eq, coreCalls_map_core, coreCalls_map_core,
    List.countP_append, List.countP_map, List.countP_map]
  have hadd : List.countP ((fun (c : CoreCall × Bool) => c.1.isRemoveFor tag email) ∘
      fun (kv : String × UserConfig) => (CoreCall.addUser t kv.2, ok (CoreCall.addUser t kv.2)))
      (List.filter (fun kv => !(gmGet ((gmGet (buildOldMap old) t).getD []) kv.1).getD false)
        ((gmGet (buildNewMap new) t).getD [])) = 0 := by
    rw [List.countP_eq_zero]
    intro a _
    simp [CoreCall.isRemoveFor]
  rw [hadd, Nat.add_zero]
  by_cases ht : t = tag
  · subst ht
    rw [if_pos rfl, List.countP_filter]
    have hfun : (fun a => ((fun (c : CoreCall × Bool) => c.1.isRemoveFor t email) ∘
        fun email => (CoreCall.removeUser t email, ok (CoreCall.removeUser t email))) a
          && !gmHas ((gmGet (buildNewMap new) t).getD []) a)
        = (fun k => k == email && !gmHas ((gmGet (buildNewMap new) t).getD []) k) := by
      funext a
      simp [CoreCall.isRemoveFor]
    rw [hfun, countP_key_nodup _ ((oldMap_WF2 old).2 t)]
    have hmem : email ∈ gmKeys ((gmGet (buildOldMap old) t).getD [])
        ↔ isMemberB old t email = true := by
      rw [mem_gmKeys_iff, oldEmails_get]
      cases isMemberB old t email <;> simp
    simp only [hmem, newUserMap_has]
    cases isMemberB old t email <;> cases isMemberB new t email <;> simp
  · rw [if_neg ht, List.countP_eq_zero]
    intro a _
    simp [CoreCall.isRemoveFor, ht]

theorem perTag_add_count (ok : CoreCall → Bool) (old new : List UserConfig)
    (t tag email : String) :
    (coreCalls
        (removeCalls ok t ((gmGet (buildOldMap old) t).getD [])
            ((gmGet (buildNewMap new) t).getD [])
          ++ addCalls ok t ((gmGet (buildOldMap old) t).getD [])
            ((gmGet (buildNewMap new) t).getD []))).countP
        (fun c => c.1.isAddFor tag email)
      = if t = tag then (if isMemberB new tag email && !isMemberB old tag email then 1 else 0)
        else 0 := by
  rw [coreCalls_append, removeCalls_eq, addCalls_eq, coreCalls_map_core, coreCalls_map_core,
    List.countP_append, List.countP_map, List.countP_map]
  have hrem : List.countP ((fun (c : CoreCall × Bool) => c.1.isAddFor tag email) ∘
      fun (e : String) => (CoreCall.removeUser t e, ok (CoreCall.removeUser t e)))
      (List.filter (fun e => !gmHas ((gmGet (buildNewMap new) t).getD []) e)
        (gmKeys ((gmGet (buildOldMap old) t).getD []))) = 0 := by
    rw [List.countP_eq_zero]
    intro a _
    simp [CoreCall.isAddFor]
  rw [hrem, Nat.zero_add]
  by_cases ht : t = tag
  · subst ht
    rw [if_pos rfl, List.countP_filter]
    have hcongr : List.countP
        (fun a => ((fun (c : CoreCall × Bool) => c.1.isAddFor t email) ∘
            fun (kv : String × UserConfig) =>
              (CoreCall.addUser t kv.2, ok (CoreCall.addUser t kv.2))) a
          && !(gmGet ((gmGet (buildOldMap old) t).getD []) a.1).getD false)
        ((gmGet (buildNewMap new) t).getD [])
        = List.countP
            ((fun k => k == email
                && !(gmGet ((gmGet (buildOldMap old) t).getD []) k).getD false) ∘ Prod.fst)
            ((gmGet (buildNewMap new) t).getD []) := by
      apply List.countP_congr
      intro kv hkv
      have he := (newUserMap_entry new t kv hkv).1
      simp [CoreCall.isAddFor, he]
    rw [hcongr, ← List.countP_map]
    have hkeys : List.map Prod.fst ((gmGet (buildNewMap new) t).getD [])
        = gmKeys ((gmGet (buildNewMap new) t).getD []) := rfl
    rw [hkeys, countP_key_nodup _ ((newMap_WF2 new).2 t)]
    have hmem : email ∈ gmKeys ((gmGet (buildNewMap new) t).getD [])
        ↔ isMemberB new t email = true := by
      rw [mem_gmKeys_iff, ← gmHas_eq_isSome, newUserMap_has]
    simp only [hmem, oldEmails_get]
    cases isMemberB old t email <;> cases isMemberB new t email <;> simp
  · rw [if_neg ht, List.countP_eq_zero]
    intro a _
    simp [CoreCall.isAddFor, ht]

theorem coreCalls_hotSyncCalls (ok : CoreCall → Bool) (old new : List UserConfig) :
    coreCalls (hotSyncCalls ok old new)
      = (gmKeys (buildAllTags (buildOldMap old) (buildNewMap new))).flatMap
          (fun t => coreCalls
            (removeCalls ok t ((gmGet (buildOldMap old) t).getD [])
                ((gmGet (buildNewMap new) t).getD [])
              ++ addCalls ok t ((gmGet (buildOldMap old) t).getD [])
                ((gmGet (buildNewMap new) t).getD []))) := by
  rw [hotSyncCalls_eq]
  unfold coreCalls
  rw [List.filterMap_flatMap]

theorem not_member_of_not_tag (old new : List UserConfig) (tag email : String)
    (h : tag ∉ gmKeys (buildAllTags (buildOldMap old) (buildNewMap new))) :
    isMemberB old tag email = false ∧ isMemberB new tag email = false := by
  rw [buildAllTags_mem, not_or] at h
  constructor
  · have hg := oldEmails_get old tag email
    rw [getD_nil_of_not_mem _ tag h.1, gmGet_nil] at hg
    cases hm : isMemberB old tag email
    · rfl
    · rw [hm] at hg
      simp at hg
  · have hg := newUserMap_has new tag email
    rw [getD_nil_of_not_mem _ tag h.2] at hg
    rw [← hg]
    rfl

theorem hotSyncCalls_remove_count (ok : CoreCall → Bool) (old new : List UserConfig)
    (tag email : String) :
    (coreCalls (hotSyncCalls ok old new)).countP (fun c => c.1.isRemoveFor tag email)
      = if isMemberB old tag email && !isMemberB new tag email then 1 else 0 := by
  rw [coreCalls_hotSyncCalls, List.countP_flatMap,
    sum_map_single _ (buildAllTags_nodup _ _) _ tag]
  · simp only [Function.comp_def, perTag_remove_count, if_true]
    by_cases hmem : tag ∈ gmKeys (buildAllTags (buildOldMap old) (buildNewMap new))
    · rw [if_pos hmem]
    · rw [if_neg hmem, (not_member_of_not_tag old new tag email hmem).1]
      rfl
  · intro x _ hne
    simp only [Function.comp_def, perTag_remove_count, if_neg hne]

theorem hotSyncCalls_add_count (ok : CoreCall → Bool) (old new : List UserConfig)
    (tag email : String) :
    (coreCalls (hotSyncCalls ok old new)).countP (fun c => c.1.isAddFor tag email)
      = if isMemberB new tag email && !isMemberB old tag email then 1 else 0 := by
  rw [coreCalls_hotSyncCalls, List.countP_flatMap,
    sum_map_single _ (buildAllTags_nodup _ _) _ tag]
  · simp only [Function.comp_def, perTag_add_count, if_true]
    by_cases hmem : tag ∈ gmKeys (buildAllTags (buildOldMap old) (buildNewMap new))
    · rw [if_pos hmem]
    · rw [if_neg hmem, (not_member_of_not_tag old new tag email hmem).2]
      rfl
  · intro x _ hne
    simp only [Function.comp_def, perTag_add_count, if_neg hne]

theorem hotSyncCalls_shape (ok : CoreCall → Bool) (old new : List UserConfig)
    (c : CoreCall × Bool) (hc : c ∈ coreCalls (hotSyncCalls ok old new)) :
    c.2 = ok c.1
    ∧ ((∃ tag email, c.1 = .removeUser tag email)
      ∨ (∃ tag u, c.1 = .addUser tag u ∧ u ∈ new ∧ tag ∈ u.InboundTags)) := by
  rw [coreCalls_hotSyncCalls, List.mem_flatMap] at hc
  obtain ⟨t, _, hct⟩ := hc
  rw [coreCalls_append, removeCalls_eq, addCalls_eq, coreCalls_map_core, coreCalls_map_core,
    List.mem_append, List.mem_map, List.mem_map] at hct
  rcases hct with ⟨e, _, rfl⟩ | ⟨kv, hkv, rfl⟩
  · exact ⟨rfl, Or.inl ⟨t, e, rfl⟩⟩
  · have hent := newUserMap_entry new t kv (List.mem_filter.1 hkv).1
    exact ⟨rfl, Or.inr ⟨t, kv.2, rfl, hent.2.1, hent.2.2⟩⟩

theorem hotSyncCalls_all_core (ok : CoreCall → Bool) (old new : List UserConfig) :
    (coreCalls (hotSyncCalls ok old new)).length = (hotSyncCalls ok old new).length
    ∧ effects (hotSyncCalls ok old new) = [] := by
  rw [hotSyncCalls_eq]
  generalize gmKeys (buildAllTags (buildOldMap old) (buildNewMap new)) = tags
  induction tags with
  | nil => exact ⟨rfl, rfl⟩
  | cons t ts ih =>
    rw [List.flatMap_cons, coreCalls_append, effects_append, List.length_append,
      List.length_append, ih.1, ih.2, coreCalls_append, effects_append, removeCalls_eq,
      addCalls_eq, coreCalls_map_core, coreCalls_map_core, effects_map_core, effects_map_core]
    simp

theorem foldl_effects_inv {α : Type} (step : List Event → α → List Event)
    (h : ∀ tr x, effects (step tr x) = effects tr) (l : List α) (init : List Event) :
    effects (l.foldl step init) = effects init := by
  induction l generalizing init with
  | nil => rfl
  | cons x l ih => rw [List.foldl_cons, ih, h]

theorem rateLimitCalls_effects (ok : CoreCall → Bool) (oldLimits newLimits : List RateLimitConfig) :
    effects (rateLimitCalls ok oldLimits newLimits) = [] := by
  unfold rateLimitCalls
  simp only
  rw [foldl_effects_inv, foldl_effects_inv]
  · rfl
  · intro tr x
    split
    · rw [effects_append]
      simp [effects, Event.kind]
    · rfl
  · intro tr x
    split
    · rw [effects_append]
      simp [effects, Event.kind]
    · rfl

/-- A user-loop tick never writes the configuration, never flushes and never calls the
supervisor: `hotSyncUsers` returns nil on every path, so the fallback is not taken. -/
theorem userTick_effects (m : Manager) (w : World) : effects (m.userTick w).trace = [] := by
  unfold Manager.userTick
  simp only
  cases h1 : (m.syncUsers w).ok
  · simp [(syncUsers_effects m w).1]
  · have h2 : ∀ (m' : Manager) (w' : World) (a b : List UserConfig),
        (m'.hotSyncUsers w' a b).ok = true := fun _ _ _ _ => rfl
    simp only [h2, Bool.not_true, Bool.false_eq_true, if_false, effects_append,
      (syncUsers_effects m w).1, List.nil_append]
    unfold Manager.hotSyncUsers Manager.hotSyncRateLimits
    simp only [(hotSyncCalls_all_core _ _ _).2, rateLimitCalls_effects, List.append_nil]

/-! ## Claims about the user loop -/

/-- C5: for every old and new user list, hotSyncUsers issues RemoveUser(tag, email)
exactly once for each (tag, email) pair that is a membership in the old list and not in
the new list, AddUser(tag, user) exactly once for each pair that is a membership in the
new list and not in the old list (with a user record of the new list that carries that
email and tag), and no other call; this holds for every outcome of the calls, so a failed
call suppresses none of the others, and hotSyncUsers returns nil. -/
theorem hotSyncUsers_calls (m : Manager) (w : World) (old new : List UserConfig) :
    (m.hotSyncUsers w old new).ok = true
    ∧ (∀ tag email,
        (coreCalls (m.hotSyncUsers w old new).trace).countP (fun c => c.1.isRemoveFor tag email)
          = if isMemberB old tag email && !isMemberB new tag email then 1 else 0)
    ∧ (∀ tag email,
        (coreCalls (m.hotSyncUsers w old new).trace).countP (fun c => c.1.isAddFor tag email)
          = if isMemberB new tag email && !isMemberB old tag email then 1 else 0)
    ∧ (∀ c ∈ coreCalls (m.hotSyncUsers w old new).trace,
        c.2 = w.coreCallOk c.1
        ∧ ((∃ tag email, c.1 = .removeUser tag email)
          ∨ (∃ tag u, c.1 = .addUser tag u ∧ u ∈ new ∧ tag ∈ u.InboundTags)))
    ∧ (coreCalls (m.hotSyncUsers w old new).trace).length
        = (m.hotSyncUsers w old new).trace.length :=
  ⟨rfl, hotSyncCalls_remove_count w.coreCallOk old new,
    hotSyncCalls_add_count w.coreCallOk old new,
    hotSyncCalls_shape w.coreCallOk old new,
    (hotSyncCalls_all_core w.coreCallOk old new).1⟩

/-- C6 (code at the failing input): the users poll delivers the added user `b@x` while the
core RPC endpoint is unavailable, so the only core call of the hot path, AddUser(in0, b@x),
fails; the tick neither rewrites the on-disk configuration nor calls Restart. No user-loop
tick ever does: hotSyncUsers returns nil on every path. -/
theorem userTick_hot_failure_no_fallback :
    coreCalls (exManager.userTick
        (exWorldCoreDown [] [.response 200 (some exUsersAdded)])).trace
      = [(CoreCall.addUser "in0" exUserB, false)]
    ∧ effects (exManager.userTick
        (exWorldCoreDown [] [.response 200 (some exUsersAdded)])).trace = []
    ∧ ∀ (m : Manager) (w : World), effects (m.userTick w).trace = [] :=
  ⟨by decide, by decide, userTick_effects⟩

/-! ## Claims about routing and repeated materialization -/

theorem filterRules_loop (rules : List JVal) (init : List JVal) :
    rules.foldl
      (fun validRules rule =>
        match rule with
        | .obj ruleMap =>
          if gmHas ruleMap "outboundTag" then validRules ++ [rule]
          else if gmHas ruleMap "balancerTag" then validRules ++ [rule]
          else validRules
        | _ => validRules)
      init
      = init ++ rules.filter hasTargetKey := by
  induction rules generalizing init with
  | nil => simp
  | cons rule rest ih =>
    rw [List.foldl_cons, ih, List.filter_cons]
    cases rule with
    | obj ruleMap =>
      simp only [hasTargetKey, JVal.field, ← gmHas_eq_isSome]
      cases h1 : gmHas ruleMap "outboundTag" <;> cases h2 : gmHas ruleMap "balancerTag" <;> simp
    | _ => simp [hasTargetKey, JVal.field]

theorem filterRules_eq (rules : List JVal) :
    filterRules rules = apiRule :: rules.filter hasTargetKey := by
  unfold filterRules
  rw [filterRules_loop]
  rfl

theorem generate_rules (nodeConfig : NodeConfig) (users : List UserConfig) :
    (Generate nodeConfig users).1.rules
      = apiRule :: ((nodeConfig.Routing.map (fun r => r.Rules)).getD []).filter hasTargetKey := by
  unfold Generate XrayConfig.rules
  cases nodeConfig.Routing <;> simp [filterRules_eq]

/-- The routing rules stored in the NodeConfig after a call of Generate. -/
theorem generate_after_rules (nodeConfig : NodeConfig) (users : List UserConfig)
    (r : RoutingConfig) (h : nodeConfig.Routing = some r) :
    ((Generate nodeConfig users).2.Routing.map (fun r => r.Rules))
      = some (apiRule :: r.Rules.filter hasTargetKey) := by
  unfold Generate
  simp [h, filterRules_eq]

/-- C11: for every NodeConfig, the routing of Generate's result has as rule 0 the rule
with type `field`, inboundTag `[api-inbound]` and outboundTag `api`, followed by exactly
those input rules that have an `outboundTag` or a `balancerTag` key, in their original
order; when the input has no routing the result's domainStrategy is `AsIs`. -/
theorem generate_routing (nodeConfig : NodeConfig) (users : List UserConfig) :
    ∃ routing, (Generate nodeConfig users).1.Routing = some routing
      ∧ routing.Rules[0]?
          = some (JVal.obj [("type", .str "field"), ("inboundTag", .arr [.str "api-inbound"]),
              ("outboundTag", .str "api")])
      ∧ routing.Rules.drop 1
          = ((nodeConfig.Routing.map (fun r => r.Rules)).getD []).filter hasTargetKey
      ∧ (nodeConfig.Routing = none → routing.DomainStrategy = "AsIs") := by
  have h := generate_rules nodeConfig users
  unfold XrayConfig.rules at h
  unfold Generate at h ⊢
  cases hr : nodeConfig.Routing with
  | none =>
    simp only [hr] at h ⊢
    refine ⟨_, rfl, ?_, ?_, fun _ => rfl⟩
    · simp [filterRules_eq, apiRule]
    · simp [filterRules_eq]
  | some r =>
    simp only [hr] at h ⊢
    refine ⟨_, rfl, ?_, ?_, fun hn => by cases hn⟩
    · simp [filterRules_eq, apiRule]
    · simp [filterRules_eq]

/-- C12 (code at the failing input): Generate is called twice in succession on the same
NodeConfig record (routing section with one rule) and the same users. The first call
leaves the API rule in the NodeConfig's routing rules, so the second document differs
from the first and holds the API rule twice. -/
theorem generate_twice_duplicates_api_rule :
    (Generate exRoutedNode [exUserA]).1.rules = [apiRule, exRule]
    ∧ ((Generate exRoutedNode [exUserA]).2.Routing.map (fun r => r.Rules))
        = some [apiRule, exRule]
    ∧ (exRoutedNode.Routing.map (fun r => r.Rules)) = some [exRule]
    ∧ (Generate (Generate exRoutedNode [exUserA]).2 [exUserA]).1.rules
        = [apiRule, apiRule, exRule] :=
  ⟨rfl, rfl, rfl, rfl⟩

/-- C17 (code at the failing input): for the vless inbound `in0` and the users `bad@x`
(neither UUID nor password) and `a@x`, Generate injects a client for `bad@x`, with an
empty `id`, before the client of `a@x`. -/
theorem generate_injects_invalid_user :
    ∃ out st,
      (Generate (mkNode [exVlessIn0]) [exUserBad, exUserA]).1.Inbounds[0 + 1]? = some out
      ∧ out.field "settings" = some (JVal.obj st)
      ∧ exUserBad.UUID = "" ∧ exUserBad.Password = ""
      ∧ gmGet st "clients"
          = some (JVal.arr
              [JVal.obj [("email", .str "bad@x"), ("level", .num 0), ("id", .str "")],
               JVal.obj [("email", .str "a@x"), ("level", .num 0),
                 ("id", .str "6ba7b810-9dad-11d1-80b4-00c04fd430c8")]]) :=
  ⟨_, _, rfl, rfl, rfl, rfl, rfl⟩

/-! ## Properties of `hotSyncRateLimits` -/

theorem foldl_ite_append {α β : Type} (P : α → Prop) [DecidablePred P] (e : α → β)
    (l : List α) (init : List β) :
    l.foldl (fun tr x => if P x then tr ++ [e x] else tr) init
      = init ++ (l.filter (fun x => decide (P x))).map e := by
  induction l generalizing init with
  | nil => simp
  | cons x l ih =>
    rw [List.foldl_cons, ih]
    by_cases hc : P x
    · simp [hc, List.filter_cons]
    · simp [hc, List.filter_cons]

theorem getLast?_filter_cons_append {α : Type} (p : α → Bool) (l : List α) (x : α) :
    ((l ++ [x]).filter p).getLast? = if p x then some x else (l.filter p).getLast? := by
  rw [List.filter_append]
  by_cases h : p x = true
  · simp [h, List.filter_cons]
  · simp [h, List.filter_cons]

theorem buildLimitMap_get_aux (limits : List RateLimitConfig) (m : List (String × RateLimitConfig))
    (email : String) :
    gmGet (limits.foldl (fun m rl => gmSet m rl.Email rl) m) email
      = ((limitOf limits email).orElse fun _ => gmGet m email) := by
  induction limits using List.reverseRecOn generalizing m with
  | nil => simp [limitOf]
  | append_singleton l rl ih =>
    rw [List.foldl_append, List.foldl_cons, List.foldl_nil, gmGet_gmSet, ih]
    unfold limitOf
    rw [getLast?_filter_cons_append]
    by_cases h : rl.Email = email
    · subst h
      simp
    · have h2 : ¬ email = rl.Email := fun e => h e.symm
      simp [h, h2]

theorem buildLimitMap_get (limits : List RateLimitConfig) (email : String) :
    gmGet (buildLimitMap limits) email = limitOf limits email := by
  unfold buildLimitMap
  rw [buildLimitMap_get_aux]
  cases limitOf limits email <;> simp [gmGet_nil]

theorem buildLimitMap_nodup (limits : List RateLimitConfig) :
    (gmKeys (buildLimitMap limits)).Nodup := by
  unfold buildLimitMap
  have : ∀ (m : List (String × RateLimitConfig)), (gmKeys m).Nodup →
      (gmKeys (limits.foldl (fun m rl => gmSet m rl.Email rl) m)).Nodup := by
    induction limits with
    | nil => exact fun m h => h
    | cons rl l ih =>
      intro m h
      rw [List.foldl_cons]
      exact ih _ (gmKeys_gmSet_nodup m rl.Email rl h)
  exact this [] List.nodup_nil

theorem buildLimitMap_entry (limits : List RateLimitConfig) (kv : String × RateLimitConfig)
    (h : kv ∈ buildLimitMap limits) : limitOf limits kv.1 = some kv.2 := by
  rw [← buildLimitMap_get]
  exact gmGet_of_mem _ (buildLimitMap_nodup limits) kv.1 kv.2 h

/-- The calls of `hotSyncRateLimits`: removals for the old emails missing from the new
map, then settings for the new entries that are new or changed. -/
theorem rateLimitCalls_eq (ok : CoreCall → Bool) (oldLimits newLimits : List RateLimitConfig) :
    rateLimitCalls ok oldLimits newLimits
      = ((gmKeys (buildLimitMap oldLimits)).filter
            (fun email => !gmHas (buildLimitMap newLimits) email)).map
          (fun email =>
            Event.core (.removeUserRateLimit email) (ok (.removeUserRateLimit email)))
        ++ ((buildLimitMap newLimits).filter
            (fun kv => needsSet oldLimits newLimits kv.1)).map
          (fun kv =>
            Event.core
              (.setUserRateLimit kv.1 kv.2.UploadBytesPerSec kv.2.DownloadBytesPerSec)
              (ok (.setUserRateLimit kv.1 kv.2.UploadBytesPerSec kv.2.DownloadBytesPerSec))) := by
  unfold rateLimitCalls
  simp only
  rw [foldl_ite_append
    (fun (kv : String × RateLimitConfig) =>
      (!gmHas (buildLimitMap oldLimits) kv.1) = true
      ∨ ((gmGet (buildLimitMap oldLimits) kv.1).getD
          { Email := "", UploadBytesPerSec := 0, DownloadBytesPerSec := 0 }).UploadBytesPerSec
          ≠ kv.2.UploadBytesPerSec
      ∨ ((gmGet (buildLimitMap oldLimits) kv.1).getD
          { Email := "", UploadBytesPerSec := 0, DownloadBytesPerSec := 0 }).DownloadBytesPerSec
          ≠ kv.2.DownloadBytesPerSec)
    (fun kv =>
      Event.core
        (.setUserRateLimit kv.1 kv.2.UploadBytesPerSec kv.2.DownloadBytesPerSec)
        (ok (.setUserRateLimit kv.1 kv.2.UploadBytesPerSec kv.2.DownloadBytesPerSec))),
    foldl_cond_append (fun email => !gmHas (buildLimitMap newLimits) email)
      (fun email =>
        Event.core (.removeUserRateLimit email) (ok (.removeUserRateLimit email)))]
  rw [List.nil_append]
  congr 2
  apply List.filter_congr
  intro kv hkv
  have hent := buildLimitMap_entry newLimits kv hkv
  unfold needsSet
  rw [hent, gmHas_eq_isSome, buildLimitMap_get]
  cases ho : limitOf oldLimits kv.1 with
  | none => simp
  | some o =>
    simp only [Option.isSome_some, Bool.not_true, Bool.false_eq_true, false_or,
      Option.getD_some, ne_eq]
    by_cases h1 : o.UploadBytesPerSec = kv.2.UploadBytesPerSec
    · by_cases h2 : o.DownloadBytesPerSec = kv.2.DownloadBytesPerSec
      · simp [h1, h2]
      · simp [h1, h2]
    · simp [h1]

theorem coreCalls_rateLimitCalls (ok : CoreCall → Bool)
    (oldLimits newLimits : List RateLimitConfig) :
    coreCalls (rateLimitCalls ok oldLimits newLimits)
      = ((gmKeys (buildLimitMap oldLimits)).filter
            (fun email => !gmHas (buildLimitMap newLimits) email)).map
          (fun email => (CoreCall.removeUserRateLimit email, ok (.removeUserRateLimit email)))
        ++ ((buildLimitMap newLimits).filter
            (fun kv => needsSet oldLimits newLimits kv.1)).map
          (fun kv =>
            (CoreCall.setUserRateLimit kv.1 kv.2.UploadBytesPerSec kv.2.DownloadBytesPerSec,
              ok (.setUserRateLimit kv.1 kv.2.UploadBytesPerSec kv.2.DownloadBytesPerSec))) := by
  rw [rateLimitCalls_eq, coreCalls_append, coreCalls_map_core, coreCalls_map_core]

theorem rateLimitCalls_all_core (ok : CoreCall → Bool)
    (oldLimits newLimits : List RateLimitConfig) :
    (coreCalls (rateLimitCalls ok oldLimits newLimits)).length
      = (rateLimitCalls ok oldLimits newLimits).length := by
  rw [coreCalls_rateLimitCalls, rateLimitCalls_eq]
  simp

theorem rateLimitCalls_remove_count (ok : CoreCall → Bool)
    (oldLimits newLimits : List RateLimitConfig) (email : String) :
    (coreCalls (rateLimitCalls ok oldLimits newLimits)).countP
        (fun c => c.1.isRemoveLimitFor email)
      = if needsRemove oldLimits newLimits email then 1 else 0 := by
  rw [coreCalls_rateLimitCalls, List.countP_append, List.countP_map, List.countP_map]
  have hset : List.countP ((fun (c : CoreCall × Bool) => c.1.isRemoveLimitFor email) ∘
      fun (kv : String × RateLimitConfig) =>
        (CoreCall.setUserRateLimit kv.1 kv.2.UploadBytesPerSec kv.2.DownloadBytesPerSec,
          ok (.setUserRateLimit kv.1 kv.2.UploadBytesPerSec kv.2.DownloadBytesPerSec)))
      ((buildLimitMap newLimits).filter (fun kv => needsSet oldLimits newLimits kv.1)) = 0 := by
    rw [List.countP_eq_zero]
    intro a _
    simp [CoreCall.isRemoveLimitFor]
  rw [hset, Nat.add_zero, List.countP_filter]
  have hfun : (fun a => ((fun (c : CoreCall × Bool) => c.1.isRemoveLimitFor email) ∘
      fun email => (CoreCall.removeUserRateLimit email, ok (.removeUserRateLimit email))) a
        && !gmHas (buildLimitMap newLimits) a)
      = (fun k => k == email && !gmHas (buildLimitMap newLimits) k) := by
    funext a
    simp [CoreCall.isRemoveLimitFor]
  rw [hfun, countP_key_nodup _ (buildLimitMap_nodup oldLimits)]
  have hmem : email ∈ gmKeys (buildLimitMap oldLimits)
      ↔ (limitOf oldLimits email).isSome = true := by
    rw [mem_gmKeys_iff, buildLimitMap_get]
  have hiff : ∀ (x y : Option RateLimitConfig),
      (x.isSome = true ∧ (!y.isSome) = true) ↔ ((x.isSome && y.isNone) = true) := by
    intro x y
    cases x <;> cases y <;> simp
  simp only [hmem, gmHas_eq_isSome, buildLimitMap_get, needsRemove, hiff]

theorem rateLimitCalls_set_count (ok : CoreCall → Bool)
    (oldLimits newLimits : List RateLimitConfig) (email : String) :
    (coreCalls (rateLimitCalls ok oldLimits newLimits)).countP
        (fun c => c.1.isSetLimitFor email)
      = if needsSet oldLimits newLimits email then 1 else 0 := by
  rw [coreCalls_rateLimitCalls, List.countP_append, List.countP_map, List.countP_map]
  have hrem : List.countP ((fun (c : CoreCall × Bool) => c.1.isSetLimitFor email) ∘
      fun (e : String) => (CoreCall.removeUserRateLimit e, ok (.removeUserRateLimit e)))
      ((gmKeys (buildLimitMap oldLimits)).filter
        (fun e => !gmHas (buildLimitMap newLimits) e)) = 0 := by
    rw [List.countP_eq_zero]
    intro a _
    simp [CoreCall.isSetLimitFor]
  rw [hrem, Nat.zero_add, List.countP_filter]
  have hfun : (fun (a : String × RateLimitConfig) =>
      ((fun (c : CoreCall × Bool) => c.1.isSetLimitFor email) ∘
        fun (kv : String × RateLimitConfig) =>
          (CoreCall.setUserRateLimit kv.1 kv.2.UploadBytesPerSec kv.2.DownloadBytesPerSec,
            ok (.setUserRateLimit kv.1 kv.2.UploadBytesPerSec kv.2.DownloadBytesPerSec))) a
        && needsSet oldLimits newLimits a.1)
      = ((fun k => k == email && needsSet oldLimits newLimits k) ∘ Prod.fst) := by
    funext a
    simp [CoreCall.isSetLimitFor]
  rw [hfun, ← List.countP_map]
  have hkeys : List.map Prod.fst (buildLimitMap newLimits) = gmKeys (buildLimitMap newLimits) :=
    rfl
  rw [hkeys, countP_key_nodup _ (buildLimitMap_nodup newLimits)]
  have hmem : email ∈ gmKeys (buildLimitMap newLimits)
      ↔ (limitOf newLimits email).isSome = true := by
    rw [mem_gmKeys_iff, buildLimitMap_get]
  simp only [hmem]
  cases hs : needsSet oldLimits newLimits email
  · simp
  · have : (limitOf newLimits email).isSome = true := by
      unfold needsSet at hs
      cases hn : limitOf newLimits email with
      | none => rw [hn] at hs; simp at hs
      | some n => rfl
    simp [this]

theorem rateLimitCalls_shape (ok : CoreCall → Bool)
    (oldLimits newLimits : List RateLimitConfig) (c : CoreCall × Bool)
    (hc : c ∈ coreCalls (rateLimitCalls ok oldLimits newLimits)) :
    c.2 = ok c.1
    ∧ ((∃ email, c.1 = .removeUserRateLimit email)
      ∨ (∃ email n, limitOf newLimits email = some n
          ∧ c.1 = .setUserRateLimit email n.UploadBytesPerSec n.DownloadBytesPerSec)) := by
  rw [coreCalls_rateLimitCalls, List.mem_append, List.mem_map, List.mem_map] at hc
  rcases hc with ⟨e, _, rfl⟩ | ⟨kv, hkv, rfl⟩
  · exact ⟨rfl, Or.inl ⟨e, rfl⟩⟩
  · exact ⟨rfl, Or.inr ⟨kv.1, kv.2,
      buildLimitMap_entry newLimits kv (List.mem_filter.1 hkv).1, rfl⟩⟩

/-! ## Claims about rate limits -/

/-- C19: for every old and new rate-limit list, hotSyncRateLimits calls
SetUserRateLimit(email, up, down), with the limits of the new list, exactly once for each
email of the new list that is absent from the old list or whose upload or download limit
differs from the old one, calls RemoveUserRateLimit(email) exactly once for each email of
the old list absent from the new list, and makes no other call, in particular none for
an email whose limits are unchanged. -/
theorem hotSyncRateLimits_calls (m : Manager) (w : World)
    (oldLimits newLimits : List RateLimitConfig) :
    (m.hotSyncRateLimits w oldLimits newLimits).ok = true
    ∧ (∀ email,
        (coreCalls (m.hotSyncRateLimits w oldLimits newLimits).trace).countP
            (fun c => c.1.isSetLimitFor email)
          = if needsSet oldLimits newLimits email then 1 else 0)
    ∧ (∀ email,
        (coreCalls (m.hotSyncRateLimits w oldLimits newLimits).trace).countP
            (fun c => c.1.isRemoveLimitFor email)
          = if needsRemove oldLimits newLimits email then 1 else 0)
    ∧ (∀ c ∈ coreCalls (m.hotSyncRateLimits w oldLimits newLimits).trace,
        c.2 = w.coreCallOk c.1
        ∧ ((∃ email, c.1 = .removeUserRateLimit email)
          ∨ (∃ email n, limitOf newLimits email = some n
              ∧ c.1 = .setUserRateLimit email n.UploadBytesPerSec n.DownloadBytesPerSec)))
    ∧ (coreCalls (m.hotSyncRateLimits w oldLimits newLimits).trace).length
        = (m.hotSyncRateLimits w oldLimits newLimits).trace.length :=
  ⟨rfl, rateLimitCalls_set_count w.coreCallOk oldLimits newLimits,
    rateLimitCalls_remove_count w.coreCallOk oldLimits newLimits,
    rateLimitCalls_shape w.coreCallOk oldLimits newLimits,
    rateLimitCalls_all_core w.coreCallOk oldLimits newLimits⟩

/-! ## Claims about idempotence of the user loop -/

theorem hotSyncCalls_same (ok : CoreCall → Bool) (users : List UserConfig) :
    coreCalls (hotSyncCalls ok users users) = [] := by
  apply List.eq_nil_iff_forall_not_mem.2
  intro c hc
  rcases (hotSyncCalls_shape ok users users c hc).2 with ⟨tag, email, he⟩ | ⟨tag, u, he, _, _⟩
  · have hcount := hotSyncCalls_remove_count ok users users tag email
    have hpos : 0 < (coreCalls (hotSyncCalls ok users users)).countP
        (fun c => c.1.isRemoveFor tag email) := by
      rw [List.countP_pos_iff]
      exact ⟨c, hc, by simp [he, CoreCall.isRemoveFor]⟩
    rw [hcount] at hpos
    cases hm : isMemberB users tag email <;> simp [hm] at hpos
  · have hcount := hotSyncCalls_add_count ok users users tag u.Email
    have hpos : 0 < (coreCalls (hotSyncCalls ok users users)).countP
        (fun c => c.1.isAddFor tag u.Email) := by
      rw [List.countP_pos_iff]
      exact ⟨c, hc, by simp [he, CoreCall.isAddFor]⟩
    rw [hcount] at hpos
    cases hm : isMemberB users tag u.Email <;> simp [hm] at hpos

theorem syncUsers_ok (m : Manager) (w : World) :
    (m.syncUsers w).ok = true ↔ ∃ r, (GetUsers m.client w.usersPanel).result = .ok r := by
  unfold Manager.syncUsers
  simp only
  split <;> simp_all

theorem syncUsers_users (m : Manager) (w : World) :
    (m.syncUsers w).m.users
      = match (GetUsers m.client w.usersPanel).result with
        | .ok (some resp) => resp.Users
        | _ => m.users := by
  unfold Manager.syncUsers
  simp only
  split <;> simp_all

/-- The core calls of a user-loop tick whose poll returned no error: those of
`hotSyncUsers`, then those of `hotSyncRateLimits`. -/
theorem userTick_coreCalls (m : Manager) (w : World) (h : (m.syncUsers w).ok = true) :
    coreCalls (m.userTick w).trace
      = coreCalls (hotSyncCalls (m.syncUsers w).w.coreCallOk m.users (m.syncUsers w).m.users)
        ++ coreCalls (rateLimitCalls (m.syncUsers w).w.coreCallOk m.rateLimits
            (m.syncUsers w).m.rateLimits) := by
  unfold Manager.userTick
  simp only [h, Bool.not_true, Bool.false_eq_true, if_false]
  have h2 : ∀ (m' : Manager) (w' : World) (a b : List UserConfig),
      (m'.hotSyncUsers w' a b).ok = true := fun _ _ _ _ => rfl
  simp only [h2, Bool.not_true, Bool.false_eq_true, if_false, coreCalls_append,
    (syncUsers_effects m w).2, List.nil_append]
  rfl

/-- C13: when the users poll reports unchanged, or returns a user list identical to the
stored one, the user-loop tick issues zero AddUser and zero RemoveUser calls. -/
theorem userTick_unchanged_no_user_calls (m : Manager) (w : World)
    (h : (GetUsers m.client w.usersPanel).result = .ok none
      ∨ ∃ resp, (GetUsers m.client w.usersPanel).result = .ok (some resp)
          ∧ resp.Users = m.users) :
    (coreCalls (m.userTick w).trace).countP (fun c => c.1.isUserCall) = 0 := by
  have hok : (m.syncUsers w).ok = true := by
    rw [syncUsers_ok]
    rcases h with h | ⟨resp, h, _⟩
    · exact ⟨_, h⟩
    · exact ⟨_, h⟩
  have husers : (m.syncUsers w).m.users = m.users := by
    rw [syncUsers_users]
    rcases h with h | ⟨resp, h, hu⟩
    · rw [h]
    · rw [h]
      exact hu
  rw [userTick_coreCalls m w hok, husers, hotSyncCalls_same, List.nil_append,
    List.countP_eq_zero]
  intro c hc
  rcases (rateLimitCalls_shape _ _ _ c hc).2 with ⟨e, he⟩ | ⟨e, n, _, he⟩
  · simp [he, CoreCall.isUserCall]
  · simp [he, CoreCall.isUserCall]

/-- Witness for C13: the Panel answers 304 to the users poll, or 200 with the stored user
list (and a new rate limit, which is applied without any AddUser or RemoveUser). -/
theorem userTick_unchanged_no_user_calls_witness :
    (coreCalls (exManager.userTick (exWorld [] [.response 304 none])).trace).countP
      (fun c => c.1.isUserCall) = 0
    ∧ (coreCalls (exManager.userTick
        (exWorld [] [.response 200 (some exUsersSame)])).trace).countP
      (fun c => c.1.isUserCall) = 0 :=
  ⟨userTick_unchanged_no_user_calls exManager (exWorld [] [.response 304 none]) (Or.inl rfl),
    userTick_unchanged_no_user_calls exManager (exWorld [] [.response 200 (some exUsersSame)])
      (Or.inr ⟨exUsersSame, rfl, rfl⟩)⟩

/-! ## Claims about the core supervisor -/

/-- C15 (as stated, refuted): the core is running, SIGTERM is delivered and the new
process cannot be spawned: Restart returns an error and the supervisor is Stopped. -/
theorem restart_failure_in_start_stops_core :
    (ProcessManager.Restart { running := true, hasProcess := true } exWorldSpawnFails).1 = false
    ∧ (ProcessManager.Restart { running := true, hasProcess := true }
        exWorldSpawnFails).2.1.running = false :=
  ⟨rfl, rfl⟩

/-- C15 (amended): if Restart returns an error, then either Stop failed (SIGTERM could
not be sent) and the supervisor's state is unchanged and Running, or Stop succeeded and
Start failed, and the supervisor's state is Stopped: the previous core has been stopped
and no new one runs. -/
theorem restart_failure_state (p : ProcessManager) (w : World)
    (h : (p.Restart w).1 = false) :
    ((p.Stop w).1 = false ∧ (p.Restart w).2.1 = p ∧ p.running = true)
    ∨ ((p.Stop w).1 = true ∧ w.spawnOk = false ∧ (p.Restart w).2.1.running = false) := by
  obtain ⟨running, hasProcess⟩ := p
  cases running <;> cases hasProcess <;> cases hs : w.sigtermOk <;> cases hp : w.spawnOk <;>
    simp [ProcessManager.Restart, ProcessManager.Stop, ProcessManager.Start, hs, hp] at h ⊢

/-- Witness for C15 (amended): SIGTERM cannot be delivered to the running core. -/
theorem restart_failure_state_witness :
    (ProcessManager.Restart { running := true, hasProcess := true } exWorldSigtermFails).1
        = false
    ∧ (((ProcessManager.Stop { running := true, hasProcess := true } exWorldSigtermFails).1
          = false
        ∧ (ProcessManager.Restart { running := true, hasProcess := true }
            exWorldSigtermFails).2.1 = { running := true, hasProcess := true }
        ∧ ({ running := true, hasProcess := true } : ProcessManager).running = true)
      ∨ ((ProcessManager.Stop { running := true, hasProcess := true } exWorldSigtermFails).1
          = true
        ∧ exWorldSigtermFails.spawnOk = false
        ∧ (ProcessManager.Restart { running := true, hasProcess := true }
            exWorldSigtermFails).2.1.running = false)) :=
  ⟨rfl, restart_failure_state { running := true, hasProcess := true } exWorldSigtermFails rfl⟩

/-! ## Claims about the hot path of user management -/

/-- C16: a user record with neither UUID nor password is skipped by the hot path without
affecting others: buildProtocolUser returns an error for it, AddUser then returns an
error after the dial without sending an AlterInbound request, and hotSyncUsers, whose
AddUser calls for that record all fail, still issues AddUser exactly once for every added
(tag, email) pair. -/
theorem invalid_user_skipped_by_hot_path (env : CoreEnv) (u : UserConfig)
    (hu : u.UUID = "") (hp : u.Password = "") :
    buildProtocolUser env.parseUUID u = .error .noCredentials
    ∧ (∀ tag, (GRPCClient.AddUser env tag u).1 = false
        ∧ ∀ e ∈ (GRPCClient.AddUser env tag u).2, e = RpcEvent.dial)
    ∧ (∀ (m : Manager) (w : World) (old new : List UserConfig),
        w.coreCallOk = coreCallOutcome env →
        (∀ tag b, (CoreCall.addUser tag u, b) ∈ coreCalls (m.hotSyncUsers w old new).trace →
          b = false)
        ∧ (∀ tag email,
            (coreCalls (m.hotSyncUsers w old new).trace).countP
                (fun c => c.1.isAddFor tag email)
              = if isMemberB new tag email && !isMemberB old tag email then 1 else 0)) := by
  have hbuild : buildProtocolUser env.parseUUID u = .error .noCredentials := by
    simp [buildProtocolUser, hu, hp]
  have hadd : ∀ tag, (GRPCClient.AddUser env tag u).1 = false
      ∧ ∀ e ∈ (GRPCClient.AddUser env tag u).2, e = RpcEvent.dial := by
    intro tag
    unfold GRPCClient.AddUser
    rw [hbuild]
    cases env.dialOk <;> simp
  refine ⟨hbuild, hadd, ?_⟩
  intro m w old new hw
  refine ⟨?_, hotSyncCalls_add_count w.coreCallOk old new⟩
  intro tag b hmem
  have hb := (hotSyncCalls_shape w.coreCallOk old new _ hmem).1
  simp only at hb
  rw [hb, hw]
  exact (hadd tag).1

/-- Witness for C16: the record `bad@x` against a reachable core. -/
theorem invalid_user_skipped_by_hot_path_witness :
    buildProtocolUser exCoreEnv.parseUUID exUserBad = .error .noCredentials
    ∧ (∀ tag, (GRPCClient.AddUser exCoreEnv tag exUserBad).1 = false
        ∧ ∀ e ∈ (GRPCClient.AddUser exCoreEnv tag exUserBad).2, e = RpcEvent.dial)
    ∧ (∀ (m : Manager) (w : World) (old new : List UserConfig),
        w.coreCallOk = coreCallOutcome exCoreEnv →
        (∀ tag b,
          (CoreCall.addUser tag exUserBad, b) ∈ coreCalls (m.hotSyncUsers w old new).trace →
          b = false)
        ∧ (∀ tag email,
            (coreCalls (m.hotSyncUsers w old new).trace).countP
                (fun c => c.1.isAddFor tag email)
              = if isMemberB new tag email && !isMemberB old tag email then 1 else 0)) :=
  invalid_user_skipped_by_hot_path exCoreEnv exUserBad rfl rfl

/-- C18 (as stated, refuted): for the user `a@x` with level `-1` the resulting user does
not carry the source level: the conversion to `uint32` yields 4294967295. -/
theorem buildProtocolUser_level_wraps :
    exUserNegLevel.Level = -1
    ∧ buildProtocolUser exCoreEnv.parseUUID exUserNegLevel
        = .ok { Level := 4294967295, Email := "a@x",
                Account := .vmess "6ba7b810-9dad-11d1-80b4-00c04fd430c8" } :=
  ⟨rfl, rfl⟩

/-- C18 (amended): for every user whose UUID (when present) parses, buildProtocolUser
encodes the account variant by the credential tuple: vless when UUID and flow are
non-empty, vmess when UUID is non-empty and flow empty, shadowsocks when UUID is empty and
password and method are non-empty, trojan when UUID is empty, password non-empty and
method empty; the resulting user carries the source email, and its level is the source
level converted to `uint32`, which is the source level when that lies in 0 .. 2^32 - 1. -/
theorem buildProtocolUser_mapping (parseUUID : String → Option String) (u : UserConfig) :
    (∀ id, u.UUID ≠ "" → parseUUID u.UUID = some id → u.Flow ≠ "" →
        buildProtocolUser parseUUID u
          = .ok { Level := toUint32 u.Level, Email := u.Email, Account := .vless id u.Flow })
    ∧ (∀ id, u.UUID ≠ "" → parseUUID u.UUID = some id → u.Flow = "" →
        buildProtocolUser parseUUID u
          = .ok { Level := toUint32 u.Level, Email := u.Email, Account := .vmess id })
    ∧ (u.UUID = "" → u.Password ≠ "" → u.Method ≠ "" →
        ∃ cipherType, buildProtocolUser parseUUID u
          = .ok { Level := toUint32 u.Level, Email := u.Email,
                  Account := .shadowsocks u.Password cipherType })
    ∧ (u.UUID = "" → u.Password ≠ "" → u.Method = "" →
        buildProtocolUser parseUUID u
          = .ok { Level := toUint32 u.Level, Email := u.Email, Account := .trojan u.Password })
    ∧ (0 ≤ u.Level → u.Level < 4294967296 → (toUint32 u.Level : Int) = u.Level) := by
  refine ⟨?_, ?_, ?_, ?_, ?_⟩
  · intro id h1 h2 h3
    simp [buildProtocolUser, h1, h2, h3]
  · intro id h1 h2 h3
    simp [buildProtocolUser, h1, h2, h3]
  · intro h1 h2 h3
    refine ⟨if u.Method = "aes-128-gcm" then CipherType.AES_128_GCM
      else if u.Method = "chacha20-poly1305" ∨ u.Method = "chacha20-ietf-poly1305" then
        CipherType.CHACHA20_POLY1305
      else if u.Method = "none" then CipherType.NONE
      else CipherType.AES_256_GCM, ?_⟩
    simp [buildProtocolUser, h1, h2, h3]
  · intro h1 h2 h3
    simp [buildProtocolUser, h1, h2, h3]
  · intro h0 h1
    unfold toUint32
    rw [Int.emod_eq_of_lt h0 h1]
    exact Int.toNat_of_nonneg h0

/-- Witness for C18 (amended): `v@x` with UUID and flow is encoded as a vless account. -/
theorem buildProtocolUser_mapping_witness :
    exUserVless.UUID ≠ "" ∧ exUserVless.Flow ≠ ""
    ∧ buildProtocolUser exCoreEnv.parseUUID exUserVless
        = .ok { Level := toUint32 exUserVless.Level, Email := exUserVless.Email,
                Account := .vless exUserVless.UUID exUserVless.Flow } :=
  ⟨by decide, by decide,
    (buildProtocolUser_mapping exCoreEnv.parseUUID exUserVless).1 exUserVless.UUID
      (by decide) rfl (by decide)⟩

/-! ## Properties of conditional polling -/

theorem sentHeaders_append (a b : List Event) :
    sentHeaders (a ++ b) = sentHeaders a ++ sentHeaders b := by
  simp [sentHeaders, List.filterMap_append]

theorem doRequestLoop_sent {α : Type} (c : Client) (method path : String)
    (body : Option JVal) (headers : List (String × String)) (fuel i : Nat) (drained : Bool)
    (panel : List (RoundTrip α)) (tr : List Event) (h : Option String)
    (hh : h ∈ sentHeaders (doRequestLoop c method path body headers fuel i drained panel
      tr).trace) :
    h ∈ sentHeaders tr ∨ h = gmGet headers "If-None-Match" := by
  induction fuel generalizing i drained panel tr with
  | zero => exact Or.inl (by simpa [doRequestLoop] using hh)
  | succ n ih =>
    have hsleep : sentHeaders (if i > 0 then tr ++ [Event.sleep i] else tr) = sentHeaders tr := by
      split
      · simp [sentHeaders]
      · rfl
    have hdo : ∀ (sent : SentBody),
        sentHeaders ((if i > 0 then tr ++ [Event.sleep i] else tr) ++
          [Event.httpDo (HttpRequest.mk method (c.baseURL ++ path)
            ([("Content-Type", "application/json"), ("X-Node-Token", c.nodeToken)] ++ headers)
            sent)])
          = sentHeaders tr ++ [gmGet headers "If-None-Match"] := by
      intro sent
      rw [sentHeaders_append, hsleep]
      simp [sentHeaders, ifNoneMatch, gmGet_cons]
    have hstep : ∀ (sent : SentBody) (x : Option String),
        x ∈ sentHeaders ((if i > 0 then tr ++ [Event.sleep i] else tr) ++
          [Event.httpDo (HttpRequest.mk method (c.baseURL ++ path)
            ([("Content-Type", "application/json"), ("X-Node-Token", c.nodeToken)] ++ headers)
            sent)]) →
        x ∈ sentHeaders tr ∨ x = gmGet headers "If-None-Match" := by
      intro sent x hx
      rw [hdo, List.mem_append, List.mem_singleton] at hx
      exact hx
    unfold doRequestLoop at hh
    simp only at hh
    cases hurl : c.urlOk
    · simp only [hurl, Bool.not_false, if_true, hsleep] at hh
      exact Or.inl hh
    · simp only [hurl, Bool.not_true, Bool.false_eq_true, if_false] at hh
      cases panel with
      | nil =>
        rcases ih _ _ _ _ hh with h1 | h1
        · exact hstep _ h h1
        · exact Or.inr h1
      | cons rt rest =>
        cases rt with
        | transportError bodyRead =>
          rcases ih _ _ _ _ hh with h1 | h1
          · exact hstep _ h h1
          · exact Or.inr h1
        | response status payload =>
          simp only at hh
          split at hh
          · rcases ih _ _ _ _ hh with h1 | h1
            · exact hstep _ h h1
            · exact Or.inr h1
          · exact hstep _ h hh

theorem GetConfig_sent (c : Client) (panel : List (RoundTrip ConfigWrapper))
    (h : Option String) (hh : h ∈ sentHeaders (GetConfig c panel).trace) :
    h = etagHeader c.configETag := by
  rw [GetConfig_trace] at hh
  unfold doRequest at hh
  rcases doRequestLoop_sent _ _ _ _ _ _ _ _ _ _ h hh with h1 | h1
  · simp [sentHeaders] at h1
  · rw [h1]
    unfold etagHeader
    by_cases he : c.configETag = ""
    · simp [he, gmGet_nil]
    · simp [he, gmGet_cons]

theorem GetUsers_sent (c : Client) (panel : List (RoundTrip UserListResponse))
    (h : Option String) (hh : h ∈ sentHeaders (GetUsers c panel).trace) :
    h = etagHeader c.usersETag := by
  rw [GetUsers_trace] at hh
  unfold doRequest at hh
  rcases doRequestLoop_sent _ _ _ _ _ _ _ _ _ _ h hh with h1 | h1
  · simp [sentHeaders] at h1
  · rw [h1]
    unfold etagHeader
    by_cases he : c.usersETag = ""
    · simp [he, gmGet_nil]
    · simp [he, gmGet_cons]

/-- The client after `GetConfig`: only the config etag may change, and only on a decoded
200 response. -/
theorem GetConfig_client (c : Client) (panel : List (RoundTrip ConfigWrapper)) :
    (GetConfig c panel).client
      = match (GetConfig c panel).result with
        | .ok (some cfg) => { c with configETag := cfg.ETag }
        | _ => c := by
  unfold GetConfig
  simp only
  split
  · rfl
  · split
    · rfl
    · split
      · rfl
      · split <;> rfl

/-- The client after `GetUsers`: only the users etag may change, and only on a decoded
200 response. -/
theorem GetUsers_client (c : Client) (panel : List (RoundTrip UserListResponse)) :
    (GetUsers c panel).client
      = match (GetUsers c panel).result with
        | .ok (some resp) => { c with usersETag := resp.ETag }
        | _ => c := by
  unfold GetUsers
  simp only
  split
  · rfl
  · split
    · rfl
    · split
      · rfl
      · split <;> rfl

theorem doRequestLoop_result {α : Type} (c : Client) (hurl : c.urlOk = true)
    (method path : String) (body : Option JVal) (headers : List (String × String))
    (fuel i : Nat) (drained : Bool) (panel : List (RoundTrip α)) (tr : List Event) :
    (doRequestLoop c method path body headers fuel i drained panel tr).result
      = match (panel.take fuel).find? (fun rt => !rt.isFailure) with
        | some (.response status payload) => .ok (status, payload)
        | _ => .error (.requestFailed c.retryCount) := by
  induction fuel generalizing i drained panel tr with
  | zero =>
    unfold doRequestLoop
    simp
  | succ n ih =>
    unfold doRequestLoop
    simp only [hurl, Bool.not_true, Bool.false_eq_true, if_false]
    cases panel with
    | nil =>
      simp only
      rw [ih]
      simp
    | cons rt rest =>
      cases rt with
      | transportError b =>
        simp only
        rw [ih]
        simp [RoundTrip.isFailure]
      | response status payload =>
        simp only
        by_cases hs : status ≥ 500
        · rw [if_pos hs, ih]
          simp [RoundTrip.isFailure, hs]
        · rw [if_neg hs]
          simp [RoundTrip.isFailure, hs]

theorem doRequestLoop_bad_url {α : Type} (c : Client) (hurl : c.urlOk = false)
    (method path : String) (body : Option JVal) (headers : List (String × String))
    (fuel i : Nat) (drained : Bool) (panel : List (RoundTrip α)) (tr : List Event) :
    (∃ e, (doRequestLoop c method path body headers fuel i drained panel tr).result = .error e)
    ∧ sentHeaders (doRequestLoop c method path body headers fuel i drained panel tr).trace
        = sentHeaders tr := by
  cases fuel with
  | zero =>
    unfold doRequestLoop
    exact ⟨⟨_, rfl⟩, rfl⟩
  | succ n =>
    unfold doRequestLoop
    simp only [hurl, Bool.not_false, if_true]
    refine ⟨⟨_, rfl⟩, ?_⟩
    split
    · simp [sentHeaders]
    · rfl

theorem pollStep_sent (c : Client) (p : Poll) (h : Option String)
    (hh : h ∈ (pollStep c p).2.sent) :
    h = etagHeader (c.etagFor (pollStep c p).2.isConfig) := by
  cases p with
  | config panel => exact GetConfig_sent c panel h hh
  | users panel => exact GetUsers_sent c panel h hh

theorem attemptsAllowed_of_bad_url (c : Client) (hurl : c.urlOk = false) :
    c.attemptsAllowed = 0 := by
  unfold Client.attemptsAllowed
  rw [hurl]
  rfl

theorem answeredEtag_zero {α : Type} (etagOf : α → String) (panel : List (RoundTrip α)) :
    answeredEtag etagOf 0 panel = none := by
  unfold answeredEtag
  simp

/-- The client after `GetConfig`, read off the Panel's answers: a decoded 200 response
stores its etag as the config etag, every other outcome leaves the client as it was. -/
theorem GetConfig_client_answered (c : Client) (panel : List (RoundTrip ConfigWrapper)) :
    (GetConfig c panel).client
      = match answeredEtag (fun w => w.ETag) c.attemptsAllowed panel with
        | some e => { c with configETag := e }
        | none => c := by
  by_cases hurl : c.urlOk = true
  swap
  · have hurl : c.urlOk = false := by simpa using hurl
    rw [attemptsAllowed_of_bad_url c hurl, answeredEtag_zero]
    obtain ⟨⟨e, he⟩, _⟩ := doRequestLoop_bad_url c hurl "GET" (c.apiBasePath ++ "/agent/config")
      none (if c.configETag ≠ "" then [("If-None-Match", c.configETag)] else [])
      (c.retryCount + 1).toNat 0 false panel []
    unfold GetConfig doRequest
    simp only [he]
  · have hres := doRequestLoop_result c hurl "GET" (c.apiBasePath ++ "/agent/config")
      none (if c.configETag ≠ "" then [("If-None-Match", c.configETag)] else [])
      (c.retryCount + 1).toNat 0 false panel []
    have hatt : c.attemptsAllowed = (c.retryCount + 1).toNat := by
      unfold Client.attemptsAllowed
      rw [hurl]
      rfl
    unfold GetConfig doRequest answeredEtag
    rw [hatt]
    simp only [hres]
    cases List.find? (fun rt => !rt.isFailure) (List.take (c.retryCount + 1).toNat panel) with
    | none => rfl
    | some rt =>
      cases rt with
      | transportError b => rfl
      | response status payload =>
        simp only
        by_cases h304 : status = 304
        · subst h304
          cases payload <;> simp
        · rw [if_neg h304]
          by_cases h200 : status = 200
          · subst h200
            cases payload <;> simp
          · cases payload <;> simp [h200]

/-- The client after `GetUsers`, read off the Panel's answers. -/
theorem GetUsers_client_answered (c : Client) (panel : List (RoundTrip UserListResponse)) :
    (GetUsers c panel).client
      = match answeredEtag (fun r => r.ETag) c.attemptsAllowed panel with
        | some e => { c with usersETag := e }
        | none => c := by
  by_cases hurl : c.urlOk = true
  swap
  · have hurl : c.urlOk = false := by simpa using hurl
    rw [attemptsAllowed_of_bad_url c hurl, answeredEtag_zero]
    obtain ⟨⟨e, he⟩, _⟩ := doRequestLoop_bad_url c hurl "GET" (c.apiBasePath ++ "/agent/users")
      none (if c.usersETag ≠ "" then [("If-None-Match", c.usersETag)] else [])
      (c.retryCount + 1).toNat 0 false panel []
    unfold GetUsers doRequest
    simp only [he]
  · have hres := doRequestLoop_result c hurl "GET" (c.apiBasePath ++ "/agent/users")
      none (if c.usersETag ≠ "" then [("If-None-Match", c.usersETag)] else [])
      (c.retryCount + 1).toNat 0 false panel []
    have hatt : c.attemptsAllowed = (c.retryCount + 1).toNat := by
      unfold Client.attemptsAllowed
      rw [hurl]
      rfl
    unfold GetUsers doRequest answeredEtag
    rw [hatt]
    simp only [hres]
    cases List.find? (fun rt => !rt.isFailure) (List.take (c.retryCount + 1).toNat panel) with
    | none => rfl
    | some rt =>
      cases rt with
      | transportError b => rfl
      | response status payload =>
        simp only
        by_cases h304 : status = 304
        · subst h304
          cases payload <;> simp
        · rw [if_neg h304]
          by_cases h200 : status = 200
          · subst h200
            cases payload <;> simp
          · cases payload <;> simp [h200]

theorem pollStep_isConfig (c : Client) (p : Poll) : (pollStep c p).2.isConfig = p.isConfig := by
  cases p <;> rfl

/-- The client after a poll, read off the Panel's answers: the etag of the polled resource
becomes the one the Panel delivered, if any; the other etag, the attempts allowed and
everything else stay. -/
theorem pollStep_answered (c : Client) (p : Poll) (flag : Bool) :
    (pollStep c p).1.etagFor flag
        = (if p.isConfig == flag then (p.answeredEtag c.attemptsAllowed).getD (c.etagFor flag)
           else c.etagFor flag)
      ∧ (pollStep c p).1.attemptsAllowed = c.attemptsAllowed := by
  cases p with
  | config panel =>
    simp only [pollStep, Poll.isConfig, Poll.answeredEtag]
    rw [GetConfig_client_answered]
    cases answeredEtag (fun w => w.ETag) c.attemptsAllowed panel with
    | none => cases flag <;> exact ⟨rfl, rfl⟩
    | some e => cases flag <;> exact ⟨rfl, rfl⟩
  | users panel =>
    simp only [pollStep, Poll.isConfig, Poll.answeredEtag]
    rw [GetUsers_client_answered]
    cases answeredEtag (fun r => r.ETag) c.attemptsAllowed panel with
    | none => cases flag <;> exact ⟨rfl, rfl⟩
    | some e => cases flag <;> exact ⟨rfl, rfl⟩

theorem lastAnsweredEtag_cons (flag : Bool) (init : String) (n : Nat) (p : Poll)
    (rest : List Poll) :
    lastAnsweredEtag flag init n (p :: rest)
      = lastAnsweredEtag flag
          (if p.isConfig == flag then (p.answeredEtag n).getD init else init) n rest := by
  unfold lastAnsweredEtag
  rw [List.filter_cons]
  by_cases h : (p.isConfig == flag) = true
  · rw [if_pos h, if_pos h, List.filterMap_cons]
    cases he : p.answeredEtag n with
    | none => simp
    | some e =>
      simp only [Option.getD_some]
      rw [List.getLast?_cons]
      cases (List.filterMap (fun p => p.answeredEtag n)
        (List.filter (fun p => p.isConfig == flag) rest)).getLast? <;> simp
  · rw [if_neg h, if_neg h]

theorem runPolls_length (c : Client) (polls : List Poll) :
    (runPolls c polls).length = polls.length := by
  induction polls generalizing c with
  | nil => rfl
  | cons p ps ih => simp [runPolls, ih]

theorem runPolls_answered (c : Client) (polls : List Poll) (k : Nat) (r : PollRecord)
    (hk : (runPolls c polls)[k]? = some r) :
    (∃ p, polls[k]? = some p ∧ r.isConfig = p.isConfig)
    ∧ ∀ h ∈ r.sent,
        h = etagHeader
          (lastAnsweredEtag r.isConfig (c.etagFor r.isConfig) c.attemptsAllowed
            (polls.take k)) := by
  induction polls generalizing c k with
  | nil => simp [runPolls] at hk
  | cons p ps ih =>
    cases k with
    | zero =>
      simp only [runPolls, List.getElem?_cons_zero, Option.some.injEq] at hk
      subst hk
      refine ⟨⟨p, by simp, pollStep_isConfig c p⟩, ?_⟩
      intro h hh
      simp only [List.take_zero, lastAnsweredEtag, List.filter_nil, List.filterMap_nil,
        List.getLast?_nil, Option.getD_none]
      exact pollStep_sent c p h hh
    | succ k =>
      simp only [runPolls, List.getElem?_cons_succ] at hk
      obtain ⟨hp, hs⟩ := ih (pollStep c p).1 k hk
      refine ⟨by simpa using hp, ?_⟩
      intro h hh
      rw [hs h hh]
      simp only [List.take_succ_cons]
      rw [lastAnsweredEtag_cons, (pollStep_answered c p r.isConfig).1,
        (pollStep_answered c p r.isConfig).2]

theorem doRequestLoop_sent_mono {α : Type} (c : Client) (method path : String)
    (body : Option JVal) (headers : List (String × String)) (fuel i : Nat) (drained : Bool)
    (panel : List (RoundTrip α)) (tr : List Event) :
    (sentHeaders tr).length
      ≤ (sentHeaders (doRequestLoop c method path body headers fuel i drained panel
          tr).trace).length := by
  induction fuel generalizing i drained panel tr with
  | zero =>
    unfold doRequestLoop
    exact le_refl _
  | succ n ih =>
    have hsleep : sentHeaders (if i > 0 then tr ++ [Event.sleep i] else tr) = sentHeaders tr := by
      split
      · simp [sentHeaders]
      · rfl
    unfold doRequestLoop
    simp only
    split
    · rw [hsleep]
    · have hstep : ∀ (req : HttpRequest),
          (sentHeaders tr).length
            ≤ (sentHeaders ((if i > 0 then tr ++ [Event.sleep i] else tr)
                ++ [Event.httpDo req])).length := by
        intro req
        rw [sentHeaders_append, hsleep]
        simp
      split
      · exact le_trans (hstep _) (ih _ _ _ _)
      · exact le_trans (hstep _) (ih _ _ _ _)
      · split
        · exact le_trans (hstep _) (ih _ _ _ _)
        · exact hstep _

theorem doRequestLoop_sends {α : Type} (c : Client) (hurl : c.urlOk = true)
    (method path : String)
    (body : Option JVal) (headers : List (String × String)) (fuel i : Nat) (drained : Bool)
    (panel : List (RoundTrip α)) (tr : List Event) :
    sentHeaders (doRequestLoop c method path body headers (fuel + 1) i drained panel
      tr).trace ≠ [] := by
  have hsleep : sentHeaders (if i > 0 then tr ++ [Event.sleep i] else tr) = sentHeaders tr := by
    split
    · simp [sentHeaders]
    · rfl
  have hstep : ∀ (req : HttpRequest),
      1 ≤ (sentHeaders ((if i > 0 then tr ++ [Event.sleep i] else tr)
            ++ [Event.httpDo req])).length := by
    intro req
    rw [sentHeaders_append, hsleep]
    simp [sentHeaders]
  have hpos : 1 ≤ (sentHeaders (doRequestLoop c method path body headers (fuel + 1) i drained
      panel tr).trace).length := by
    unfold doRequestLoop
    simp only [hurl, Bool.not_true, Bool.false_eq_true, if_false]
    split
    · exact le_trans (hstep _) (doRequestLoop_sent_mono _ _ _ _ _ _ _ _ _ _)
    · exact le_trans (hstep _) (doRequestLoop_sent_mono _ _ _ _ _ _ _ _ _ _)
    · split
      · exact le_trans (hstep _) (doRequestLoop_sent_mono _ _ _ _ _ _ _ _ _ _)
      · exact hstep _
  intro h
  rw [h] at hpos
  simp at hpos

theorem pollStep_sends (c : Client) (hurl : c.urlOk = true) (hretry : 0 ≤ c.retryCount)
    (p : Poll) : (pollStep c p).2.sent ≠ [] := by
  obtain ⟨n, hn⟩ : ∃ n : Nat, (c.retryCount + 1).toNat = n + 1 :=
    ⟨c.retryCount.toNat, by omega⟩
  cases p with
  | config panel =>
    simp only [pollStep]
    rw [GetConfig_trace]
    unfold doRequest
    rw [hn]
    exact doRequestLoop_sends c hurl _ _ _ _ _ _ _ _ _
  | users panel =>
    simp only [pollStep]
    rw [GetUsers_trace]
    unfold doRequest
    rw [hn]
    exact doRequestLoop_sends c hurl _ _ _ _ _ _ _ _ _

theorem pollStep_settings (c : Client) (p : Poll) :
    (pollStep c p).1.urlOk = c.urlOk ∧ (pollStep c p).1.retryCount = c.retryCount := by
  cases p with
  | config panel =>
    simp only [pollStep]
    rw [GetConfig_client]
    split <;> exact ⟨rfl, rfl⟩
  | users panel =>
    simp only [pollStep]
    rw [GetUsers_client]
    split <;> exact ⟨rfl, rfl⟩

theorem runPolls_sends (c : Client) (hurl : c.urlOk = true) (hretry : 0 ≤ c.retryCount)
    (polls : List Poll) (r : PollRecord) (hr : r ∈ runPolls c polls) : r.sent ≠ [] := by
  induction polls generalizing c with
  | nil => simp [runPolls] at hr
  | cons p ps ih =>
    simp only [runPolls, List.mem_cons] at hr
    rcases hr with h | h
    · rw [h]
      exact pollStep_sends c hurl hretry p
    · exact ih _ ((pollStep_settings c p).1.trans hurl)
        (by rw [(pollStep_settings c p).2]; exact hretry) h

/-! ## Claims about conditional polling -/

/-- C14: for every sequence of GetConfig and GetUsers calls made with one client, every
request of a call carries as If-None-Match the etag of the most recent 200 response that
the Panel gave to an earlier call for that same resource, and no If-None-Match when there
was none (an empty etag string is the client's "no etag"); a call sends at least one
request when the request can be created and the retry count is not negative. After a
call the client holds the etag of the call's 200 response and is unchanged when the Panel
gave none (304, error status, failed request, undecodable body); GetConfig never changes
the users etag nor GetUsers the config etag. The 200 responses are read off the Panel's
answers, not off what the calls return. -/
theorem conditional_poll_etags (c : Client) :
    (∀ (polls : List Poll) (k : Nat) (r : PollRecord), (runPolls c polls)[k]? = some r →
        (∃ p, polls[k]? = some p ∧ r.isConfig = p.isConfig)
        ∧ (∀ h ∈ r.sent,
            h = etagHeader
              (lastAnsweredEtag r.isConfig (c.etagFor r.isConfig) c.attemptsAllowed
                (polls.take k)))
        ∧ (c.urlOk = true → 0 ≤ c.retryCount → r.sent ≠ []))
    ∧ (∀ panel,
        (GetConfig c panel).client
          = match answeredEtag (fun w => w.ETag) c.attemptsAllowed panel with
            | some e => { c with configETag := e }
            | none => c)
    ∧ (∀ panel,
        (GetUsers c panel).client
          = match answeredEtag (fun r => r.ETag) c.attemptsAllowed panel with
            | some e => { c with usersETag := e }
            | none => c)
    ∧ (∀ panel, (GetConfig c panel).client.usersETag = c.usersETag)
    ∧ (∀ panel, (GetUsers c panel).client.configETag = c.configETag) := by
  refine ⟨?_, GetConfig_client_answered c, GetUsers_client_answered c, ?_, ?_⟩
  · intro polls k r hk
    obtain ⟨hp, hs⟩ := runPolls_answered c polls k r hk
    exact ⟨hp, hs, fun hurl hretry =>
      runPolls_sends c hurl hretry polls r (List.getElem?_mem hk)⟩
  · intro panel
    rw [GetConfig_client]
    split <;> rfl
  · intro panel
    rw [GetUsers_client]
    split <;> rfl

/-- Witness for C14: a new client polls config (200, etag `e2`), users (200, etag `u2`),
config (503 four times, the call fails), users (304), config (304) and users (a transport
error, then 304): the fifth call sends `e2` and the sixth sends `u2` twice. -/
theorem conditional_poll_etags_witness :
    (runPolls exNewClient exPolls)[4]? = some { isConfig := true, sent := [some "e2"] }
    ∧ (runPolls exNewClient exPolls)[5]?
        = some { isConfig := false, sent := [some "u2", some "u2"] }
    ∧ ((∃ p, exPolls[4]? = some p ∧ true = p.isConfig)
      ∧ (∀ h ∈ [some "e2"],
          h = etagHeader
            (lastAnsweredEtag true (exNewClient.etagFor true) exNewClient.attemptsAllowed
              (exPolls.take 4)))
      ∧ (exNewClient.urlOk = true → 0 ≤ exNewClient.retryCount → [some "e2"] ≠ []))
    ∧ ((∃ p, exPolls[5]? = some p ∧ false = p.isConfig)
      ∧ (∀ h ∈ [some "u2", some "u2"],
          h = etagHeader
            (lastAnsweredEtag false (exNewClient.etagFor false) exNewClient.attemptsAllowed
              (exPolls.take 5)))
      ∧ (exNewClient.urlOk = true → 0 ≤ exNewClient.retryCount
          → [some "u2", some "u2"] ≠ []))
    ∧ lastAnsweredEtag true (exNewClient.etagFor true) exNewClient.attemptsAllowed
        (exPolls.take 4) = "e2"
    ∧ lastAnsweredEtag false (exNewClient.etagFor false) exNewClient.attemptsAllowed
        (exPolls.take 5) = "u2"
    ∧ (runPolls exNewClient exPolls).map (fun r => r.sent)
        = [[none], [none], [some "e2", some "e2", some "e2", some "e2"], [some "u2"],
           [some "e2"], [some "u2", some "u2"]] :=
  ⟨by decide, by decide,
    (conditional_poll_etags exNewClient).1 exPolls 4
      { isConfig := true, sent := [some "e2"] } (by decide),
    (conditional_poll_etags exNewClient).1 exPolls 5
      { isConfig := false, sent := [some "u2", some "u2"] } (by decide),
    by decide, by decide, by decide⟩

/-! ## Properties of `strings.Split` -/

theorem splitAux_skip (sep pre rest cur : List Char) :
    splitAux sep (pre ++ rest) pre.length cur = splitAux sep rest 0 cur := by
  induction pre with
  | nil => rfl
  | cons p ps ih =>
    rw [List.cons_append, List.length_cons, splitAux]
    exact ih

theorem splitAux_ne_nil (sep s cur : List Char) : splitAux sep s 0 cur ≠ [] := by
  induction s generalizing cur with
  | nil => simp [splitAux]
  | cons c cs ih =>
    rw [splitAux]
    split
    · simp
    · exact ih _

theorem joinSep_cons (sep x : List Char) (l : List (List Char)) (h : l ≠ []) :
    joinSep sep (x :: l) = x ++ sep ++ joinSep sep l := by
  cases l with
  | nil => exact absurd rfl h
  | cons y rest => rfl

theorem joinSep_splitAux (sep : List Char) (hsep : sep ≠ []) (n : Nat) (s cur : List Char)
    (hn : s.length ≤ n) :
    joinSep sep (splitAux sep s 0 cur) = cur.reverse ++ s := by
  induction n generalizing s cur with
  | zero =>
    have : s = [] := List.length_eq_zero.1 (Nat.le_zero.1 hn)
    subst this
    simp [splitAux, joinSep]
  | succ n ih =>
    cases s with
    | nil => simp [splitAux, joinSep]
    | cons c cs =>
      have hcs : cs.length ≤ n := by simpa using hn
      rw [splitAux]
      split
      · rename_i hpre
        rw [List.isPrefixOf_iff_prefix] at hpre
        obtain ⟨rest, hrest⟩ := hpre
        cases sep with
        | nil => exact absurd rfl hsep
        | cons p ps =>
          rw [List.cons_append] at hrest
          injection hrest with hp hps
          subst hp
          have hlen : (p :: ps).length - 1 = ps.length := by simp
          rw [hlen, ← hps, splitAux_skip, joinSep_cons _ _ _ (splitAux_ne_nil _ _ _)]
          have hrl : rest.length ≤ n := by
            have : cs.length = ps.length + rest.length := by rw [← hps, List.length_append]
            omega
          rw [ih rest [] hrl]
          simp
      · rw [ih cs (c :: cur) hcs]
        simp

/-- `strings.Split` loses nothing: two names with the same `>>>`-separated fields are
equal. -/
theorem stringsSplit_injective (s1 s2 : String)
    (h : stringsSplit s1 ">>>" = stringsSplit s2 ">>>") : s1 = s2 := by
  unfold stringsSplit at h
  have hinj : Function.Injective String.mk := by
    intro a b hab
    injection hab
  have h2 := List.map_injective_iff.2 hinj h
  have hsep : (">>>" : String).toList ≠ [] := by decide
  have j1 := joinSep_splitAux ">>>".toList hsep s1.toList.length s1.toList [] (le_refl _)
  have j2 := joinSep_splitAux ">>>".toList hsep s2.toList.length s2.toList [] (le_refl _)
  rw [h2, j2] at j1
  simp only [List.reverse_nil, List.nil_append] at j1
  exact String.ext j1.symm

/-! ## Properties of `QueryTrafficStats` -/

theorem trafficStep_get (tm : List (String × TrafficReport)) (stat : String × Int)
    (e : String) :
    gmGet (trafficStep tm stat) e = repStep e (gmGet tm e) stat := by
  have hne : ¬ ("downlink" : String) = "uplink" := by decide
  unfold trafficStep repStep
  split
  · rename_i p0 email p2 direction _
    by_cases hg : p0 ≠ "user" ∨ p2 ≠ "traffic"
    · rw [if_pos hg, if_pos hg]
    · rw [if_neg hg, if_neg hg]
      have hbase : gmGet (if gmHas tm email then tm
          else gmSet tm email { Email := email, Upload := 0, Download := 0 }) e
          = if e = email then
              some ((gmGet tm email).getD { Email := email, Upload := 0, Download := 0 })
            else gmGet tm e := by
        cases hh : gmHas tm email
        · have hn : gmGet tm email = none := by
            rw [gmHas_eq_isSome] at hh
            cases hx : gmGet tm email with
            | none => rfl
            | some v => rw [hx] at hh; simp at hh
          simp only [Bool.false_eq_true, if_false, gmGet_gmSet, hn, Option.getD_none]
        · have hs : ∃ v, gmGet tm email = some v := by
            rw [gmHas_eq_isSome] at hh
            cases hx : gmGet tm email with
            | none => rw [hx] at hh; simp at hh
            | some v => exact ⟨v, rfl⟩
          obtain ⟨v, hv⟩ := hs
          simp only [if_true, hv, Option.getD_some]
          by_cases he : e = email
          · rw [if_pos he, he, hv]
          · rw [if_neg he]
      by_cases he : email = e
      · subst he
        simp only [ne_eq, not_true_eq_false, if_false]
        rw [if_pos rfl] at hbase
        have hr : (gmGet (if gmHas tm email then tm
            else gmSet tm email { Email := email, Upload := 0, Download := 0 }) email).getD
              { Email := email, Upload := 0, Download := 0 }
            = (gmGet tm email).getD { Email := email, Upload := 0, Download := 0 } := by
          rw [hbase]
          rfl
        simp only [hr]
        by_cases hu : direction = "uplink"
        · simp only [hu, if_true, gmGet_gmSet]
        · by_cases hd : direction = "downlink"
          · subst hd
            simp only [hne, if_true, if_false, gmGet_gmSet]
          · simp only [hu, hd, if_false, hbase]
      · have he2 : ¬ e = email := fun h => he h.symm
        rw [if_neg he2] at hbase
        simp only [ne_eq, he, not_false_eq_true, if_true]
        by_cases hu : direction = "uplink"
        · simp only [hu, if_true, gmGet_gmSet, if_neg he2, hbase]
        · by_cases hd : direction = "downlink"
          · subst hd
            simp only [hne, if_true, if_false, gmGet_gmSet, if_neg he2, hbase]
          · simp only [hu, hd, if_false, hbase]
  · rfl

theorem trafficMap_get (stats : List (String × Int)) (tm : List (String × TrafficReport))
    (e : String) :
    gmGet (stats.foldl trafficStep tm) e = stats.foldl (repStep e) (gmGet tm e) := by
  induction stats generalizing tm with
  | nil => rfl
  | cons s rest ih => rw [List.foldl_cons, List.foldl_cons, ih, trafficStep_get]

theorem trafficStep_nodup (tm : List (String × TrafficReport)) (stat : String × Int)
    (h : (gmKeys tm).Nodup) : (gmKeys (trafficStep tm stat)).Nodup := by
  unfold trafficStep
  split
  · rename_i p0 email p2 direction _
    have hbase : (gmKeys (if gmHas tm email then tm
        else gmSet tm email { Email := email, Upload := 0, Download := 0 })).Nodup := by
      split
      · exact h
      · exact gmKeys_gmSet_nodup _ _ _ h
    simp only
    split
    · exact h
    · split
      · exact gmKeys_gmSet_nodup _ _ _ hbase
      · split
        · exact gmKeys_gmSet_nodup _ _ _ hbase
        · exact hbase
  · exact h

theorem trafficMap_nodup (stats : List (String × Int)) (tm : List (String × TrafficReport))
    (h : (gmKeys tm).Nodup) : (gmKeys (stats.foldl trafficStep tm)).Nodup := by
  induction stats generalizing tm with
  | nil => exact h
  | cons s rest ih =>
    rw [List.foldl_cons]
    exact ih _ (trafficStep_nodup tm s h)

theorem counterValue_append_miss (l : List (String × Int)) (s : String × Int)
    (e d : String) (h : isCounter e d s = false) :
    counterValue (l ++ [s]) e d = counterValue l e d := by
  unfold counterValue
  rw [List.find?_append]
  cases List.find? (isCounter e d) l with
  | none => simp [List.find?_cons, h]
  | some x => rfl

theorem counterValue_append_hit (l : List (String × Int)) (s : String × Int)
    (e d : String) (h : isCounter e d s = true) (hl : ∀ x ∈ l, isCounter e d x = false) :
    counterValue (l ++ [s]) e d = s.2 := by
  unfold counterValue
  have hnone : List.find? (isCounter e d) l = none := by
    rw [List.find?_eq_none]
    intro x hx
    simp [hl x hx]
  rw [List.find?_append, hnone]
  simp [List.find?_cons, h]

theorem counterValue_none (l : List (String × Int)) (e d : String)
    (hl : ∀ x ∈ l, isCounter e d x = false) : counterValue l e d = 0 := by
  unfold counterValue
  have hnone : List.find? (isCounter e d) l = none := by
    rw [List.find?_eq_none]
    intro x hx
    simp [hl x hx]
  rw [hnone]
  rfl

theorem isCounter_iff (e d : String) (s : String × Int) :
    isCounter e d s = true ↔ stringsSplit s.1 ">>>" = ["user", e, "traffic", d] := by
  unfold isCounter
  exact beq_iff_eq

theorem isUserTrafficName_of_counter (e d : String) (s : String × Int)
    (hd : d = "uplink" ∨ d = "downlink") (h : isCounter e d s = true) :
    isUserTrafficName s.1 = true := by
  unfold isUserTrafficName
  rw [(isCounter_iff e d s).1 h]
  rcases hd with hd | hd <;> subst hd <;> rfl

theorem no_earlier_counter (l : List (String × Int)) (s : String × Int) (e d : String)
    (hd : d = "uplink" ∨ d = "downlink")
    (hnd : (((l ++ [s]).map Prod.fst).filter isUserTrafficName).Nodup)
    (h : isCounter e d s = true) :
    ∀ x ∈ l, isCounter e d x = false := by
  intro x hx
  cases hc : isCounter e d x with
  | false => rfl
  | true =>
    exfalso
    have heq : x.1 = s.1 := by
      apply stringsSplit_injective
      rw [(isCounter_iff e d x).1 hc, (isCounter_iff e d s).1 h]
    rw [List.map_append, List.filter_append, List.nodup_append] at hnd
    have hx1 : x.1 ∈ List.filter isUserTrafficName (List.map Prod.fst l) :=
      List.mem_filter.2 ⟨List.mem_map.2 ⟨x, hx, rfl⟩, isUserTrafficName_of_counter e d x hd hc⟩
    have hs1 : x.1 ∈ List.filter isUserTrafficName (List.map Prod.fst [s]) :=
      List.mem_filter.2 ⟨List.mem_map.2 ⟨s, List.mem_singleton.2 rfl, heq.symm⟩,
        isUserTrafficName_of_counter e d x hd hc⟩
    exact hnd.2.2 hx1 hs1

theorem repStep_hit (e d : String) (acc : Option TrafficReport) (s : String × Int)
    (hd : stringsSplit s.1 ">>>" = ["user", e, "traffic", d]) :
    repStep e acc s
      = if d = "uplink" then
          some { Email := (acc.getD { Email := e, Upload := 0, Download := 0 }).Email,
                 Upload := s.2,
                 Download := (acc.getD { Email := e, Upload := 0, Download := 0 }).Download }
        else if d = "downlink" then
          some { Email := (acc.getD { Email := e, Upload := 0, Download := 0 }).Email,
                 Upload := (acc.getD { Email := e, Upload := 0, Download := 0 }).Upload,
                 Download := s.2 }
        else some (acc.getD { Email := e, Upload := 0, Download := 0 }) := by
  unfold repStep
  rw [hd]
  simp only [ne_eq, not_true_eq_false, or_self, if_false]

theorem repStep_miss (e : String) (acc : Option TrafficReport) (s : String × Int)
    (h : ¬ ∃ d, stringsSplit s.1 ">>>" = ["user", e, "traffic", d]) :
    repStep e acc s = acc := by
  unfold repStep
  split
  · rename_i p0 email p2 direction heq
    by_cases hg : p0 ≠ "user" ∨ p2 ≠ "traffic"
    · rw [if_pos hg]
    · rw [if_neg hg]
      by_cases he : email ≠ e
      · rw [if_pos he]
      · exfalso
        simp only [ne_eq, not_or, not_not] at hg he
        apply h
        exact ⟨direction, by rw [heq, hg.1, hg.2, he]⟩
  · rfl

/-- The entry of one email after the parsing loop, when every user traffic name occurs
once: absent when no counter names the email, otherwise its uplink and downlink values. -/
theorem repFold_spec (e : String) (stats : List (String × Int))
    (hnd : ((stats.map Prod.fst).filter isUserTrafficName).Nodup) :
    (stats.foldl (repStep e) none = none ∧ ∀ s ∈ stats, ∀ d, isCounter e d s = false)
    ∨ stats.foldl (repStep e) none
        = some { Email := e, Upload := counterValue stats e "uplink",
                 Download := counterValue stats e "downlink" } := by
  induction stats using List.reverseRecOn with
  | nil => exact Or.inl ⟨rfl, by simp⟩
  | append_singleton l s ih =>
    have hndl : ((l.map Prod.fst).filter isUserTrafficName).Nodup := by
      rw [List.map_append, List.filter_append, List.nodup_append] at hnd
      exact hnd.1
    have ihl := ih hndl
    have hr : (l.foldl (repStep e) none).getD { Email := e, Upload := 0, Download := 0 }
        = { Email := e, Upload := counterValue l e "uplink",
            Download := counterValue l e "downlink" } := by
      rcases ihl with ⟨hn, hall⟩ | hs
      · rw [hn, counterValue_none l e "uplink" (fun x hx => hall x hx _),
          counterValue_none l e "downlink" (fun x hx => hall x hx _)]
        rfl
      · rw [hs]
        rfl
    rw [List.foldl_append, List.foldl_cons, List.foldl_nil]
    have hud : ¬ ("uplink" : String) = "downlink" := by decide
    have hdu : ¬ ("downlink" : String) = "uplink" := by decide
    by_cases hsplit : ∃ d, stringsSplit s.1 ">>>" = ["user", e, "traffic", d]
    · obtain ⟨d, hd⟩ := hsplit
      right
      have hstep : repStep e (l.foldl (repStep e) none) s
          = if d = "uplink" then
              some { Email := e, Upload := s.2, Download := counterValue l e "downlink" }
            else if d = "downlink" then
              some { Email := e, Upload := counterValue l e "uplink", Download := s.2 }
            else some { Email := e, Upload := counterValue l e "uplink",
                        Download := counterValue l e "downlink" } := by
        rw [repStep_hit e d _ s hd, hr]
      rw [hstep]
      by_cases hu : d = "uplink"
      · subst hu
        have hc : isCounter e "uplink" s = true := (isCounter_iff _ _ _).2 hd
        have hm : isCounter e "downlink" s = false := by
          cases hx : isCounter e "downlink" s with
          | false => rfl
          | true =>
            have := (isCounter_iff _ _ _).1 hx
            rw [hd] at this
            simp at this
        rw [if_pos rfl, counterValue_append_hit l s e "uplink" hc
          (no_earlier_counter l s e "uplink" (Or.inl rfl) hnd hc), counterValue_append_miss l s e "downlink" hm]
      · by_cases hdn : d = "downlink"
        · subst hdn
          have hc : isCounter e "downlink" s = true := (isCounter_iff _ _ _).2 hd
          have hm : isCounter e "uplink" s = false := by
            cases hx : isCounter e "uplink" s with
            | false => rfl
            | true =>
              have := (isCounter_iff _ _ _).1 hx
              rw [hd] at this
              simp at this
          rw [if_neg hdu, if_pos rfl, counterValue_append_hit l s e "downlink" hc
            (no_earlier_counter l s e "downlink" (Or.inr rfl) hnd hc),
            counterValue_append_miss l s e "uplink" hm]
        · have hm1 : isCounter e "uplink" s = false := by
            cases hx : isCounter e "uplink" s with
            | false => rfl
            | true =>
              have := (isCounter_iff _ _ _).1 hx
              rw [hd] at this
              simp at this
              exact absurd this hu
          have hm2 : isCounter e "downlink" s = false := by
            cases hx : isCounter e "downlink" s with
            | false => rfl
            | true =>
              have := (isCounter_iff _ _ _).1 hx
              rw [hd] at this
              simp at this
              exact absurd this hdn
          rw [if_neg hu, if_neg hdn, counterValue_append_miss l s e "uplink" hm1,
            counterValue_append_miss l s e "downlink" hm2]
    · have hmiss : ∀ d, isCounter e d s = false := by
        intro d
        cases hx : isCounter e d s with
        | false => rfl
        | true => exact absurd ⟨d, (isCounter_iff _ _ _).1 hx⟩ hsplit
      have hstep : repStep e (l.foldl (repStep e) none) s = l.foldl (repStep e) none :=
        repStep_miss e _ s hsplit
      rw [hstep, counterValue_append_miss l s e "uplink" (hmiss _),
        counterValue_append_miss l s e "downlink" (hmiss _)]
      rcases ihl with ⟨hn, hall⟩ | hs
      · left
        refine ⟨hn, ?_⟩
        intro x hx d
        rcases List.mem_append.1 hx with h1 | h1
        · exact hall x h1 d
        · rw [List.mem_singleton.1 h1]
          exact hmiss d
      · right
        exact hs

theorem gmGet_some_mem {β : Type} (m : List (String × β)) (k : String) (v : β)
    (h : gmGet m k = some v) : (k, v) ∈ m := by
  induction m with
  | nil => simp [gmGet_nil] at h
  | cons kv m ih =>
    obtain ⟨a, b⟩ := kv
    rw [gmGet_cons] at h
    by_cases ha : a = k
    · rw [if_pos ha] at h
      injection h with hb
      rw [ha, hb]
      exact List.mem_cons_self _ _
    · rw [if_neg ha] at h
      exact List.mem_cons_of_mem _ (ih h)

theorem QueryTrafficStats_eq (stats : List (String × Int)) :
    QueryTrafficStats (some stats)
      = some (((stats.foldl trafficStep []).filter
          (fun kv => decide (kv.2.Upload > 0 ∨ kv.2.Download > 0))).map Prod.snd) := by
  unfold QueryTrafficStats
  simp only
  rw [foldl_ite_append (fun (kv : String × TrafficReport) => kv.2.Upload > 0 ∨ kv.2.Download > 0)
    Prod.snd]
  rfl

/-- Every entry of the parsed map is keyed by its own email and holds the counter values of
that email. -/
theorem trafficMap_entry (stats : List (String × Int))
    (hnd : ((stats.map Prod.fst).filter isUserTrafficName).Nodup)
    (kv : String × TrafficReport) (hkv : kv ∈ stats.foldl trafficStep []) :
    kv.2 = { Email := kv.1, Upload := counterValue stats kv.1 "uplink",
             Download := counterValue stats kv.1 "downlink" } := by
  have hget := gmGet_of_mem _ (trafficMap_nodup stats [] List.nodup_nil) kv.1 kv.2 hkv
  rw [trafficMap_get, gmGet_nil] at hget
  rcases repFold_spec kv.1 stats hnd with ⟨hn, _⟩ | hs
  · rw [hn] at hget
    cases hget
  · rw [hs] at hget
    exact (Option.some.inj hget).symm

theorem counterValue_nonneg (stats : List (String × Int)) (h : ∀ s ∈ stats, 0 ≤ s.2)
    (e d : String) : 0 ≤ counterValue stats e d := by
  unfold counterValue
  cases hf : List.find? (isCounter e d) stats with
  | none => exact le_refl _
  | some x => exact h x (List.mem_of_find?_eq_some hf)

/-! ## Claims about traffic statistics -/

/-- C20 (as stated, refuted): the single counter `user>>>a@x>>>traffic>>>uplink = -5` has
a non-zero uplink value, and QueryTrafficStats returns no report for `a@x`. -/
theorem queryTrafficStats_negative_counter :
    counterValue exStatsNegative "a@x" "uplink" = -5
    ∧ QueryTrafficStats (some exStatsNegative) = some [] :=
  ⟨by decide, by decide⟩

/-- C20 (amended): for every list of counters returned by the core in which each name
`user>>>EMAIL>>>traffic>>>uplink|downlink` occurs at most once (other names may repeat),
QueryTrafficStats returns, as a set, exactly one report per email
that has a positive uplink or downlink value (for counters that are all non-negative:
a non-zero value), with Upload equal to its uplink value and Download equal to its
downlink value (0 when absent), and no report for any other name; the single counter
`user>>>a@x>>>traffic>>>uplink = 1000` yields `[{a@x, 1000, 0}]`. -/
theorem queryTrafficStats_reports (stats : List (String × Int))
    (hnd : ((stats.map Prod.fst).filter isUserTrafficName).Nodup) :
    ∃ reports, QueryTrafficStats (some stats) = some reports
      ∧ (∀ r, r ∈ reports ↔
          (r.Upload = counterValue stats r.Email "uplink"
            ∧ r.Download = counterValue stats r.Email "downlink"
            ∧ (r.Upload > 0 ∨ r.Download > 0)))
      ∧ ((∀ s ∈ stats, 0 ≤ s.2) → ∀ r, r ∈ reports ↔
          (r.Upload = counterValue stats r.Email "uplink"
            ∧ r.Download = counterValue stats r.Email "downlink"
            ∧ (r.Upload ≠ 0 ∨ r.Download ≠ 0)))
      ∧ (reports.map (fun r => r.Email)).Nodup
      ∧ QueryTrafficStats (some [("user>>>a@x>>>traffic>>>uplink", 1000)])
          = some [{ Email := "a@x", Upload := 1000, Download := 0 }] := by
  have hiff : ∀ r, r ∈ ((stats.foldl trafficStep []).filter
      (fun kv => decide (kv.2.Upload > 0 ∨ kv.2.Download > 0))).map Prod.snd ↔
      (r.Upload = counterValue stats r.Email "uplink"
        ∧ r.Download = counterValue stats r.Email "downlink"
        ∧ (r.Upload > 0 ∨ r.Download > 0)) := ?_
  refine ⟨_, QueryTrafficStats_eq stats, hiff, ?_, ?_, by decide⟩
  · intro hpos r
    rw [hiff r]
    constructor
    · rintro ⟨hu, hd, h⟩
      refine ⟨hu, hd, ?_⟩
      rcases h with h | h
      · exact Or.inl (ne_of_gt h)
      · exact Or.inr (ne_of_gt h)
    · rintro ⟨hu, hd, h⟩
      have h1 : 0 ≤ r.Upload := hu ▸ counterValue_nonneg stats hpos _ _
      have h2 : 0 ≤ r.Download := hd ▸ counterValue_nonneg stats hpos _ _
      refine ⟨hu, hd, ?_⟩
      rcases h with h | h
      · exact Or.inl (lt_of_le_of_ne h1 (Ne.symm h))
      · exact Or.inr (lt_of_le_of_ne h2 (Ne.symm h))
  rotate_left
  · intro r
    constructor
    · intro hr
      rcases List.mem_map.1 hr with ⟨kv, hkv, rfl⟩
      rcases List.mem_filter.1 hkv with ⟨hmem, hpos⟩
      have hent := trafficMap_entry stats hnd kv hmem
      have hpos2 : kv.2.Upload > 0 ∨ kv.2.Download > 0 := by simpa using hpos
      refine ⟨?_, ?_, hpos2⟩
      · rw [hent]
      · rw [hent]
    · rintro ⟨hu, hd, hpos⟩
      have hfold : stats.foldl (repStep r.Email) none = some r := by
        rcases repFold_spec r.Email stats hnd with ⟨_, hall⟩ | hs
        · exfalso
          rw [counterValue_none stats r.Email "uplink" (fun x hx => hall x hx _)] at hu
          rw [counterValue_none stats r.Email "downlink" (fun x hx => hall x hx _)] at hd
          rcases hpos with h | h
          · rw [hu] at h
            exact absurd h (by decide)
          · rw [hd] at h
            exact absurd h (by decide)
        · rw [hs, ← hu, ← hd]
      have hget : gmGet (stats.foldl trafficStep []) r.Email = some r := by
        rw [trafficMap_get, gmGet_nil]
        exact hfold
      have hmem := gmGet_some_mem _ _ _ hget
      apply List.mem_map.2
      refine ⟨(r.Email, r), List.mem_filter.2 ⟨hmem, ?_⟩, rfl⟩
      simpa using hpos
  · have hkeys : (((stats.foldl trafficStep []).filter
        (fun kv => decide (kv.2.Upload > 0 ∨ kv.2.Download > 0))).map Prod.snd).map
          (fun r => r.Email)
        = ((stats.foldl trafficStep []).filter
            (fun kv => decide (kv.2.Upload > 0 ∨ kv.2.Download > 0))).map Prod.fst := by
      rw [List.map_map]
      apply List.map_congr_left
      intro kv hkv
      have hent := trafficMap_entry stats hnd kv (List.mem_filter.1 hkv).1
      simp only [Function.comp_apply]
      rw [hent]
    rw [hkeys]
    exact (trafficMap_nodup stats [] List.nodup_nil).sublist ((List.filter_sublist _).map _)

/-- Witness for C20 (amended): the counter of scenario 3 after two counters sharing a name
that is not a user traffic name; the report is `{a@x, 1000, 0}`. -/
theorem queryTrafficStats_reports_witness :
    ((exStatsRepeated.map Prod.fst).filter isUserTrafficName).Nodup
    ∧ ¬ (exStatsRepeated.map Prod.fst).Nodup
    ∧ QueryTrafficStats (some exStatsRepeated)
        = some [{ Email := "a@x", Upload := 1000, Download := 0 }]
    ∧ ∃ reports, QueryTrafficStats (some exStatsRepeated) = some reports
      ∧ (∀ r, r ∈ reports ↔
          (r.Upload = counterValue exStatsRepeated r.Email "uplink"
            ∧ r.Download = counterValue exStatsRepeated r.Email "downlink"
            ∧ (r.Upload > 0 ∨ r.Download > 0)))
      ∧ ((∀ s ∈ exStatsRepeated, 0 ≤ s.2) → ∀ r, r ∈ reports ↔
          (r.Upload = counterValue exStatsRepeated r.Email "uplink"
            ∧ r.Download = counterValue exStatsRepeated r.Email "downlink"
            ∧ (r.Upload ≠ 0 ∨ r.Download ≠ 0)))
      ∧ (reports.map (fun r => r.Email)).Nodup
      ∧ QueryTrafficStats (some [("user>>>a@x>>>traffic>>>uplink", 1000)])
          = some [{ Email := "a@x", Upload := 1000, Download := 0 }] :=
  ⟨by decide, by decide, by decide, queryTrafficStats_reports exStatsRepeated (by decide)⟩

/-! ## Properties of `compareVersion` -/

theorem compareVersionLoop_range (p1 p2 : List String) (fuel i : Nat) :
    compareVersionLoop p1 p2 fuel i = -1 ∨ compareVersionLoop p1 p2 fuel i = 0
      ∨ compareVersionLoop p1 p2 fuel i = 1 := by
  induction fuel generalizing i with
  | zero => exact Or.inr (Or.inl rfl)
  | succ n ih =>
    rw [compareVersionLoop]
    split
    · exact Or.inl rfl
    · split
      · exact Or.inr (Or.inr rfl)
      · exact ih _

theorem compareVersionLoop_self (p : List String) (fuel i : Nat) :
    compareVersionLoop p p fuel i = 0 := by
  induction fuel generalizing i with
  | zero => rfl
  | succ n ih =>
    rw [compareVersionLoop]
    simp only [lt_self_iff_false, gt_iff_lt, if_false]
    exact ih _

theorem compareVersionLoop_swap (p1 p2 : List String) (fuel i : Nat) :
    compareVersionLoop p1 p2 fuel i = -compareVersionLoop p2 p1 fuel i := by
  induction fuel generalizing i with
  | zero => rfl
  | succ n ih =>
    rw [compareVersionLoop, compareVersionLoop]
    split_ifs <;> first | rfl | omega | exact ih _

/-! ## Claims about version comparison -/

/-- C28 (code at the failing input): for the version text `unknown`, which
`detectVersion` returns when the core's version cannot be read, `compareVersion` of the
text with itself is -1, where the comment above the function promises 0 for equal
arguments; and `compareVersion("unknown", "0.0.0")` is -1 while
`compareVersion("0.0.0", "unknown")` is 0, so the result is not negated when the arguments
are swapped. -/
theorem compareVersion_unknown_not_reflexive :
    compareVersion "unknown" "unknown" = -1
    ∧ compareVersion "unknown" "0.0.0" = -1
    ∧ compareVersion "0.0.0" "unknown" = 0 :=
  ⟨by decide, by decide, by decide⟩

/-- What does hold of `compareVersion`: it returns -1, 0 or 1 for all version strings; its
first argument `unknown` gives -1 whatever the second is; for every `v` other than
`unknown`, `compareVersion(v, v) = 0`; and for all `v1`, `v2` other than `unknown`,
`compareVersion(v1, v2) = -compareVersion(v2, v1)`. -/
theorem compareVersion_three_way (v1 v2 : String) :
    (compareVersion v1 v2 = -1 ∨ compareVersion v1 v2 = 0 ∨ compareVersion v1 v2 = 1)
    ∧ compareVersion "unknown" v2 = -1
    ∧ (v1 ≠ "unknown" → compareVersion v1 v1 = 0)
    ∧ (v1 ≠ "unknown" → v2 ≠ "unknown" → compareVersion v1 v2 = -compareVersion v2 v1) := by
  refine ⟨?_, ?_, ?_, ?_⟩
  · unfold compareVersion
    split
    · exact Or.inl rfl
    · exact compareVersionLoop_range _ _ _ _
  · unfold compareVersion
    rw [if_pos rfl]
  · intro h
    unfold compareVersion
    rw [if_neg h]
    exact compareVersionLoop_self _ _ _
  · intro h1 h2
    unfold compareVersion
    rw [if_neg h1, if_neg h2]
    exact compareVersionLoop_swap _ _ _ _

/-- The three-way comparison at the versions `1.8.4` and `1.8.0`. -/
theorem compareVersion_three_way_witness :
    (compareVersion "1.8.4" "1.8.0" = -1 ∨ compareVersion "1.8.4" "1.8.0" = 0
      ∨ compareVersion "1.8.4" "1.8.0" = 1)
    ∧ compareVersion "unknown" "1.8.0" = -1
    ∧ compareVersion "1.8.4" "1.8.4" = 0
    ∧ compareVersion "1.8.4" "1.8.0" = -compareVersion "1.8.0" "1.8.4"
    ∧ compareVersion "1.8.4" "1.8.0" = 1 :=
  ⟨(compareVersion_three_way "1.8.4" "1.8.0").1, (compareVersion_three_way "1.8.4" "1.8.0").2.1,
    (compareVersion_three_way "1.8.4" "1.8.0").2.2.1 (by decide),
    (compareVersion_three_way "1.8.4" "1.8.0").2.2.2 (by decide) (by decide), by decide⟩

/-! ## Properties of the alive loop -/

theorem removals_append (a b : List RpcEvent) : removals (a ++ b) = removals a ++ removals b := by
  unfold removals
  exact List.filterMap_append _ _ _

theorem removeAll_trace (env : CoreEnv) (email : String) (tags : List String)
    (init : List RpcEvent) :
    tags.foldl
      (fun tr tag =>
        let tr := tr ++ [RpcEvent.alterInbound tag (.removeUser email)]
        if !env.alterInboundOk tag (.removeUser email) then tr else tr)
      init
      = init ++ tags.map (fun tag => RpcEvent.alterInbound tag (.removeUser email)) := by
  induction tags generalizing init with
  | nil => simp
  | cons t ts ih =>
    rw [List.foldl_cons, ih]
    simp

theorem RemoveUserFromAllInbounds_eq (env : CoreEnv) (email : String) (tags : List String) :
    GRPCClient.RemoveUserFromAllInbounds env email tags
      = if env.dialOk then
          (true, RpcEvent.dial :: tags.map (fun tag => RpcEvent.alterInbound tag (.removeUser email)))
        else (false, [RpcEvent.dial]) := by
  unfold GRPCClient.RemoveUserFromAllInbounds
  cases h : env.dialOk
  · simp
  · simp only [Bool.not_true, Bool.false_eq_true, if_false, if_true]
    rw [removeAll_trace]
    rfl

theorem removals_KickUser (env : CoreEnv) (email : String) (tags : List String) :
    removals (GRPCClient.KickUser env email tags).2
      = if env.dialOk then tags.map (fun tag => (tag, email)) else [] := by
  unfold GRPCClient.KickUser
  rw [RemoveUserFromAllInbounds_eq]
  cases h : env.dialOk
  · simp [removals]
  · simp only [if_true]
    unfold removals
    rw [List.filterMap_cons]
    simp only
    induction tags with
    | nil => rfl
    | cons t ts ih => simp [List.filterMap_cons, ih]

theorem kick_removals (env : CoreEnv) (tags : List String) (emails : List String)
    (init : List RpcEvent) :
    removals (emails.foldl (fun rpc email => rpc ++ (GRPCClient.KickUser env email tags).2) init)
      = removals init
        ++ emails.flatMap
            (fun email => if env.dialOk then tags.map (fun tag => (tag, email)) else []) := by
  induction emails generalizing init with
  | nil => simp
  | cons e es ih =>
    rw [List.foldl_cons, ih, removals_append, removals_KickUser, List.flatMap_cons,
      List.append_assoc]

theorem getInboundTags_eq (m : Manager) (nodeConfig : NodeConfig)
    (h : m.nodeConfig = some nodeConfig) :
    m.getInboundTags = nodeConfig.Inbounds.map (fun inb => inb.Tag) := by
  unfold Manager.getInboundTags
  rw [h]
  simp only
  rw [foldl_append_singleton]
  rfl

theorem aliveTick_removals (m : Manager) (env : CoreEnv)
    (panel : List (RoundTrip AliveResponse)) (resp : AliveResponse)
    (h : (ReportAlive m.client (GRPCClient.GetAllOnlineUsers m.userEmails) panel).result
      = .ok resp) :
    removals (m.aliveTick env panel).rpc
      = resp.KickUsers.flatMap
          (fun email =>
            if env.dialOk then m.getInboundTags.map (fun tag => (tag, email)) else []) := by
  unfold Manager.aliveTick
  simp only [h]
  split
  · rw [kick_removals]
    rfl
  · rename_i hlen
    have : resp.KickUsers = [] := by
      cases hk : resp.KickUsers with
      | nil => rfl
      | cons a l => rw [hk] at hlen; simp at hlen
    rw [this]
    rfl

/-! ## Claims about device-limit enforcement -/

/-- C23 (as stated, refuted): the Panel returns the kick list `[a@x]`, the current
NodeConfig has the inbound `in0`, and the core's API endpoint cannot be dialled:
the alive loop issues no `RemoveUser` operation at all. -/
theorem aliveTick_unreachable_core_no_removal :
    (ReportAlive exManager.client (GRPCClient.GetAllOnlineUsers exManager.userEmails)
        exKickA).result = .ok { Success := true, KickUsers := ["a@x"] }
    ∧ exManager.getInboundTags = ["in0"]
    ∧ (exManager.aliveTick exCoreUnreachable exKickA).rpc = [RpcEvent.dial]
    ∧ removals (exManager.aliveTick exCoreUnreachable exKickA).rpc = [] :=
  ⟨rfl, by decide, by decide, by decide⟩

/-- C23 (amended): for every kick list returned by ReportAlive and every current NodeConfig,
when the dial of the core's API endpoint succeeds the alive loop issues, for each email of
the kick list in turn, a `RemoveUser` operation for that email on every inbound tag of the
current NodeConfig, whatever the outcome of each single operation (the operations issued
are the same for every core whose endpoint can be dialled); when the dial fails it issues
no `RemoveUser` operation. -/
theorem aliveTick_kicks (m : Manager) (env : CoreEnv) (panel : List (RoundTrip AliveResponse))
    (resp : AliveResponse) (nodeConfig : NodeConfig)
    (hresp : (ReportAlive m.client (GRPCClient.GetAllOnlineUsers m.userEmails) panel).result
      = .ok resp)
    (hcfg : m.nodeConfig = some nodeConfig) :
    (env.dialOk = true →
      removals (m.aliveTick env panel).rpc
        = resp.KickUsers.flatMap
            (fun email => nodeConfig.Inbounds.map (fun inb => (inb.Tag, email))))
    ∧ (env.dialOk = true → ∀ env2 : CoreEnv, env2.dialOk = true →
        removals (m.aliveTick env2 panel).rpc = removals (m.aliveTick env panel).rpc)
    ∧ (env.dialOk = false → removals (m.aliveTick env panel).rpc = []) := by
  have htags := getInboundTags_eq m nodeConfig hcfg
  refine ⟨?_, ?_, ?_⟩
  · intro hd
    rw [aliveTick_removals m env panel resp hresp, hd, htags]
    simp only [if_true, List.map_map]
    rfl
  · intro hd env2 hd2
    rw [aliveTick_removals m env panel resp hresp, aliveTick_removals m env2 panel resp hresp,
      hd, hd2]
  · intro hd
    rw [aliveTick_removals m env panel resp hresp, hd]
    simp

/-- Witness for C23 (amended): the kick list `[a@x]`, the inbounds `in0` and `in1`, and a
core that rejects every request on `in0`: the removal on `in1` is issued all the same. -/
theorem aliveTick_kicks_witness :
    removals (exManagerTwoInbounds.aliveTick exCoreRejectsIn0 exKickA).rpc
      = [("in0", "a@x"), ("in1", "a@x")]
    ∧ exCoreRejectsIn0.alterInboundOk "in0" (.removeUser "a@x") = false :=
  ⟨(aliveTick_kicks exManagerTwoInbounds exCoreRejectsIn0 exKickA
      { Success := true, KickUsers := ["a@x"] } exNewConfig.Config rfl rfl).1 rfl,
    by decide⟩

/-- C24 (code at the failing input): the core holds no user `ghost@x` and rejects the
removal; `RemoveUser("in0", "ghost@x")` returns the error of `AlterInbound`, while
`RemoveUserFromAllInbounds` for the same email and tag returns nil; in general `RemoveUser`
returns nil exactly when the dial and the `AlterInbound` request both succeed. -/
theorem removeUser_non_member_returns_error :
    GRPCClient.RemoveUser exCoreNoSuchUser "in0" "ghost@x"
      = (false, [RpcEvent.dial, RpcEvent.alterInbound "in0" (.removeUser "ghost@x")])
    ∧ GRPCClient.RemoveUserFromAllInbounds exCoreNoSuchUser "ghost@x" ["in0"]
      = (true, [RpcEvent.dial, RpcEvent.alterInbound "in0" (.removeUser "ghost@x")])
    ∧ ∀ (env : CoreEnv) (inboundTag email : String),
        (GRPCClient.RemoveUser env inboundTag email).1
          = (env.dialOk && env.alterInboundOk inboundTag (.removeUser email)) := by
  refine ⟨by decide, by decide, ?_⟩
  intro env inboundTag email
  unfold GRPCClient.RemoveUser
  cases env.dialOk <;> simp

/-! ## Properties of terminal responses -/

theorem doRequestLoop_stops {α : Type} (c : Client) (hurl : c.urlOk = true)
    (method path : String) (body : Option JVal) (headers : List (String × String))
    (pre : List (RoundTrip α)) (status : Int) (payload : Option α) (rest : List (RoundTrip α))
    (hpre : ∀ r ∈ pre, r.isFailure = true) (hs : status < 500)
    (fuel i : Nat) (drained : Bool) (tr : List Event) (hf : pre.length < fuel) :
    (doRequestLoop c method path body headers fuel i drained
        (pre ++ RoundTrip.response status payload :: rest) tr).result = .ok (status, payload)
    ∧ (doRequestLoop c method path body headers fuel i drained
        (pre ++ RoundTrip.response status payload :: rest) tr).panel = rest
    ∧ attempts (doRequestLoop c method path body headers fuel i drained
        (pre ++ RoundTrip.response status payload :: rest) tr).trace
        = attempts tr + pre.length + 1 := by
  have hns : ¬ status ≥ 500 := not_le.2 hs
  induction pre generalizing fuel i drained tr with
  | nil =>
    cases fuel with
    | zero => exact absurd hf (Nat.lt_irrefl 0)
    | succ n =>
      rw [List.nil_append]
      unfold doRequestLoop
      simp only [hurl, Bool.not_true, Bool.false_eq_true, if_false, hns, true_and]
      rw [attempts_append]
      by_cases hi : i > 0
      · rw [if_pos hi, attempts_append]
        simp [attempts]
      · rw [if_neg hi]
        simp [attempts]
  | cons r pre ih =>
    cases fuel with
    | zero => exact absurd hf (Nat.not_lt_zero _)
    | succ n =>
      have hf2 : pre.length < n := by
        rw [List.length_cons] at hf
        omega
      have hpre2 : ∀ x ∈ pre, x.isFailure = true := fun x hx => hpre x (List.mem_cons_of_mem _ hx)
      have hr := hpre r (List.mem_cons_self _ _)
      have hatt : ∀ (req : HttpRequest),
          attempts ((if i > 0 then tr ++ [Event.sleep i] else tr) ++ [Event.httpDo req])
            = attempts tr + 1 := by
        intro req
        rw [attempts_append]
        by_cases hi : i > 0
        · rw [if_pos hi, attempts_append]
          simp [attempts]
        · rw [if_neg hi]
          simp [attempts]
      rw [List.cons_append]
      unfold doRequestLoop
      simp only [hurl, Bool.not_true, Bool.false_eq_true, if_false]
      cases r with
      | transportError bodyRead =>
        simp only
        obtain ⟨h1, h2, h3⟩ := ih hpre2 n (i + 1) (drained || bodyRead) _ hf2
        refine ⟨h1, h2, ?_⟩
        rw [h3, hatt, List.length_cons]
        omega
      | response st pl =>
        have hst : st ≥ 500 := by simpa [RoundTrip.isFailure] using hr
        simp only [hst, if_true]
        obtain ⟨h1, h2, h3⟩ := ih hpre2 n (i + 1) true _ hf2
        refine ⟨h1, h2, ?_⟩
        rw [h3, hatt, List.length_cons]
        omega

theorem doRequest_stops {α : Type} (c : Client) (hurl : c.urlOk = true)
    (method path : String) (body : Option JVal) (headers : List (String × String))
    (pre : List (RoundTrip α)) (status : Int) (payload : Option α) (rest : List (RoundTrip α))
    (hpre : ∀ r ∈ pre, r.isFailure = true) (hlen : (pre.length : Int) ≤ c.retryCount)
    (hs : status < 500) :
    (doRequest c method path body headers
        (pre ++ RoundTrip.response status payload :: rest)).result = .ok (status, payload)
    ∧ (doRequest c method path body headers
        (pre ++ RoundTrip.response status payload :: rest)).panel = rest
    ∧ attempts (doRequest c method path body headers
        (pre ++ RoundTrip.response status payload :: rest)).trace = pre.length + 1 := by
  unfold doRequest
  have hf : pre.length < (c.retryCount + 1).toNat := by omega
  obtain ⟨h1, h2, h3⟩ := doRequestLoop_stops c hurl method path body headers pre status payload
    rest hpre hs _ 0 false [] hf
  refine ⟨h1, h2, ?_⟩
  rw [h3]
  simp [attempts]

theorem GetConfig_terminal (c : Client) (hurl : c.urlOk = true)
    (pre : List (RoundTrip ConfigWrapper)) (status : Int) (payload : Option ConfigWrapper)
    (rest : List (RoundTrip ConfigWrapper))
    (hpre : ∀ r ∈ pre, r.isFailure = true) (hlen : (pre.length : Int) ≤ c.retryCount)
    (h4 : 400 ≤ status) (hs : status < 500) :
    (GetConfig c (pre ++ RoundTrip.response status payload :: rest)).result
        = .error (.badStatus status)
    ∧ (GetConfig c (pre ++ RoundTrip.response status payload :: rest)).changed = false
    ∧ (GetConfig c (pre ++ RoundTrip.response status payload :: rest)).client = c
    ∧ (GetConfig c (pre ++ RoundTrip.response status payload :: rest)).panel = rest
    ∧ attempts (GetConfig c (pre ++ RoundTrip.response status payload :: rest)).trace
        = pre.length + 1 := by
  obtain ⟨h1, h2, h3⟩ := doRequest_stops c hurl "GET" (c.apiBasePath ++ "/agent/config") none
    (if c.configETag ≠ "" then [("If-None-Match", c.configETag)] else []) pre status payload
    rest hpre hlen hs
  have h304 : ¬ status = 304 := by omega
  have h200 : status ≠ 200 := by omega
  have hres : GetConfig c (pre ++ RoundTrip.response status payload :: rest)
      = ⟨.error (.badStatus status), c, rest,
          (doRequest c "GET" (c.apiBasePath ++ "/agent/config") none
            (if c.configETag ≠ "" then [("If-None-Match", c.configETag)] else [])
            (pre ++ RoundTrip.response status payload :: rest)).trace⟩ := by
    unfold GetConfig
    simp only [h1, h2, h304, h200, if_false, ne_eq, not_false_eq_true, if_true]
  rw [hres]
  exact ⟨rfl, rfl, rfl, rfl, h3⟩

theorem GetUsers_terminal (c : Client) (hurl : c.urlOk = true)
    (pre : List (RoundTrip UserListResponse)) (status : Int)
    (payload : Option UserListResponse) (rest : List (RoundTrip UserListResponse))
    (hpre : ∀ r ∈ pre, r.isFailure = true) (hlen : (pre.length : Int) ≤ c.retryCount)
    (h4 : 400 ≤ status) (hs : status < 500) :
    (GetUsers c (pre ++ RoundTrip.response status payload :: rest)).result
        = .error (.badStatus status)
    ∧ (GetUsers c (pre ++ RoundTrip.response status payload :: rest)).changed = false
    ∧ (GetUsers c (pre ++ RoundTrip.response status payload :: rest)).client = c
    ∧ (GetUsers c (pre ++ RoundTrip.response status payload :: rest)).panel = rest
    ∧ attempts (GetUsers c (pre ++ RoundTrip.response status payload :: rest)).trace
        = pre.length + 1 := by
  obtain ⟨h1, h2, h3⟩ := doRequest_stops c hurl "GET" (c.apiBasePath ++ "/agent/users") none
    (if c.usersETag ≠ "" then [("If-None-Match", c.usersETag)] else []) pre status payload
    rest hpre hlen hs
  have h304 : ¬ status = 304 := by omega
  have h200 : status ≠ 200 := by omega
  have hres : GetUsers c (pre ++ RoundTrip.response status payload :: rest)
      = ⟨.error (.badStatus status), c, rest,
          (doRequest c "GET" (c.apiBasePath ++ "/agent/users") none
            (if c.usersETag ≠ "" then [("If-None-Match", c.usersETag)] else [])
            (pre ++ RoundTrip.response status payload :: rest)).trace⟩ := by
    unfold GetUsers
    simp only [h1, h2, h304, h200, if_false, ne_eq, not_false_eq_true, if_true]
  rw [hres]
  exact ⟨rfl, rfl, rfl, rfl, h3⟩

theorem sentBodies_append (a b : List Event) :
    sentBodies (a ++ b) = sentBodies a ++ sentBodies b := by
  unfold sentBodies
  exact List.filterMap_append _ _ _

/-- Once the body reader is drained, every further attempt is sent with nothing to read. -/
theorem doRequestLoop_drained {α : Type} (c : Client) (method path : String) (v : JVal)
    (headers : List (String × String)) (fuel i : Nat) (panel : List (RoundTrip α))
    (tr : List Event) :
    ∃ k, sentBodies (doRequestLoop c method path (some v) headers fuel i true panel tr).trace
      = sentBodies tr ++ List.replicate k SentBody.drained := by
  induction fuel generalizing i panel tr with
  | zero => exact ⟨0, by simp [doRequestLoop]⟩
  | succ n ih =>
    have hsleep : sentBodies (if i > 0 then tr ++ [Event.sleep i] else tr) = sentBodies tr := by
      split
      · simp [sentBodies_append, sentBodies]
      · rfl
    unfold doRequestLoop
    simp only
    cases hurl : c.urlOk
    · exact ⟨0, by simp [hsleep]⟩
    · simp only [Bool.not_true, Bool.false_eq_true, if_false, if_true, Bool.true_or]
      have hstep : ∀ (req : HttpRequest), req.body = SentBody.drained →
          sentBodies ((if i > 0 then tr ++ [Event.sleep i] else tr) ++ [Event.httpDo req])
            = sentBodies tr ++ [SentBody.drained] := by
        intro req hreq
        rw [sentBodies_append, hsleep]
        simp [sentBodies, hreq]
      have hnext : ∀ (p : List (RoundTrip α)) (req : HttpRequest), req.body = SentBody.drained →
          ∃ k, sentBodies (doRequestLoop c method path (some v) headers n (i + 1) true p
              ((if i > 0 then tr ++ [Event.sleep i] else tr) ++ [Event.httpDo req])).trace
            = sentBodies tr ++ List.replicate k SentBody.drained := by
        intro p req hreq
        obtain ⟨k, hk⟩ := ih (i + 1) p
          ((if i > 0 then tr ++ [Event.sleep i] else tr) ++ [Event.httpDo req])
        refine ⟨k + 1, ?_⟩
        rw [hk, hstep req hreq, List.append_assoc, List.replicate_succ]
        rfl
      cases panel with
      | nil => exact hnext [] _ rfl
      | cons rt rest =>
        cases rt with
        | transportError bodyRead => exact hnext rest _ rfl
        | response status payload =>
          simp only
          split
          · exact hnext rest _ rfl
          · exact ⟨1, by rw [hstep _ rfl]; rfl⟩

/-- After a first answer of 500 or above, the first attempt of `doRequest` has sent the
JSON body and every retry is sent with the drained reader. -/
theorem doRequest_retry_bodies {α : Type} (c : Client) (hurl : c.urlOk = true)
    (method path : String) (v : JVal) (headers : List (String × String)) (status : Int)
    (payload : Option α) (rest : List (RoundTrip α)) (hs : status ≥ 500)
    (hretry : 0 ≤ c.retryCount) :
    ∃ k, sentBodies (doRequest c method path (some v) headers
        (RoundTrip.response status payload :: rest)).trace
      = SentBody.json v :: List.replicate k SentBody.drained := by
  unfold doRequest
  obtain ⟨n, hn⟩ : ∃ n, (c.retryCount + 1).toNat = n + 1 := ⟨c.retryCount.toNat, by omega⟩
  rw [hn]
  unfold doRequestLoop
  simp only [hurl, Bool.not_true, Bool.false_eq_true, if_false, hs, if_true, gt_iff_lt,
    lt_self_iff_false, List.nil_append]
  obtain ⟨k, hk⟩ := doRequestLoop_drained c method path v headers n (0 + 1) rest
    [Event.httpDo (HttpRequest.mk method (c.baseURL ++ path)
      ([("Content-Type", "application/json"), ("X-Node-Token", c.nodeToken)] ++ headers)
      (SentBody.json v))]
  exact ⟨k, hk⟩

/-! ## Claims about terminal responses and retries of the Panel client -/

/-- C25: a response whose status is below 500 ends `doRequest`: when the Panel answers
failures (transport errors or statuses of 500 and above) and then, within the allowed
attempts, a status below 500, that response is returned, the attempt that received it is
the last one, and the Panel's further answers are never asked for; for a status from 400
to 499, `GetConfig` and `GetUsers` return an error with `changed = false` and leave the
client, its stored etags included, unchanged. -/
theorem doRequest_terminal_below_500 (c : Client) (hurl : c.urlOk = true) :
    (∀ (α : Type) (method path : String) (body : Option JVal)
        (headers : List (String × String)) (pre : List (RoundTrip α)) (status : Int)
        (payload : Option α) (rest : List (RoundTrip α)),
        (∀ r ∈ pre, r.isFailure = true) → (pre.length : Int) ≤ c.retryCount → status < 500 →
        (doRequest c method path body headers
            (pre ++ RoundTrip.response status payload :: rest)).result = .ok (status, payload)
        ∧ (doRequest c method path body headers
            (pre ++ RoundTrip.response status payload :: rest)).panel = rest
        ∧ attempts (doRequest c method path body headers
            (pre ++ RoundTrip.response status payload :: rest)).trace = pre.length + 1)
    ∧ (∀ (pre : List (RoundTrip ConfigWrapper)) (status : Int) (payload : Option ConfigWrapper)
        (rest : List (RoundTrip ConfigWrapper)),
        (∀ r ∈ pre, r.isFailure = true) → (pre.length : Int) ≤ c.retryCount →
        400 ≤ status → status < 500 →
        (GetConfig c (pre ++ RoundTrip.response status payload :: rest)).result
            = .error (.badStatus status)
        ∧ (GetConfig c (pre ++ RoundTrip.response status payload :: rest)).changed = false
        ∧ (GetConfig c (pre ++ RoundTrip.response status payload :: rest)).client = c
        ∧ (GetConfig c (pre ++ RoundTrip.response status payload :: rest)).panel = rest
        ∧ attempts (GetConfig c (pre ++ RoundTrip.response status payload :: rest)).trace
            = pre.length + 1)
    ∧ (∀ (pre : List (RoundTrip UserListResponse)) (status : Int)
        (payload : Option UserListResponse) (rest : List (RoundTrip UserListResponse)),
        (∀ r ∈ pre, r.isFailure = true) → (pre.length : Int) ≤ c.retryCount →
        400 ≤ status → status < 500 →
        (GetUsers c (pre ++ RoundTrip.response status payload :: rest)).result
            = .error (.badStatus status)
        ∧ (GetUsers c (pre ++ RoundTrip.response status payload :: rest)).changed = false
        ∧ (GetUsers c (pre ++ RoundTrip.response status payload :: rest)).client = c
        ∧ (GetUsers c (pre ++ RoundTrip.response status payload :: rest)).panel = rest
        ∧ attempts (GetUsers c (pre ++ RoundTrip.response status payload :: rest)).trace
            = pre.length + 1) :=
  ⟨fun _ method path body headers pre status payload rest hpre hlen hs =>
      doRequest_stops c hurl method path body headers pre status payload rest hpre hlen hs,
    fun pre status payload rest hpre hlen h4 hs =>
      GetConfig_terminal c hurl pre status payload rest hpre hlen h4 hs,
    fun pre status payload rest hpre hlen h4 hs =>
      GetUsers_terminal c hurl pre status payload rest hpre hlen h4 hs⟩

/-- Witness for C25: the Panel answers 503, then 403, and holds a 200 answer that is never
asked for; `GetConfig` makes two attempts, returns the error for 403 and keeps the etag. -/
theorem doRequest_terminal_below_500_witness :
    (GetConfig exClient exPanel403).result = .error (.badStatus 403)
    ∧ (GetConfig exClient exPanel403).changed = false
    ∧ (GetConfig exClient exPanel403).client = exClient
    ∧ (GetConfig exClient exPanel403).panel = [.response 200 (some exNewConfig)]
    ∧ attempts (GetConfig exClient exPanel403).trace = 1 + 1 :=
  (doRequest_terminal_below_500 exClient rfl).2.1 [.response 503 none] 403 none
    [.response 200 (some exNewConfig)] (by decide) (by decide) (by decide) (by decide)

/-- C29 (code at the failing input): `ReportTraffic` of the report of scenario 3 to a Panel
that answers 503 and then 200: the first attempt sends the JSON document, the retry is
created from the same, already drained body reader and sends no document, and the call
returns nil. -/
theorem reportTraffic_retry_sends_drained_body :
    sentBodies (ReportTraffic exClient exTraffic
        [.response 503 none, .response 200 (some ())]).trace
      = [SentBody.json (trafficBody exTraffic), SentBody.drained]
    ∧ (ReportTraffic exClient exTraffic [.response 503 none, .response 200 (some ())]).result
      = .ok () :=
  ⟨rfl, rfl⟩

/-! ## Claims about credential changes in the user loop -/

theorem isMemberB_of_mem (users : List UserConfig) (u : UserConfig) (tag : String)
    (hu : u ∈ users) (ht : tag ∈ u.InboundTags) : isMemberB users tag u.Email = true := by
  unfold isMemberB
  rw [List.any_eq_true]
  exact ⟨u, hu, by simp [ht]⟩

theorem isMemberB_same_tags (users : List UserConfig) (u : UserConfig) (tag : String)
    (hu : u ∈ users)
    (hall : ∀ v ∈ users, v.Email = u.Email → v.InboundTags = u.InboundTags) :
    isMemberB users tag u.Email = decide (tag ∈ u.InboundTags) := by
  by_cases ht : tag ∈ u.InboundTags
  · rw [isMemberB_of_mem users u tag hu ht]
    simp [ht]
  · have : isMemberB users tag u.Email = false := by
      unfold isMemberB
      rw [List.any_eq_false]
      intro v hv
      by_cases he : v.Email = u.Email
      · have := hall v hv he
        simp [this, ht]
      · simp [he]
    rw [this]
    simp [ht]

/-- C30: for a user record of the old list and a record of the new list with the same
email and the same inbound tags, `hotSyncUsers` issues no `AddUser` and no `RemoveUser`
call for that email on any of these tags, whatever the other fields of the two records
(UUID, password, flow, method, level) are; when the records of that email agree on the
inbound tags within each list (in particular when emails are unique), it issues no
`AddUser` and no `RemoveUser` call for that email on any tag at all. -/
theorem hotSyncUsers_ignores_credentials (m : Manager) (w : World)
    (old new : List UserConfig) (u u2 : UserConfig)
    (hu : u ∈ old) (hu2 : u2 ∈ new) (he : u2.Email = u.Email)
    (ht : u2.InboundTags = u.InboundTags) :
    (∀ tag ∈ u.InboundTags,
      (coreCalls (m.hotSyncUsers w old new).trace).countP
          (fun c => c.1.isAddFor tag u.Email) = 0
      ∧ (coreCalls (m.hotSyncUsers w old new).trace).countP
          (fun c => c.1.isRemoveFor tag u.Email) = 0)
    ∧ ((∀ v ∈ old, v.Email = u.Email → v.InboundTags = u.InboundTags) →
       (∀ v ∈ new, v.Email = u.Email → v.InboundTags = u.InboundTags) →
       ∀ tag,
        (coreCalls (m.hotSyncUsers w old new).trace).countP
            (fun c => c.1.isAddFor tag u.Email) = 0
        ∧ (coreCalls (m.hotSyncUsers w old new).trace).countP
            (fun c => c.1.isRemoveFor tag u.Email) = 0) := by
  have htr : (m.hotSyncUsers w old new).trace = hotSyncCalls w.coreCallOk old new := rfl
  rw [htr]
  refine ⟨?_, ?_⟩
  · intro tag htag
    have h1 : isMemberB old tag u.Email = true := isMemberB_of_mem old u tag hu htag
    have h2 : isMemberB new tag u.Email = true := by
      rw [← he]
      exact isMemberB_of_mem new u2 tag hu2 (ht ▸ htag)
    rw [hotSyncCalls_add_count, hotSyncCalls_remove_count, h1, h2]
    exact ⟨rfl, rfl⟩
  · intro hold hnew tag
    have h1 : isMemberB old tag u.Email = decide (tag ∈ u.InboundTags) :=
      isMemberB_same_tags old u tag hu hold
    have h2 : isMemberB new tag u.Email = decide (tag ∈ u.InboundTags) := by
      have := isMemberB_same_tags new u2 tag hu2
        (fun v hv hve => by rw [ht]; exact hnew v hv (hve.trans he))
      rw [he, ht] at this
      exact this
    rw [hotSyncCalls_add_count, hotSyncCalls_remove_count, h1, h2]
    cases decide (tag ∈ u.InboundTags) <;> exact ⟨rfl, rfl⟩

/-- Witness for C30: `a@x` gets a new UUID, a flow and another level while `b@x` is added;
the only core call is the `AddUser` of `b@x`. -/
theorem hotSyncUsers_ignores_credentials_witness :
    (∀ tag ∈ exUserA.InboundTags,
      (coreCalls (exManager.hotSyncUsers (exWorld [] []) [exUserA]
          [exUserARekeyed, exUserB]).trace).countP
          (fun c => c.1.isAddFor tag exUserA.Email) = 0
      ∧ (coreCalls (exManager.hotSyncUsers (exWorld [] []) [exUserA]
          [exUserARekeyed, exUserB]).trace).countP
          (fun c => c.1.isRemoveFor tag exUserA.Email) = 0)
    ∧ coreCalls (exManager.hotSyncUsers (exWorld [] []) [exUserA]
          [exUserARekeyed, exUserB]).trace
        = [(CoreCall.addUser "in0" exUserB, true)]
    ∧ exUserARekeyed.UUID ≠ exUserA.UUID :=
  ⟨(hotSyncUsers_ignores_credentials exManager (exWorld [] []) [exUserA]
      [exUserARekeyed, exUserB] exUserA exUserARekeyed (by decide) (by decide) rfl rfl).1,
    by decide, by decide⟩

/-! ## Claims about registration -/

theorem wrapInt64_of_range (n : Int) (h1 : -9223372036854775808 ≤ n)
    (h2 : n < 9223372036854775808) : wrapInt64 n = n := by
  unfold wrapInt64
  omega

/-- C26 (as stated, refuted): register succeeds with a config poll interval of
9223372037 seconds; the product with `time.Second` wraps around and the interval becomes
-9223372036709551616 ns, a negative duration, not 9223372037 s. -/
theorem register_interval_overflow :
    (Manager.register exClient exIntervals exRegisterRequest
        [.response 200 (some exRegisterResponseHuge)]).ok = true
    ∧ exRegisterResponseHuge.ConfigPollInterval > 0
    ∧ (Manager.register exClient exIntervals exRegisterRequest
        [.response 200 (some exRegisterResponseHuge)]).intervals.ConfigPoll
        = -9223372036709551616
    ∧ (Manager.register exClient exIntervals exRegisterRequest
        [.response 200 (some exRegisterResponseHuge)]).intervals.ConfigPoll
        ≠ 9223372037 * 1000000000 :=
  ⟨by decide, by decide, by decide, by decide⟩

/-- C26 (amended): after register succeeds, each of the five intervals is the `int64`
nanosecond product of the response's value with one second when that value is greater
than zero, which is that number of seconds for every value up to 9223372036, and keeps its
previous value when the response's value is zero or negative; each interval depends only
on its own response field and its own previous value. -/
theorem register_intervals (c : Client) (intervals : IntervalConfig) (req : RegisterRequest)
    (panel : List (RoundTrip RegisterResponse)) (resp : RegisterResponse)
    (h : (Register c req panel).result = .ok resp) :
    (Manager.register c intervals req panel).ok = true
    ∧ (Manager.register c intervals req panel).intervals.ConfigPoll
        = (if resp.ConfigPollInterval > 0 then secondsDuration resp.ConfigPollInterval
           else intervals.ConfigPoll)
    ∧ (Manager.register c intervals req panel).intervals.UserPoll
        = (if resp.UserPollInterval > 0 then secondsDuration resp.UserPollInterval
           else intervals.UserPoll)
    ∧ (Manager.register c intervals req panel).intervals.TrafficReport
        = (if resp.TrafficReportInterval > 0 then secondsDuration resp.TrafficReportInterval
           else intervals.TrafficReport)
    ∧ (Manager.register c intervals req panel).intervals.StatusReport
        = (if resp.StatusReportInterval > 0 then secondsDuration resp.StatusReportInterval
           else intervals.StatusReport)
    ∧ (Manager.register c intervals req panel).intervals.AlivePoll
        = (if resp.AlivePollInterval > 0 then secondsDuration resp.AlivePollInterval
           else intervals.AlivePoll)
    ∧ (∀ n : Int, 0 < n → n ≤ 9223372036 → secondsDuration n = n * 1000000000) := by
  have hsec : ∀ n : Int, 0 < n → n ≤ 9223372036 → secondsDuration n = n * 1000000000 := by
    intro n h0 h1
    unfold secondsDuration
    exact wrapInt64_of_range _ (by omega) (by omega)
  unfold Manager.register
  simp only [h]
  refine ⟨trivial, ?_, ?_, ?_, ?_, ?_, hsec⟩ <;>
    (split_ifs <;> rfl)

/-- Witness for C26 (amended): the response sets the config poll interval to 5 s and the
alive poll interval to 120 s; the other three intervals keep their defaults. -/
theorem register_intervals_witness :
    (Manager.register exClient exIntervals exRegisterRequest
        [.response 200 (some exRegisterResponse)]).intervals
      = { ConfigPoll := 5000000000, UserPoll := 30000000000, TrafficReport := 10000000000,
          StatusReport := 10000000000, AlivePoll := 120000000000 }
    ∧ (Manager.register exClient exIntervals exRegisterRequest
        [.response 200 (some exRegisterResponse)]).intervals.ConfigPoll
        = (if exRegisterResponse.ConfigPollInterval > 0 then
            secondsDuration exRegisterResponse.ConfigPollInterval
           else exIntervals.ConfigPoll) :=
  ⟨by decide,
    (register_intervals exClient exIntervals exRegisterRequest
      [.response 200 (some exRegisterResponse)] exRegisterResponse rfl).2.1⟩

/-! ## Properties of binary64 rounding -/

theorem log2_eq (q : ℚ) (e : ℤ) (h1 : (2 : ℚ) ^ e ≤ q) (h2 : q < (2 : ℚ) ^ (e + 1)) :
    Int.log 2 q = e := by
  have hq : 0 < q := lt_of_lt_of_le (by positivity) h1
  have hb : 1 < (2 : ℕ) := by decide
  have ha : e ≤ Int.log 2 q := by
    rw [← Int.zpow_le_iff_le_log hb hq]
    exact_mod_cast h1
  have hb2 : Int.log 2 q < e + 1 := by
    rw [← Int.lt_zpow_iff_log_lt hb hq]
    exact_mod_cast h2
  omega

theorem log2_bounds (q : ℚ) (hq : 0 < q) :
    (2 : ℚ) ^ Int.log 2 q ≤ q ∧ q < (2 : ℚ) ^ (Int.log 2 q + 1) := by
  have hb : 1 < (2 : ℕ) := by decide
  have h1 := Int.zpow_log_le_self hb hq
  have h2 := Int.lt_zpow_succ_log_self hb q
  exact ⟨by exact_mod_cast h1, by exact_mod_cast h2⟩

/-- The significand chosen by `roundFloat64` for a scaled magnitude `m`. -/
theorem roundFloat64_pos (q : ℚ) (hq : 0 < q) :
    roundFloat64 q
      = ((if q / (2 : ℚ) ^ (Int.log 2 q - 52) - (⌊q / (2 : ℚ) ^ (Int.log 2 q - 52)⌋ : ℤ) < 1 / 2
            then ⌊q / (2 : ℚ) ^ (Int.log 2 q - 52)⌋
          else if 1 / 2 < q / (2 : ℚ) ^ (Int.log 2 q - 52)
              - (⌊q / (2 : ℚ) ^ (Int.log 2 q - 52)⌋ : ℤ)
            then ⌊q / (2 : ℚ) ^ (Int.log 2 q - 52)⌋ + 1
          else if ⌊q / (2 : ℚ) ^ (Int.log 2 q - 52)⌋ % 2 = 0
            then ⌊q / (2 : ℚ) ^ (Int.log 2 q - 52)⌋
          else ⌊q / (2 : ℚ) ^ (Int.log 2 q - 52)⌋ + 1 : ℤ) : ℚ)
        * (2 : ℚ) ^ (Int.log 2 q - 52) := by
  unfold roundFloat64
  rw [if_neg (ne_of_gt hq), abs_of_pos hq]
  simp only
  rw [if_neg (not_lt.2 (le_of_lt hq))]

theorem roundFloat64_nonneg (q : ℚ) (hq : 0 ≤ q) : 0 ≤ roundFloat64 q := by
  rcases eq_or_lt_of_le hq with h | h
  · rw [← h]
    simp [roundFloat64]
  · rw [roundFloat64_pos q h]
    have hm : 0 ≤ q / (2 : ℚ) ^ (Int.log 2 q - 52) := by positivity
    have hf : 0 ≤ ⌊q / (2 : ℚ) ^ (Int.log 2 q - 52)⌋ := Int.floor_nonneg.2 hm
    apply mul_nonneg
    · have : (0 : ℤ) ≤ (if q / (2 : ℚ) ^ (Int.log 2 q - 52)
            - (⌊q / (2 : ℚ) ^ (Int.log 2 q - 52)⌋ : ℤ) < 1 / 2
            then ⌊q / (2 : ℚ) ^ (Int.log 2 q - 52)⌋
          else if 1 / 2 < q / (2 : ℚ) ^ (Int.log 2 q - 52)
              - (⌊q / (2 : ℚ) ^ (Int.log 2 q - 52)⌋ : ℤ)
            then ⌊q / (2 : ℚ) ^ (Int.log 2 q - 52)⌋ + 1
          else if ⌊q / (2 : ℚ) ^ (Int.log 2 q - 52)⌋ % 2 = 0
            then ⌊q / (2 : ℚ) ^ (Int.log 2 q - 52)⌋
          else ⌊q / (2 : ℚ) ^ (Int.log 2 q - 52)⌋ + 1) := by
        split_ifs <;> omega
      exact_mod_cast this
    · positivity

/-- A magnitude whose scaled value is an integer is representable: rounding keeps it. -/
theorem roundFloat64_exact (q : ℚ) (hq : 0 < q) (z : ℤ)
    (hz : q / (2 : ℚ) ^ (Int.log 2 q - 52) = z) : roundFloat64 q = q := by
  rw [roundFloat64_pos q hq, hz, Int.floor_intCast]
  simp only [sub_self]
  rw [if_pos (by norm_num)]
  rw [← hz]
  have : (2 : ℚ) ^ (Int.log 2 q - 52) ≠ 0 := by positivity
  field_simp

theorem roundFloat64_zpow (k : ℤ) : roundFloat64 ((2 : ℚ) ^ k) = (2 : ℚ) ^ k := by
  have hq : (0 : ℚ) < (2 : ℚ) ^ k := by positivity
  have hlog : Int.log 2 ((2 : ℚ) ^ k) = k :=
    log2_eq _ k (le_refl _) (by rw [zpow_add_one₀ (by norm_num)]; linarith)
  apply roundFloat64_exact _ hq (2 ^ 52)
  rw [hlog, zpow_sub₀ (by norm_num)]
  have : (2 : ℚ) ^ k ≠ 0 := by positivity
  field_simp
  norm_cast

/-- Integers of magnitude below 2^53 are representable. -/
theorem float64OfInt_exact (n : ℤ) (h0 : 0 < n) (h1 : n < 9007199254740992) :
    float64OfInt n = n := by
  unfold float64OfInt
  have hq : (0 : ℚ) < (n : ℚ) := by exact_mod_cast h0
  obtain ⟨hl1, hl2⟩ := log2_bounds (n : ℚ) hq
  have he : Int.log 2 (n : ℚ) ≤ 52 := by
    by_contra hcon
    have h53 : (53 : ℤ) ≤ Int.log 2 (n : ℚ) := by omega
    have : (2 : ℚ) ^ (53 : ℤ) ≤ (2 : ℚ) ^ Int.log 2 (n : ℚ) :=
      zpow_le_zpow_right₀ (by norm_num) h53
    have hn : (n : ℚ) < 9007199254740992 := by exact_mod_cast h1
    norm_num at this
    linarith
  obtain ⟨d, hd⟩ : ∃ d : ℕ, 52 - Int.log 2 (n : ℚ) = d := ⟨(52 - Int.log 2 (n : ℚ)).toNat, by omega⟩
  apply roundFloat64_exact _ hq (n * 2 ^ d)
  have hexp : Int.log 2 (n : ℚ) - 52 = -(d : ℤ) := by omega
  rw [hexp, zpow_neg, zpow_natCast]
  push_cast
  field_simp

/-- Rounding does not pass a power of two. -/
theorem roundFloat64_le_zpow (q : ℚ) (hq : 0 < q) (k : ℤ) (hk : q ≤ (2 : ℚ) ^ k) :
    roundFloat64 q ≤ (2 : ℚ) ^ k := by
  obtain ⟨hl1, hl2⟩ := log2_bounds q hq
  have he : Int.log 2 q ≤ k := by
    by_contra hcon
    have : (2 : ℚ) ^ (k + 1) ≤ (2 : ℚ) ^ Int.log 2 q :=
      zpow_le_zpow_right₀ (by norm_num) (by omega)
    have h2 : (2 : ℚ) ^ k < (2 : ℚ) ^ (k + 1) := zpow_lt_zpow_right₀ (by norm_num) (by omega)
    linarith
  rcases eq_or_lt_of_le he with heq | hlt
  · have hqk : q = (2 : ℚ) ^ k := le_antisymm hk (heq ▸ hl1)
    rw [hqk, roundFloat64_zpow]
  · rw [roundFloat64_pos q hq]
    set e := Int.log 2 q with he_def
    have hulp : (0 : ℚ) < (2 : ℚ) ^ (e - 52) := by positivity
    have hm : q / (2 : ℚ) ^ (e - 52) < (2 : ℚ) ^ (53 : ℤ) := by
      rw [div_lt_iff₀ hulp, ← zpow_add₀ (by norm_num)]
      have : (53 : ℤ) + (e - 52) = e + 1 := by ring
      rw [this]
      exact hl2
    have hfl : ⌊q / (2 : ℚ) ^ (e - 52)⌋ < 9007199254740992 := by
      rw [Int.floor_lt]
      norm_num at hm
      exact_mod_cast hm
    have hn : (if q / (2 : ℚ) ^ (e - 52) - (⌊q / (2 : ℚ) ^ (e - 52)⌋ : ℤ) < 1 / 2
          then ⌊q / (2 : ℚ) ^ (e - 52)⌋
        else if 1 / 2 < q / (2 : ℚ) ^ (e - 52) - (⌊q / (2 : ℚ) ^ (e - 52)⌋ : ℤ)
          then ⌊q / (2 : ℚ) ^ (e - 52)⌋ + 1
        else if ⌊q / (2 : ℚ) ^ (e - 52)⌋ % 2 = 0 then ⌊q / (2 : ℚ) ^ (e - 52)⌋
        else ⌊q / (2 : ℚ) ^ (e - 52)⌋ + 1) ≤ (9007199254740992 : ℤ) := by
      split_ifs <;> omega
    have hn2 : ((if q / (2 : ℚ) ^ (e - 52) - (⌊q / (2 : ℚ) ^ (e - 52)⌋ : ℤ) < 1 / 2
          then ⌊q / (2 : ℚ) ^ (e - 52)⌋
        else if 1 / 2 < q / (2 : ℚ) ^ (e - 52) - (⌊q / (2 : ℚ) ^ (e - 52)⌋ : ℤ)
          then ⌊q / (2 : ℚ) ^ (e - 52)⌋ + 1
        else if ⌊q / (2 : ℚ) ^ (e - 52)⌋ % 2 = 0 then ⌊q / (2 : ℚ) ^ (e - 52)⌋
        else ⌊q / (2 : ℚ) ^ (e - 52)⌋ + 1 : ℤ) : ℚ) ≤ (2 : ℚ) ^ (53 : ℤ) := by
      have h53 : (2 : ℚ) ^ (53 : ℤ) = ((9007199254740992 : ℤ) : ℚ) := by norm_num
      rw [h53]
      exact Int.cast_le.2 hn
    calc _ ≤ (2 : ℚ) ^ (53 : ℤ) * (2 : ℚ) ^ (e - 52) :=
          mul_le_mul_of_nonneg_right hn2 (le_of_lt hulp)
      _ = (2 : ℚ) ^ (e + 1) := by
          rw [← zpow_add₀ (by norm_num)]
          congr 1
          ring
      _ ≤ (2 : ℚ) ^ k := zpow_le_zpow_right₀ (by norm_num) (by omega)

/-! ## Properties of the rate computation -/

theorem foldl_gmSet_get {α : Type} (key : α → String) (l : List α) (m : List (String × α))
    (k : String) :
    gmGet (l.foldl (fun m x => gmSet m (key x) x) m) k
      = (((l.filter (fun x => key x == k)).getLast?).orElse fun _ => gmGet m k) := by
  induction l using List.reverseRecOn generalizing m with
  | nil => simp
  | append_singleton l x ih =>
    rw [List.foldl_append, List.foldl_cons, List.foldl_nil, gmGet_gmSet, ih,
      getLast?_filter_cons_append]
    by_cases h : key x = k
    · subst h
      simp
    · have h2 : ¬ k = key x := fun e => h e.symm
      simp [h, h2]

theorem lastUserMap_get (users : List UserTraffic) (email : String) :
    gmGet (users.foldl (fun m u => gmSet m u.Email u) []) email = lastSample users email := by
  rw [foldl_gmSet_get (fun u : UserTraffic => u.Email)]
  unfold lastSample
  cases ((users.filter (fun u => u.Email == email)).getLast?) <;> simp [gmGet_nil]

theorem int64OfFloat64_nonneg (arch : Arch) (x : ℚ) (h0 : 0 ≤ x) (h1 : x ≤ (2 : ℚ) ^ (62 : ℤ)) :
    0 ≤ int64OfFloat64 arch x := by
  unfold int64OfFloat64
  simp only [h0, if_true]
  have hf0 : 0 ≤ ⌊x⌋ := Int.floor_nonneg.2 h0
  have hf1 : ⌊x⌋ < 9223372036854775808 := by
    rw [Int.floor_lt]
    have : (2 : ℚ) ^ (62 : ℤ) < ((9223372036854775808 : ℤ) : ℚ) := by norm_num
    linarith
  rw [if_pos ⟨by omega, hf1⟩]
  exact hf0

theorem int64OfFloat64_arm64_nonneg (x : ℚ) (h0 : 0 ≤ x) : 0 ≤ int64OfFloat64 .arm64 x := by
  unfold int64OfFloat64
  simp only [h0, if_true]
  have hf0 : 0 ≤ ⌊x⌋ := Int.floor_nonneg.2 h0
  split
  · exact hf0
  · rw [if_neg (not_lt.2 h0)]
    decide

theorem float64Div_nonneg (x y : ℚ) (hx : 0 ≤ x) (hy : 0 < y) : 0 ≤ float64Div x y :=
  roundFloat64_nonneg _ (div_nonneg hx (le_of_lt hy))

theorem float64OfInt_nonneg (n : ℤ) (h : 0 ≤ n) : 0 ≤ float64OfInt n :=
  roundFloat64_nonneg _ (by exact_mod_cast h)

theorem clippedRate_nonneg (arch : Arch) (delta : Int) (elapsed : ℚ) (hel : 1 ≤ elapsed)
    (hd : delta ≤ 4611686018427387904) : 0 ≤ clippedRate arch delta elapsed := by
  unfold clippedRate
  split
  · rename_i hpos
    have hq : (0 : ℚ) < (delta : ℚ) := by exact_mod_cast hpos
    have hdq : (delta : ℚ) ≤ (2 : ℚ) ^ (62 : ℤ) := by
      have : (delta : ℚ) ≤ ((4611686018427387904 : ℤ) : ℚ) := Int.cast_le.2 hd
      norm_num at this ⊢
      exact this
    have h1 : float64OfInt delta ≤ (2 : ℚ) ^ (62 : ℤ) := roundFloat64_le_zpow _ hq 62 hdq
    have h0 : 0 ≤ float64OfInt delta := float64OfInt_nonneg delta (le_of_lt hpos)
    have hel0 : (0 : ℚ) < elapsed := lt_of_lt_of_le (by norm_num) hel
    have hquot : float64OfInt delta / elapsed ≤ (2 : ℚ) ^ (62 : ℤ) := by
      rw [div_le_iff₀ hel0]
      have hp : (0 : ℚ) ≤ (2 : ℚ) ^ (62 : ℤ) := by positivity
      nlinarith
    have hx0 : 0 ≤ float64Div (float64OfInt delta) elapsed := float64Div_nonneg _ _ h0 hel0
    have hx1 : float64Div (float64OfInt delta) elapsed ≤ (2 : ℚ) ^ (62 : ℤ) := by
      unfold float64Div
      rcases eq_or_lt_of_le (div_nonneg h0 (le_of_lt hel0)) with hz | hp
      · rw [← hz]
        simp only [roundFloat64, if_true]
        positivity
      · exact roundFloat64_le_zpow _ hp 62 hquot
    exact int64OfFloat64_nonneg arch _ hx0 hx1
  · exact le_refl _

theorem clippedRate_arm64_nonneg (delta : Int) (elapsed : ℚ) (hel : 0 < elapsed) :
    0 ≤ clippedRate .arm64 delta elapsed := by
  unfold clippedRate
  split
  · rename_i hpos
    exact int64OfFloat64_arm64_nonneg _
      (float64Div_nonneg _ _ (float64OfInt_nonneg delta (le_of_lt hpos)) hel)
  · exact le_refl _

theorem float64OfInt_maxInt64 :
    float64OfInt 9223372036854775807 = 9223372036854775808 := by
  unfold float64OfInt
  have hq : (0 : ℚ) < ((9223372036854775807 : ℤ) : ℚ) := by norm_num
  have hlog : Int.log 2 (((9223372036854775807 : ℤ) : ℚ)) = 62 :=
    log2_eq _ 62 (by norm_num) (by norm_num)
  rw [roundFloat64_pos _ hq, hlog]
  have hfl : ⌊((9223372036854775807 : ℤ) : ℚ) / (2 : ℚ) ^ ((62 : ℤ) - 52)⌋
      = 9007199254740991 := by
    rw [Int.floor_eq_iff]
    constructor <;> norm_num
  rw [hfl]
  norm_num

theorem float64Div_one (x : ℚ) : float64Div x 1 = roundFloat64 x := by
  unfold float64Div
  rw [div_one]

theorem clippedRate_maxInt64_amd64 :
    clippedRate .amd64 9223372036854775807 1 = -9223372036854775808 := by
  unfold clippedRate
  rw [if_pos (by decide), float64OfInt_maxInt64, float64Div_one]
  have h : roundFloat64 9223372036854775808 = 9223372036854775808 := by
    have := roundFloat64_zpow 63
    norm_num at this
    exact this
  rw [h]
  unfold int64OfFloat64
  norm_num

theorem calculateUserRates_eq (arch : Arch) (c : XrayCollector) (prev : TrafficStats)
    (hprev : c.lastStats = some prev) (userMap : List (String × UserTraffic)) (elapsed : ℚ) :
    c.calculateUserRates arch userMap elapsed
      = userMap.map (fun kv =>
          match lastSample prev.Users kv.1 with
          | some last =>
            (kv.1,
              { Email := kv.2.Email, Upload := kv.2.Upload, Download := kv.2.Download,
                UploadRate :=
                  if wrapInt64 (kv.2.Upload - last.Upload) > 0 then
                    clippedRate arch (wrapInt64 (kv.2.Upload - last.Upload)) elapsed
                  else kv.2.UploadRate,
                DownloadRate :=
                  if wrapInt64 (kv.2.Download - last.Download) > 0 then
                    clippedRate arch (wrapInt64 (kv.2.Download - last.Download)) elapsed
                  else kv.2.DownloadRate })
          | none => kv) := by
  unfold XrayCollector.calculateUserRates
  rw [hprev]
  simp only
  apply List.map_congr_left
  intro kv _
  rw [lastUserMap_get]
  cases lastSample prev.Users kv.1 with
  | none => rfl
  | some last =>
    simp only [clippedRate]
    by_cases h1 : wrapInt64 (kv.2.Upload - last.Upload) > 0 <;>
      by_cases h2 : wrapInt64 (kv.2.Download - last.Download) > 0 <;>
      simp [h1, h2]

theorem wrapInt64_sub (a b : Int) (ha0 : 0 ≤ a) (ha1 : a < 9223372036854775808)
    (hb0 : 0 ≤ b) (hb1 : b < 9223372036854775808) : wrapInt64 (a - b) = a - b :=
  wrapInt64_of_range _ (by omega) (by omega)

theorem durationSeconds_one_second : durationSeconds (timeSub 1000000000 0) = 1 := by
  have h1 : timeSub 1000000000 0 = 1000000000 := by decide
  have h2 : (1000000000 : Int).tdiv 1000000000 = 1 := by decide
  have h3 : (1000000000 : Int).tmod 1000000000 = 0 := by decide
  have h4 : roundFloat64 1 = 1 := by
    have := roundFloat64_zpow 0
    simpa using this
  have h0 : roundFloat64 0 = 0 := by
    unfold roundFloat64
    rw [if_pos rfl]
  rw [h1]
  unfold durationSeconds float64Add float64Div float64OfInt
  rw [h2, h3]
  simp only [Int.cast_one, Int.cast_zero, zero_div, h0, add_zero, h4]

/-! ## Properties of the stats aggregator -/

theorem entryOr_bumpCounter {τ : Type} (mk : String → τ) (su sd : τ → Int → τ)
    (m : List (String × τ)) (name direction : String) (value : Int) (k : String) :
    entryOr mk (bumpCounter mk su sd m name direction value) k
      = if direction = "uplink" then
          (if k = name then su (entryOr mk m name) value else entryOr mk m k)
        else if direction = "downlink" then
          (if k = name then sd (entryOr mk m name) value else entryOr mk m k)
        else entryOr mk m k := by
  have hbase : ∀ k2, entryOr mk (if (gmGet m name).isNone then gmSet m name (mk name) else m) k2
      = entryOr mk m k2 := by
    intro k2
    unfold entryOr
    cases hg : gmGet m name with
    | none =>
      simp only [Option.isNone_none, if_true, gmGet_gmSet]
      by_cases hk : k2 = name
      · rw [if_pos hk, hk, hg]
        rfl
      · rw [if_neg hk]
    | some v => simp only [Option.isNone_some, Bool.false_eq_true, if_false]
  unfold bumpCounter
  simp only
  have hcur : (gmGet (if (gmGet m name).isNone then gmSet m name (mk name) else m) name).getD
      (mk name) = entryOr mk m name := hbase name
  rw [hcur]
  by_cases hu : direction = "uplink"
  · rw [if_pos hu, if_pos hu]
    unfold entryOr
    rw [gmGet_gmSet]
    by_cases hk : k = name
    · rw [if_pos hk, if_pos hk]
      rfl
    · rw [if_neg hk, if_neg hk]
      exact hbase k
  · rw [if_neg hu, if_neg hu]
    by_cases hd : direction = "downlink"
    · rw [if_pos hd, if_pos hd]
      unfold entryOr
      rw [gmGet_gmSet]
      by_cases hk : k = name
      · rw [if_pos hk, if_pos hk]
        rfl
      · rw [if_neg hk, if_neg hk]
        exact hbase k
    · rw [if_neg hd, if_neg hd]
      exact hbase k

theorem bumpCounter_nodup {τ : Type} (mk : String → τ) (su sd : τ → Int → τ)
    (m : List (String × τ)) (name direction : String) (value : Int)
    (h : (gmKeys m).Nodup) : (gmKeys (bumpCounter mk su sd m name direction value)).Nodup := by
  have hbase : (gmKeys (if (gmGet m name).isNone then gmSet m name (mk name) else m)).Nodup := by
    split
    · exact gmKeys_gmSet_nodup _ _ _ h
    · exact h
  unfold bumpCounter
  simp only
  split
  · exact gmKeys_gmSet_nodup _ _ _ hbase
  · split
    · exact gmKeys_gmSet_nodup _ _ _ hbase
    · exact hbase

theorem statStep_nodup (maps : StatMaps) (stat : String × Int)
    (h : (gmKeys maps.userMap).Nodup ∧ (gmKeys maps.inboundMap).Nodup
      ∧ (gmKeys maps.outboundMap).Nodup) :
    (gmKeys (statStep maps stat).userMap).Nodup ∧ (gmKeys (statStep maps stat).inboundMap).Nodup
      ∧ (gmKeys (statStep maps stat).outboundMap).Nodup := by
  unfold statStep
  split
  · split
    · exact h
    · split
      · exact ⟨by dsimp only; exact bumpCounter_nodup _ _ _ _ _ _ _ h.1, h.2.1, h.2.2⟩
      · split
        · exact ⟨h.1, by dsimp only; exact bumpCounter_nodup _ _ _ _ _ _ _ h.2.1, h.2.2⟩
        · split
          · exact ⟨h.1, h.2.1, by dsimp only; exact bumpCounter_nodup _ _ _ _ _ _ _ h.2.2⟩
          · exact h
  · exact h

theorem statFold_nodup (stats : List (String × Int)) (maps : StatMaps)
    (h : (gmKeys maps.userMap).Nodup ∧ (gmKeys maps.inboundMap).Nodup
      ∧ (gmKeys maps.outboundMap).Nodup) :
    (gmKeys (stats.foldl statStep maps).userMap).Nodup
      ∧ (gmKeys (stats.foldl statStep maps).inboundMap).Nodup
      ∧ (gmKeys (stats.foldl statStep maps).outboundMap).Nodup := by
  induction stats generalizing maps with
  | nil => exact h
  | cons s rest ih =>
    rw [List.foldl_cons]
    exact ih _ (statStep_nodup maps s h)

theorem statStep_of_split (maps : StatMaps) (stat : String × Int)
    (category name statType direction : String) (tail : List String)
    (h : stringsSplit stat.1 ">>>" = category :: name :: statType :: direction :: tail) :
    statStep maps stat
      = if statType ≠ "traffic" then maps
        else if category = "user" then
          { maps with
            userMap := bumpCounter UserTraffic.new (fun u v => { u with Upload := v })
              (fun u v => { u with Download := v }) maps.userMap name direction stat.2 }
        else if category = "inbound" then
          { maps with
            inboundMap := bumpCounter InboundTraffic.new (fun u v => { u with Upload := v })
              (fun u v => { u with Download := v }) maps.inboundMap name direction stat.2 }
        else if category = "outbound" then
          { maps with
            outboundMap := bumpCounter OutboundTraffic.new (fun u v => { u with Upload := v })
              (fun u v => { u with Download := v }) maps.outboundMap name direction stat.2 }
        else maps := by
  unfold statStep
  rw [h]

theorem statStep_of_short (maps : StatMaps) (stat : String × Int)
    (h : ¬ ∃ category name statType direction tail,
      stringsSplit stat.1 ">>>" = category :: name :: statType :: direction :: tail) :
    statStep maps stat = maps := by
  unfold statStep
  split
  · rename_i category name statType direction tail heq
    exact absurd ⟨category, name, statType, direction, tail, heq⟩ h
  · rfl

theorem scopeStep_of_split {τ : Type} (su sd : τ → Int → τ) (scope : String) (g : String → τ)
    (stat : String × Int) (category name statType direction : String) (tail : List String)
    (h : stringsSplit stat.1 ">>>" = category :: name :: statType :: direction :: tail) :
    scopeStep su sd scope g stat
      = if statType = "traffic" ∧ category = scope then
          if direction = "uplink" then
            fun k => if k = name then su (g name) stat.2 else g k
          else if direction = "downlink" then
            fun k => if k = name then sd (g name) stat.2 else g k
          else g
        else g := by
  unfold scopeStep
  rw [h]

theorem scopeStep_of_short {τ : Type} (su sd : τ → Int → τ) (scope : String) (g : String → τ)
    (stat : String × Int)
    (h : ¬ ∃ category name statType direction tail,
      stringsSplit stat.1 ">>>" = category :: name :: statType :: direction :: tail) :
    scopeStep su sd scope g stat = g := by
  unfold scopeStep
  split
  · rename_i category name statType direction tail heq
    exact absurd ⟨category, name, statType, direction, tail, heq⟩ h
  · rfl

theorem entryOr_bump_eq {τ : Type} (mk : String → τ) (su sd : τ → Int → τ)
    (m : List (String × τ)) (name direction : String) (value : Int) :
    entryOr mk (bumpCounter mk su sd m name direction value)
      = if direction = "uplink" then
          fun k => if k = name then su (entryOr mk m name) value else entryOr mk m k
        else if direction = "downlink" then
          fun k => if k = name then sd (entryOr mk m name) value else entryOr mk m k
        else entryOr mk m := by
  funext k
  rw [entryOr_bumpCounter]
  by_cases hu : direction = "uplink"
  · rw [if_pos hu, if_pos hu]
  · rw [if_neg hu, if_neg hu]
    by_cases hd : direction = "downlink"
    · rw [if_pos hd, if_pos hd]
    · rw [if_neg hd, if_neg hd]

theorem statStep_userMap (maps : StatMaps) (stat : String × Int) :
    entryOr UserTraffic.new (statStep maps stat).userMap
      = scopeStep (fun (u : UserTraffic) v => { u with Upload := v })
          (fun u v => { u with Download := v }) "user"
          (entryOr UserTraffic.new maps.userMap) stat := by
  by_cases hex : ∃ category name statType direction tail,
      stringsSplit stat.1 ">>>" = category :: name :: statType :: direction :: tail
  · obtain ⟨category, name, statType, direction, tail, h⟩ := hex
    rw [statStep_of_split maps stat _ _ _ _ _ h, scopeStep_of_split _ _ _ _ stat _ _ _ _ _ h]
    by_cases ht : statType = "traffic"
    · by_cases hc : category = "user"
      · simp only [ht, hc, ne_eq, not_true_eq_false, if_false, if_true, and_self]
        rw [entryOr_bump_eq]
      · simp only [ht, hc, ne_eq, not_true_eq_false, if_false, and_false]
        split_ifs <;> rfl
    · simp only [ht, ne_eq, not_false_eq_true, if_true, false_and, if_false]
  · rw [statStep_of_short maps stat hex, scopeStep_of_short _ _ _ _ stat hex]

theorem statStep_inboundMap (maps : StatMaps) (stat : String × Int) :
    entryOr InboundTraffic.new (statStep maps stat).inboundMap
      = scopeStep (fun (u : InboundTraffic) v => { u with Upload := v })
          (fun u v => { u with Download := v }) "inbound"
          (entryOr InboundTraffic.new maps.inboundMap) stat := by
  by_cases hex : ∃ category name statType direction tail,
      stringsSplit stat.1 ">>>" = category :: name :: statType :: direction :: tail
  · obtain ⟨category, name, statType, direction, tail, h⟩ := hex
    rw [statStep_of_split maps stat _ _ _ _ _ h, scopeStep_of_split _ _ _ _ stat _ _ _ _ _ h]
    by_cases ht : statType = "traffic"
    · by_cases hc : category = "inbound"
      · have hcu : ¬ ("inbound" : String) = "user" := by decide
        simp only [ht, hc, hcu, ne_eq, not_true_eq_false, if_false, if_true, and_self]
        rw [entryOr_bump_eq]
      · simp only [ht, hc, ne_eq, not_true_eq_false, if_false, and_false]
        split_ifs <;> rfl
    · simp only [ht, ne_eq, not_false_eq_true, if_true, false_and, if_false]
  · rw [statStep_of_short maps stat hex, scopeStep_of_short _ _ _ _ stat hex]

theorem statStep_outboundMap (maps : StatMaps) (stat : String × Int) :
    entryOr OutboundTraffic.new (statStep maps stat).outboundMap
      = scopeStep (fun (u : OutboundTraffic) v => { u with Upload := v })
          (fun u v => { u with Download := v }) "outbound"
          (entryOr OutboundTraffic.new maps.outboundMap) stat := by
  by_cases hex : ∃ category name statType direction tail,
      stringsSplit stat.1 ">>>" = category :: name :: statType :: direction :: tail
  · obtain ⟨category, name, statType, direction, tail, h⟩ := hex
    rw [statStep_of_split maps stat _ _ _ _ _ h, scopeStep_of_split _ _ _ _ stat _ _ _ _ _ h]
    by_cases ht : statType = "traffic"
    · by_cases hc : category = "outbound"
      · have hcu : ¬ ("outbound" : String) = "user" := by decide
        have hci : ¬ ("outbound" : String) = "inbound" := by decide
        simp only [ht, hc, hcu, hci, ne_eq, not_true_eq_false, if_false, if_true, and_self]
        rw [entryOr_bump_eq]
      · simp only [ht, hc, ne_eq, not_true_eq_false, if_false, and_false]
        split_ifs <;> rfl
    · simp only [ht, ne_eq, not_false_eq_true, if_true, false_and, if_false]
  · rw [statStep_of_short maps stat hex, scopeStep_of_short _ _ _ _ stat hex]

theorem statFold_userMap (stats : List (String × Int)) (maps : StatMaps) :
    entryOr UserTraffic.new (stats.foldl statStep maps).userMap
      = stats.foldl (scopeStep (fun (u : UserTraffic) v => { u with Upload := v })
          (fun u v => { u with Download := v }) "user") (entryOr UserTraffic.new maps.userMap) := by
  induction stats generalizing maps with
  | nil => rfl
  | cons s rest ih => rw [List.foldl_cons, List.foldl_cons, ih, statStep_userMap]

theorem statFold_inboundMap (stats : List (String × Int)) (maps : StatMaps) :
    entryOr InboundTraffic.new (stats.foldl statStep maps).inboundMap
      = stats.foldl (scopeStep (fun (u : InboundTraffic) v => { u with Upload := v })
          (fun u v => { u with Download := v }) "inbound")
          (entryOr InboundTraffic.new maps.inboundMap) := by
  induction stats generalizing maps with
  | nil => rfl
  | cons s rest ih => rw [List.foldl_cons, List.foldl_cons, ih, statStep_inboundMap]

theorem statFold_outboundMap (stats : List (String × Int)) (maps : StatMaps) :
    entryOr OutboundTraffic.new (stats.foldl statStep maps).outboundMap
      = stats.foldl (scopeStep (fun (u : OutboundTraffic) v => { u with Upload := v })
          (fun u v => { u with Download := v }) "outbound")
          (entryOr OutboundTraffic.new maps.outboundMap) := by
  induction stats generalizing maps with
  | nil => rfl
  | cons s rest ih => rw [List.foldl_cons, List.foldl_cons, ih, statStep_outboundMap]

/-- A counter whose name does not lead with the counter shape changes no entry of any
scope. -/
theorem scopeStep_skip {τ : Type} (su sd : τ → Int → τ) (scope : String)
    (hscope : scope = "user" ∨ scope = "inbound" ∨ scope = "outbound") (g : String → τ)
    (stat : String × Int) (h : leadsWithCounterShape stat.1 = false) :
    scopeStep su sd scope g stat = g := by
  by_cases hex : ∃ category name statType direction tail,
      stringsSplit stat.1 ">>>" = category :: name :: statType :: direction :: tail
  · obtain ⟨category, name, statType, direction, tail, hsp⟩ := hex
    rw [scopeStep_of_split _ _ _ _ stat _ _ _ _ _ hsp]
    unfold leadsWithCounterShape at h
    rw [hsp] at h
    simp only [Bool.and_eq_false_imp, Bool.and_eq_true, Bool.or_eq_true, beq_iff_eq,
      Bool.or_eq_false_iff, beq_eq_false_iff_ne, ne_eq] at h
    by_cases hc : statType = "traffic" ∧ category = scope
    · rw [if_pos hc]
      have hcat : category = "user" ∨ category = "inbound" ∨ category = "outbound" := by
        rw [hc.2]
        exact hscope
      have hd := h ⟨by tauto, hc.1⟩
      rw [if_neg hd.1, if_neg hd.2]
    · rw [if_neg hc]
  · exact scopeStep_of_short _ _ _ _ stat hex

theorem foldl_filter_skip {α β : Type} (f : β → α → β) (p : α → Bool)
    (hskip : ∀ g x, p x = false → f g x = g) (l : List α) (g : β) :
    (l.filter p).foldl f g = l.foldl f g := by
  induction l generalizing g with
  | nil => rfl
  | cons x l ih =>
    cases hp : p x
    · rw [List.filter_cons_of_neg (by simp [hp]), List.foldl_cons, hskip g x hp]
      exact ih g
    · rw [List.filter_cons_of_pos hp, List.foldl_cons, List.foldl_cons]
      exact ih _

/-- Two maps with the same entries up to absent fresh records hold the same samples that
pass the output filter. -/
theorem filter_perm_of_entryOr {τ : Type} (mk : String → τ) (pos : τ → Bool)
    (hmk : ∀ k, pos (mk k) = false) (m1 m2 : List (String × τ))
    (h1 : (gmKeys m1).Nodup) (h2 : (gmKeys m2).Nodup)
    (h : entryOr mk m1 = entryOr mk m2) :
    (m1.filter (fun kv => pos kv.2)).Perm (m2.filter (fun kv => pos kv.2)) := by
  classical
  have hmem : ∀ (m : List (String × τ)), (gmKeys m).Nodup → ∀ (kv : String × τ),
      kv ∈ m.filter (fun kv => pos kv.2) ↔ (entryOr mk m kv.1 = kv.2 ∧ pos kv.2 = true) := by
    intro m hm kv
    rw [List.mem_filter]
    constructor
    · rintro ⟨hin, hp⟩
      refine ⟨?_, hp⟩
      unfold entryOr
      rw [gmGet_of_mem m hm kv.1 kv.2 hin]
      rfl
    · rintro ⟨he, hp⟩
      refine ⟨?_, hp⟩
      unfold entryOr at he
      cases hg : gmGet m kv.1 with
      | none =>
        rw [hg] at he
        simp only [Option.getD_none] at he
        rw [← he, hmk] at hp
        exact absurd hp (by decide)
      | some v =>
        rw [hg] at he
        simp only [Option.getD_some] at he
        have := gmGet_some_mem m kv.1 v hg
        rw [he] at this
        exact this
  have hn1 : (m1.filter (fun kv => pos kv.2)).Nodup :=
    (List.Nodup.of_map _ h1).filter _
  have hn2 : (m2.filter (fun kv => pos kv.2)).Nodup :=
    (List.Nodup.of_map _ h2).filter _
  rw [List.perm_ext_iff_of_nodup hn1 hn2]
  intro kv
  rw [hmem m1 h1 kv, hmem m2 h2 kv, h]

/-- The snapshot returned by `QueryStats`: the parsed maps, the user map after the rate
computation `h` (which keeps keys and counters), filtered and flattened. -/
theorem QueryStats_some (arch : Arch) (c : XrayCollector) (now : Int) :
    ∃ h : String × UserTraffic → String × UserTraffic,
      (∀ kv, (h kv).2.Upload = kv.2.Upload ∧ (h kv).2.Download = kv.2.Download)
      ∧ ∀ stats : List (String × Int),
        (c.QueryStats arch now (some stats)).1
          = some
            { Users :=
                ((((stats.foldl statStep (StatMaps.mk [] [] [])).userMap.map h).filter
                  (fun kv => decide (kv.2.Upload > 0 ∨ kv.2.Download > 0))).map Prod.snd)
              Inbounds :=
                (((stats.foldl statStep (StatMaps.mk [] [] [])).inboundMap.filter
                  (fun kv => decide (kv.2.Upload > 0 ∨ kv.2.Download > 0))).map Prod.snd)
              Outbounds :=
                (((stats.foldl statStep (StatMaps.mk [] [] [])).outboundMap.filter
                  (fun kv => decide (kv.2.Upload > 0 ∨ kv.2.Download > 0))).map Prod.snd)
              Timestamp := now / 1000000000 } := by
  have hid : ∀ (h : String × UserTraffic → String × UserTraffic),
      (∀ stats : List (String × Int),
        (match c.lastStats, c.lastQueryTime with
          | some _, some lastQueryTime =>
            if durationSeconds (timeSub now lastQueryTime) > 0 then
              c.calculateUserRates arch
                (stats.foldl statStep (StatMaps.mk [] [] [])).userMap
                (durationSeconds (timeSub now lastQueryTime))
            else (stats.foldl statStep (StatMaps.mk [] [] [])).userMap
          | _, _ => (stats.foldl statStep (StatMaps.mk [] [] [])).userMap)
        = (stats.foldl statStep (StatMaps.mk [] [] [])).userMap.map h) →
      ∀ stats : List (String × Int),
        (c.QueryStats arch now (some stats)).1
          = some
            { Users :=
                ((((stats.foldl statStep (StatMaps.mk [] [] [])).userMap.map h).filter
                  (fun kv => decide (kv.2.Upload > 0 ∨ kv.2.Download > 0))).map Prod.snd)
              Inbounds :=
                (((stats.foldl statStep (StatMaps.mk [] [] [])).inboundMap.filter
                  (fun kv => decide (kv.2.Upload > 0 ∨ kv.2.Download > 0))).map Prod.snd)
              Outbounds :=
                (((stats.foldl statStep (StatMaps.mk [] [] [])).outboundMap.filter
                  (fun kv => decide (kv.2.Upload > 0 ∨ kv.2.Download > 0))).map Prod.snd)
              Timestamp := now / 1000000000 } := by
    intro h hh stats
    unfold XrayCollector.QueryStats
    simp only
    rw [hh stats]
    rw [foldl_ite_append (fun (kv : String × UserTraffic) => kv.2.Upload > 0 ∨ kv.2.Download > 0)
      Prod.snd,
      foldl_ite_append (fun (kv : String × InboundTraffic) => kv.2.Upload > 0 ∨ kv.2.Download > 0)
      Prod.snd,
      foldl_ite_append (fun (kv : String × OutboundTraffic) => kv.2.Upload > 0 ∨ kv.2.Download > 0)
      Prod.snd]
    rfl
  have hident : ∀ (l : List (String × UserTraffic)), l = l.map id := fun l => (List.map_id l).symm
  cases hls : c.lastStats with
  | none =>
    refine ⟨id, fun kv => ⟨rfl, rfl⟩, hid id ?_⟩
    intro stats
    rw [hls]
    exact hident _
  | some prev =>
    cases hlt : c.lastQueryTime with
    | none =>
      refine ⟨id, fun kv => ⟨rfl, rfl⟩, hid id ?_⟩
      intro stats
      rw [hls, hlt]
      exact hident _
    | some t =>
      by_cases hel : durationSeconds (timeSub now t) > 0
      · refine ⟨ratedEntry arch prev.Users (durationSeconds (timeSub now t)), ?_, hid _ ?_⟩
        · intro kv
          unfold ratedEntry
          split
          · exact ⟨rfl, rfl⟩
          · exact ⟨rfl, rfl⟩
        · intro stats
          rw [hls, hlt]
          simp only [hel, if_true]
          exact calculateUserRates_eq arch c prev hls _ _
      · refine ⟨id, fun kv => ⟨rfl, rfl⟩, hid id ?_⟩
        intro stats
        rw [hls, hlt]
        simp only [hel, if_false]
        exact hident _

theorem hasCounterShape_leads (name : String) (h : hasCounterShape name = true) :
    leadsWithCounterShape name = true := by
  unfold hasCounterShape at h
  unfold leadsWithCounterShape
  split at h
  · rename_i scope nm statType direction heq
    rw [heq]
    exact h
  · exact absurd h (by decide)

theorem statFold_filter_userMap (stats : List (String × Int)) :
    entryOr UserTraffic.new
        ((stats.filter (fun st => leadsWithCounterShape st.1)).foldl statStep
          (StatMaps.mk [] [] [])).userMap
      = entryOr UserTraffic.new (stats.foldl statStep (StatMaps.mk [] [] [])).userMap := by
  rw [statFold_userMap, statFold_userMap]
  exact foldl_filter_skip _ _
    (fun g x hx => scopeStep_skip _ _ "user" (Or.inl rfl) g x hx) stats _

theorem statFold_filter_inboundMap (stats : List (String × Int)) :
    entryOr InboundTraffic.new
        ((stats.filter (fun st => leadsWithCounterShape st.1)).foldl statStep
          (StatMaps.mk [] [] [])).inboundMap
      = entryOr InboundTraffic.new (stats.foldl statStep (StatMaps.mk [] [] [])).inboundMap := by
  rw [statFold_inboundMap, statFold_inboundMap]
  exact foldl_filter_skip _ _
    (fun g x hx => scopeStep_skip _ _ "inbound" (Or.inr (Or.inl rfl)) g x hx) stats _

theorem statFold_filter_outboundMap (stats : List (String × Int)) :
    entryOr OutboundTraffic.new
        ((stats.filter (fun st => leadsWithCounterShape st.1)).foldl statStep
          (StatMaps.mk [] [] [])).outboundMap
      = entryOr OutboundTraffic.new (stats.foldl statStep (StatMaps.mk [] [] [])).outboundMap := by
  rw [statFold_outboundMap, statFold_outboundMap]
  exact foldl_filter_skip _ _
    (fun g x hx => scopeStep_skip _ _ "outbound" (Or.inr (Or.inr rfl)) g x hx) stats _

theorem statFold_nodup_nil (stats : List (String × Int)) :
    (gmKeys (stats.foldl statStep (StatMaps.mk [] [] [])).userMap).Nodup
      ∧ (gmKeys (stats.foldl statStep (StatMaps.mk [] [] [])).inboundMap).Nodup
      ∧ (gmKeys (stats.foldl statStep (StatMaps.mk [] [] [])).outboundMap).Nodup :=
  statFold_nodup stats _ ⟨List.nodup_nil, List.nodup_nil, List.nodup_nil⟩

/-! ## Claims about the stats aggregator -/

/-- C21 (code at the failing input): the counter
`user>>>a@x>>>traffic>>>uplink>>>extra = 7` has five fields, not the shape
`<scope>>>><name>>>>traffic>>><direction>`, and `QueryStats` emits the user sample
`{a@x, upload 7}` from it, on either architecture; without the counter no sample is
emitted. `GRPCClient.QueryTrafficStats`, which parses the same names, discards the
counter. -/
theorem queryStats_extra_field_contributes :
    hasCounterShape "user>>>a@x>>>traffic>>>uplink>>>extra" = false
    ∧ (exNewCollector.QueryStats .amd64 0 (some exStatsExtraField)).1
      = some { Users := [{ Email := "a@x", Upload := 7, Download := 0, UploadRate := 0,
                           DownloadRate := 0 }],
               Inbounds := [], Outbounds := [], Timestamp := 0 }
    ∧ (exNewCollector.QueryStats .arm64 0 (some exStatsExtraField)).1
      = some { Users := [{ Email := "a@x", Upload := 7, Download := 0, UploadRate := 0,
                           DownloadRate := 0 }],
               Inbounds := [], Outbounds := [], Timestamp := 0 }
    ∧ (exNewCollector.QueryStats .amd64 0 (some [])).1
      = some { Users := [], Inbounds := [], Outbounds := [], Timestamp := 0 }
    ∧ QueryTrafficStats (some exStatsExtraField) = some [] :=
  ⟨by decide, by decide, by decide, by decide, by decide⟩

/-- What `QueryStats` does discard: it takes a counter into account only if the first four
`>>>`-separated fields of its name are a scope in {user, inbound, outbound}, a name,
`traffic`, and a direction in {uplink, downlink} (fields after the fourth are ignored, so
every name of exactly the shape
`<scope>>>><name>>>>traffic>>><direction>` is among them): removing every other counter
from the core's answer leaves each of the three emitted lists the same up to order; and
every emitted sample in any of the three lists has a positive uplink or downlink value, so
none has both equal to zero. -/
theorem queryStats_discards (arch : Arch) (c : XrayCollector) (now : Int)
    (stats : List (String × Int)) :
    ∃ s s2,
      (c.QueryStats arch now (some stats)).1 = some s
      ∧ (c.QueryStats arch now
          (some (stats.filter (fun st => leadsWithCounterShape st.1)))).1 = some s2
      ∧ s.Users.Perm s2.Users ∧ s.Inbounds.Perm s2.Inbounds ∧ s.Outbounds.Perm s2.Outbounds
      ∧ (∀ u ∈ s.Users, (0 < u.Upload ∨ 0 < u.Download) ∧ ¬ (u.Upload = 0 ∧ u.Download = 0))
      ∧ (∀ u ∈ s.Inbounds, (0 < u.Upload ∨ 0 < u.Download) ∧ ¬ (u.Upload = 0 ∧ u.Download = 0))
      ∧ (∀ u ∈ s.Outbounds,
          (0 < u.Upload ∨ 0 < u.Download) ∧ ¬ (u.Upload = 0 ∧ u.Download = 0))
      ∧ (∀ name, hasCounterShape name = true → leadsWithCounterShape name = true) := by
  obtain ⟨h, hh, hq⟩ := QueryStats_some arch c now
  have hpos : ∀ (a b : Int), (0 < a ∨ 0 < b) → ¬ (a = 0 ∧ b = 0) := by
    intro a b hab hz
    omega
  obtain ⟨hn1, hn2, hn3⟩ := statFold_nodup_nil stats
  obtain ⟨hf1, hf2, hf3⟩ :=
    statFold_nodup_nil (stats.filter (fun st => leadsWithCounterShape st.1))
  refine ⟨_, _, hq stats, hq _, ?_, ?_, ?_, ?_, ?_, ?_, hasCounterShape_leads⟩
  · -- users: the rate computation keeps the counters, so it commutes with the filter
    have hcomm : ∀ (m : List (String × UserTraffic)),
        (m.map h).filter (fun kv => decide (kv.2.Upload > 0 ∨ kv.2.Download > 0))
          = (m.filter (fun kv => decide (kv.2.Upload > 0 ∨ kv.2.Download > 0))).map h := by
      intro m
      rw [List.filter_map]
      congr 1
      apply List.filter_congr
      intro kv _
      simp only [Function.comp_apply, (hh kv).1, (hh kv).2]
    simp only
    rw [hcomm, hcomm]
    apply List.Perm.map
    apply List.Perm.map
    exact (filter_perm_of_entryOr UserTraffic.new
      (fun u => decide (u.Upload > 0 ∨ u.Download > 0)) (fun _ => rfl) _ _ hn1 hf1
      (statFold_filter_userMap stats).symm)
  · simp only
    apply List.Perm.map
    exact (filter_perm_of_entryOr InboundTraffic.new
      (fun u => decide (u.Upload > 0 ∨ u.Download > 0)) (fun _ => rfl) _ _ hn2 hf2
      (statFold_filter_inboundMap stats).symm)
  · simp only
    apply List.Perm.map
    exact (filter_perm_of_entryOr OutboundTraffic.new
      (fun u => decide (u.Upload > 0 ∨ u.Download > 0)) (fun _ => rfl) _ _ hn3 hf3
      (statFold_filter_outboundMap stats).symm)
  · intro u hu
    simp only [List.mem_map, List.mem_filter, decide_eq_true_eq] at hu
    obtain ⟨kv, ⟨_, hp⟩, rfl⟩ := hu
    exact ⟨hp, hpos _ _ hp⟩
  · intro u hu
    simp only [List.mem_map, List.mem_filter, decide_eq_true_eq] at hu
    obtain ⟨kv, ⟨_, hp⟩, rfl⟩ := hu
    exact ⟨hp, hpos _ _ hp⟩
  · intro u hu
    simp only [List.mem_map, List.mem_filter, decide_eq_true_eq] at hu
    obtain ⟨kv, ⟨_, hp⟩, rfl⟩ := hu
    exact ⟨hp, hpos _ _ hp⟩

theorem mem_gmSet {β : Type} (m : List (String × β)) (k : String) (v : β) (kv : String × β)
    (h : kv ∈ gmSet m k v) : kv = (k, v) ∨ kv ∈ m := by
  induction m with
  | nil =>
    simp only [gmSet, List.mem_singleton] at h
    exact Or.inl h
  | cons x m ih =>
    obtain ⟨a, b⟩ := x
    unfold gmSet at h
    by_cases hak : (a == k) = true
    · rw [if_pos hak] at h
      rcases List.mem_cons.1 h with h1 | h1
      · exact Or.inl h1
      · unfold gmDelete at h1
        exact Or.inr (List.mem_cons_of_mem _ (List.mem_filter.1 h1).1)
    · rw [if_neg hak] at h
      rcases List.mem_cons.1 h with h1 | h1
      · exact Or.inr (h1 ▸ List.mem_cons_self _ _)
      · rcases ih h1 with h2 | h2
        · exact Or.inl h2
        · exact Or.inr (List.mem_cons_of_mem _ h2)

theorem bumpCounter_invariant {τ : Type} (Q : τ → Prop) (mk : String → τ)
    (su sd : τ → Int → τ) (hmk : ∀ name, Q (mk name)) (hsu : ∀ x v, Q x → Q (su x v))
    (hsd : ∀ x v, Q x → Q (sd x v)) (m : List (String × τ)) (name direction : String)
    (value : Int) (h : ∀ kv ∈ m, Q kv.2) :
    ∀ kv ∈ bumpCounter mk su sd m name direction value, Q kv.2 := by
  have hbase : ∀ kv ∈ (if (gmGet m name).isNone then gmSet m name (mk name) else m), Q kv.2 := by
    intro kv hkv
    split at hkv
    · rcases mem_gmSet _ _ _ _ hkv with h1 | h1
      · rw [h1]
        exact hmk name
      · exact h kv h1
    · exact h kv hkv
  have hcur : Q ((gmGet (if (gmGet m name).isNone then gmSet m name (mk name) else m) name).getD
      (mk name)) := by
    cases hg : gmGet (if (gmGet m name).isNone then gmSet m name (mk name) else m) name with
    | none => exact hmk name
    | some v => exact hbase _ (gmGet_some_mem _ _ _ hg)
  unfold bumpCounter
  simp only
  intro kv hkv
  split at hkv
  · rcases mem_gmSet _ _ _ _ hkv with h1 | h1
    · rw [h1]
      exact hsu _ _ hcur
    · exact hbase kv h1
  · split at hkv
    · rcases mem_gmSet _ _ _ _ hkv with h1 | h1
      · rw [h1]
        exact hsd _ _ hcur
      · exact hbase kv h1
    · exact hbase kv hkv

theorem statStep_rates_zero (maps : StatMaps) (stat : String × Int)
    (h : ∀ kv ∈ maps.userMap, kv.2.UploadRate = 0 ∧ kv.2.DownloadRate = 0) :
    ∀ kv ∈ (statStep maps stat).userMap, kv.2.UploadRate = 0 ∧ kv.2.DownloadRate = 0 := by
  by_cases hex : ∃ category name statType direction tail,
      stringsSplit stat.1 ">>>" = category :: name :: statType :: direction :: tail
  · obtain ⟨category, name, statType, direction, tail, hsp⟩ := hex
    rw [statStep_of_split maps stat _ _ _ _ _ hsp]
    split_ifs
    · exact h
    · dsimp only
      refine bumpCounter_invariant
        (fun (u : UserTraffic) => u.UploadRate = 0 ∧ u.DownloadRate = 0) UserTraffic.new _ _
        ?_ ?_ ?_ _ _ _ _ h
      · intro _
        exact ⟨rfl, rfl⟩
      · intro _ _ hx
        exact hx
      · intro _ _ hx
        exact hx
    · exact h
    · exact h
    · exact h
  · rw [statStep_of_short maps stat hex]
    exact h

/-- The parsing loop of `QueryStats` creates every user sample with both rates zero. -/
theorem statFold_rates_zero (stats : List (String × Int)) (maps : StatMaps)
    (h : ∀ kv ∈ maps.userMap, kv.2.UploadRate = 0 ∧ kv.2.DownloadRate = 0) :
    ∀ kv ∈ (stats.foldl statStep maps).userMap,
      kv.2.UploadRate = 0 ∧ kv.2.DownloadRate = 0 := by
  induction stats generalizing maps with
  | nil => exact h
  | cons s rest ih =>
    rw [List.foldl_cons]
    exact ih _ (statStep_rates_zero maps s h)

theorem clippedRate_nonneg_of_fits (arch : Arch) (delta : Int) (elapsed : ℚ)
    (hel : 0 < elapsed)
    (hfit : float64Div (float64OfInt delta) elapsed < 9223372036854775808) :
    0 ≤ clippedRate arch delta elapsed := by
  unfold clippedRate
  split
  · rename_i hpos
    have hx0 : 0 ≤ float64Div (float64OfInt delta) elapsed :=
      float64Div_nonneg _ _ (float64OfInt_nonneg delta (le_of_lt hpos)) hel
    unfold int64OfFloat64
    simp only [hx0, if_true]
    have hf0 : 0 ≤ ⌊float64Div (float64OfInt delta) elapsed⌋ := Int.floor_nonneg.2 hx0
    have hf1 : ⌊float64Div (float64OfInt delta) elapsed⌋ < 9223372036854775808 := by
      rw [Int.floor_lt]
      exact_mod_cast hfit
    rw [if_pos ⟨by omega, hf1⟩]
    exact hf0
  · exact le_refl _

/-! ## Claims about the rate computation -/

/-- C22 (as stated, refuted): on amd64, with one second elapsed, a previous upload counter
of 0 and a current upload counter of 9223372036854775807 for `a@x`, the delta is positive,
its `float64` value is 2^63, the quotient does not fit in an `int64`, and
`calculateUserRates` assigns the upload rate -9223372036854775808; `QueryStats` reaches this
call one second after the previous snapshot and emits the sample with that rate. -/
theorem calculateUserRates_negative_rate :
    exCollector.calculateUserRates .amd64 exUserMapHuge 1
      = [("a@x", { Email := "a@x", Upload := 9223372036854775807, Download := 1,
                   UploadRate := -9223372036854775808, DownloadRate := 0 })]
    ∧ (exCollector.QueryStats .amd64 1000000000 (some exStatsHuge)).1
      = some { Users := [{ Email := "a@x", Upload := 9223372036854775807, Download := 1,
                           UploadRate := -9223372036854775808, DownloadRate := 0 }],
               Inbounds := [], Outbounds := [], Timestamp := 1 } := by
  have hcalc : exCollector.calculateUserRates .amd64 exUserMapHuge 1
      = [("a@x", { Email := "a@x", Upload := 9223372036854775807, Download := 1,
                   UploadRate := -9223372036854775808, DownloadRate := 0 })] := by
    rw [calculateUserRates_eq .amd64 exCollector exPrevSnapshot rfl]
    have hlast : lastSample exPrevSnapshot.Users "a@x"
        = some (UserTraffic.mk "a@x" 0 1 0 0) := by decide
    have hw1 : wrapInt64 (9223372036854775807 - 0) = 9223372036854775807 := by decide
    have hw2 : wrapInt64 (1 - 1) = 0 := by decide
    simp only [exUserMapHuge, List.map_cons, List.map_nil, hlast, hw1, hw2,
      clippedRate_maxInt64_amd64]
    rfl
  refine ⟨hcalc, ?_⟩
  have hmaps : exStatsHuge.foldl statStep (StatMaps.mk [] [] [])
      = StatMaps.mk exUserMapHuge [] [] := by decide
  unfold XrayCollector.QueryStats
  simp only [hmaps]
  have hlast : exCollector.lastStats = some exPrevSnapshot := rfl
  have htime : exCollector.lastQueryTime = some 0 := rfl
  simp only [hlast, htime, durationSeconds_one_second, zero_lt_one, if_true, hcalc]
  rfl

/-- C22 (amended): let the previous snapshot, the current samples (with rates still zero,
as the parsing loop creates them) and an elapsed time above zero be given. Then
`calculateUserRates` keeps every sample's email and counters; a user absent from the
previous snapshot keeps rate 0; for a user present in it, each rate is 0 when the `int64`
delta of the counter against the previous snapshot is negative or zero, and otherwise the
`float64` quotient of the delta by the elapsed seconds converted to `int64` (for a delta
below 2^53 the delta itself enters the quotient exactly). The rates are non-negative
whenever the quotient is below 2^63, in particular whenever the elapsed time is at least
one second and the deltas are at most 2^62, and on arm64 always; for counters in the
non-negative `int64` range the `int64` delta is the mathematical difference; and the
parsing loop of `QueryStats` does create every sample with both rates zero. -/
theorem calculateUserRates_clipped (arch : Arch) (c : XrayCollector) (prev : TrafficStats)
    (hprev : c.lastStats = some prev) (userMap : List (String × UserTraffic)) (elapsed : ℚ)
    (hel : 0 < elapsed)
    (hzero : ∀ kv ∈ userMap, kv.2.UploadRate = 0 ∧ kv.2.DownloadRate = 0) :
    (∀ (i : Nat) (kv : String × UserTraffic), userMap[i]? = some kv →
      ∃ r, (c.calculateUserRates arch userMap elapsed)[i]? = some (kv.1, r)
        ∧ r.Email = kv.2.Email ∧ r.Upload = kv.2.Upload ∧ r.Download = kv.2.Download
        ∧ (lastSample prev.Users kv.1 = none → r.UploadRate = 0 ∧ r.DownloadRate = 0)
        ∧ (∀ last, lastSample prev.Users kv.1 = some last →
            r.UploadRate = clippedRate arch (wrapInt64 (kv.2.Upload - last.Upload)) elapsed
            ∧ r.DownloadRate
                = clippedRate arch (wrapInt64 (kv.2.Download - last.Download)) elapsed))
    ∧ (c.calculateUserRates arch userMap elapsed).length = userMap.length
    ∧ (∀ d : Int, d ≤ 0 → clippedRate arch d elapsed = 0)
    ∧ (∀ d : Int, 0 < d →
        clippedRate arch d elapsed
          = int64OfFloat64 arch (float64Div (float64OfInt d) elapsed))
    ∧ (∀ d : Int, 0 < d → d < 9007199254740992 → float64OfInt d = d)
    ∧ (1 ≤ elapsed → ∀ d : Int, d ≤ 4611686018427387904 → 0 ≤ clippedRate arch d elapsed)
    ∧ (∀ d : Int, 0 ≤ clippedRate .arm64 d elapsed)
    ∧ (∀ a b : Int, 0 ≤ a → a < 9223372036854775808 → 0 ≤ b → b < 9223372036854775808 →
        wrapInt64 (a - b) = a - b)
    ∧ (∀ d : Int, float64Div (float64OfInt d) elapsed < 9223372036854775808 →
        0 ≤ clippedRate arch d elapsed)
    ∧ (∀ stats : List (String × Int),
        ∀ kv ∈ (stats.foldl statStep (StatMaps.mk [] [] [])).userMap,
          kv.2.UploadRate = 0 ∧ kv.2.DownloadRate = 0) := by
  refine ⟨?_, ?_, ?_, ?_, ?_, ?_, ?_, ?_, ?_, ?_⟩
  · intro i kv hi
    rw [calculateUserRates_eq arch c prev hprev, List.getElem?_map, hi, Option.map_some']
    have hz := hzero kv (List.getElem?_mem hi)
    cases hl : lastSample prev.Users kv.1 with
    | none =>
      refine ⟨kv.2, rfl, rfl, rfl, rfl, fun _ => hz, ?_⟩
      intro last hlast
      cases hlast
    | some last =>
      refine ⟨_, rfl, rfl, rfl, rfl, ?_, ?_⟩
      · intro hnone
        cases hnone
      · intro last2 hlast2
        cases hlast2
        constructor
        · simp only
          split
          · rfl
          · rename_i hnp
            rw [hz.1]
            unfold clippedRate
            rw [if_neg hnp]
        · simp only
          split
          · rfl
          · rename_i hnp
            rw [hz.2]
            unfold clippedRate
            rw [if_neg hnp]
  · rw [calculateUserRates_eq arch c prev hprev, List.length_map]
  · intro d hd
    unfold clippedRate
    rw [if_neg (not_lt.2 hd)]
  · intro d hd
    unfold clippedRate
    rw [if_pos hd]
  · exact fun d h0 h1 => float64OfInt_exact d h0 h1
  · exact fun h1 d hd => clippedRate_nonneg arch d elapsed h1 hd
  · exact fun d => clippedRate_arm64_nonneg d elapsed hel
  · exact fun a b ha0 ha1 hb0 hb1 => wrapInt64_sub a b ha0 ha1 hb0 hb1
  · exact fun d hfit => clippedRate_nonneg_of_fits arch d elapsed hel hfit
  · intro stats
    exact statFold_rates_zero stats _ (fun kv hkv => absurd hkv (List.not_mem_nil kv))

theorem clippedRate_500_10 (arch : Arch) : clippedRate arch 500 10 = 50 := by
  unfold clippedRate
  rw [if_pos (by decide), float64OfInt_exact 500 (by decide) (by decide)]
  unfold float64Div
  have h50 : ((500 : ℤ) : ℚ) / 10 = ((50 : ℤ) : ℚ) := by norm_num
  have hr : roundFloat64 ((50 : ℤ) : ℚ) = ((50 : ℤ) : ℚ) :=
    float64OfInt_exact 50 (by decide) (by decide)
  rw [h50, hr]
  unfold int64OfFloat64
  simp only [Int.cast_nonneg, Int.floor_intCast]
  cases arch <;> decide

/-- Witness for C22 (amended): ten seconds after `exPrevSnapshot`, `b@x` has uploaded 500
more bytes and its download counter has fallen from 100 to 50, and `n@x` is new: the upload
rate of `b@x` is 50, its download rate is 0, and `n@x` keeps rate 0. -/
theorem calculateUserRates_clipped_witness :
    (∀ (i : Nat) (kv : String × UserTraffic), exUserMap[i]? = some kv →
      ∃ r, (exCollector.calculateUserRates .amd64 exUserMap 10)[i]? = some (kv.1, r)
        ∧ r.Email = kv.2.Email ∧ r.Upload = kv.2.Upload ∧ r.Download = kv.2.Download
        ∧ (lastSample exPrevSnapshot.Users kv.1 = none → r.UploadRate = 0 ∧ r.DownloadRate = 0)
        ∧ (∀ last, lastSample exPrevSnapshot.Users kv.1 = some last →
            r.UploadRate = clippedRate .amd64 (wrapInt64 (kv.2.Upload - last.Upload)) 10
            ∧ r.DownloadRate
                = clippedRate .amd64 (wrapInt64 (kv.2.Download - last.Download)) 10))
    ∧ clippedRate .amd64 (wrapInt64 (600 - 100)) 10 = 50
    ∧ clippedRate .amd64 (wrapInt64 (50 - 100)) 10 = 0 :=
  ⟨(calculateUserRates_clipped .amd64 exCollector exPrevSnapshot rfl exUserMap 10
      (by norm_num) (by decide)).1,
    clippedRate_500_10 .amd64, by decide⟩

/-! ## Properties of the way back -/

theorem gmDelete_idem {β : Type} (m : List (String × β)) (k : String) :
    gmDelete (gmDelete m k) k = gmDelete m k := by
  unfold gmDelete
  rw [List.filter_filter]
  simp

theorem gmDelete_gmSet_same {β : Type} (m : List (String × β)) (k : String) (v : β) :
    gmDelete (gmSet m k v) k = gmDelete m k := by
  induction m with
  | nil => simp [gmSet, gmDelete]
  | cons kv m ih =>
    obtain ⟨a, b⟩ := kv
    unfold gmSet
    by_cases h : a = k
    · subst h
      simp only [beq_self_eq_true, if_true]
      have h1 : gmDelete ((a, v) :: gmDelete m a) a = gmDelete (gmDelete m a) a := by
        simp [gmDelete]
      have h2 : gmDelete ((a, b) :: m) a = gmDelete m a := by
        simp [gmDelete]
      rw [h1, h2, gmDelete_idem]
    · have hb : (a == k) = false := by simp [h]
      simp only [hb, Bool.false_eq_true, if_false]
      have h1 : ∀ (l : List (String × β)), gmDelete ((a, b) :: l) k = (a, b) :: gmDelete l k := by
        intro l
        simp [gmDelete, h]
      rw [h1, h1, ih]

theorem gmDelete_comm {β : Type} (m : List (String × β)) (a b : String) :
    gmDelete (gmDelete m a) b = gmDelete (gmDelete m b) a := by
  unfold gmDelete
  rw [List.filter_filter, List.filter_filter]
  apply List.filter_congr
  intro x _
  exact Bool.and_comm _ _

theorem gmDelete_of_not_has {β : Type} (m : List (String × β)) (k : String)
    (h : gmHas m k = false) : gmDelete m k = m := by
  unfold gmDelete
  rw [List.filter_eq_self]
  intro x hx
  unfold gmHas at h
  rw [List.any_eq_false] at h
  have := h x hx
  simp only [bne_iff_ne, ne_eq]
  intro hxk
  exact this (by simp [hxk])

theorem isNil_eq_null (v : JVal) (h : v.isNil = true) : v = JVal.null := by
  cases v <;> simp [JVal.isNil] at h ⊢

theorem gmGet_optional (l : List (String × JVal)) (k : String) (v : JVal) (k2 : String) :
    gmGet (if v.isNil = true then l else gmSet l k v) k2
      = if k2 = k then (if v.isNil = true then gmGet l k else some v) else gmGet l k2 := by
  by_cases hv : v.isNil = true
  · simp only [hv, if_true]
    by_cases hk : k2 = k
    · rw [if_pos hk, hk]
    · rw [if_neg hk]
  · simp only [hv, if_false, gmGet_gmSet, Bool.false_eq_true]

theorem optional_getD (v : JVal) :
    (if v.isNil = true then (none : Option JVal) else some v).getD JVal.null = v := by
  by_cases hv : v.isNil = true
  · rw [if_pos hv, isNil_eq_null v hv]
    rfl
  · rw [if_neg hv]
    rfl

theorem stripInbound_buildInbound (m : List (String × List UserConfig)) (ib : InboundConfig) :
    stripInbound (buildInbound m ib) = some ib.withoutMembers := by
  obtain ⟨tag, proto, port, listen, settings, ss, sn, al⟩ := ib
  have hset : ∀ (s : List (String × JVal)) (v1 v2 : JVal),
      gmDelete
          (if proto = "socks" then gmDelete (gmSet s "accounts" v1) "clients"
           else gmSet s "clients" v2) (memberKey proto)
        = (if proto = "socks" then gmDelete (gmDelete s "clients") "accounts"
           else gmDelete s "clients") := by
    intro s v1 v2
    unfold memberKey
    by_cases hp : proto = "socks"
    · simp only [hp, if_true]
      rw [gmDelete_comm, gmDelete_gmSet_same, gmDelete_comm]
    · simp only [hp, if_false]
      rw [gmDelete_gmSet_same]
  unfold InboundConfig.withoutMembers stripInbound buildInbound
  simp only [JVal.field, gmGet_optional, gmGet_cons, gmGet_nil]
  simp [hset, optional_getD]

theorem stripped_inbounds (nodeConfig : NodeConfig) (users : List UserConfig) :
    (stripGenerated nodeConfig.lacksDirect (Generate nodeConfig users).1).Inbounds
      = nodeConfig.Inbounds.map InboundConfig.withoutMembers := by
  unfold stripGenerated
  simp only
  rw [generate_inbounds, List.eraseP_cons_of_pos (by rfl), List.filterMap_map]
  have : (stripInbound ∘ buildInbound (groupUsersByInbound users))
      = fun ib => some (InboundConfig.withoutMembers ib) := by
    funext ib
    exact stripInbound_buildInbound _ ib
  rw [this]
  show List.filterMap (some ∘ InboundConfig.withoutMembers) nodeConfig.Inbounds = _
  rw [List.filterMap_eq_map]

theorem withoutMembers_eq_self (ib : InboundConfig)
    (h : ∃ kvs, ib.Settings = JVal.obj kvs ∧ gmHas kvs "clients" = false
      ∧ gmHas kvs "accounts" = false) : ib.withoutMembers = ib := by
  obtain ⟨kvs, hs, hc, ha⟩ := h
  obtain ⟨tag, proto, port, listen, settings, ss, sn, al⟩ := ib
  simp only at hs
  subst hs
  unfold InboundConfig.withoutMembers
  simp only [cloneSettings, Option.getD_some]
  rw [gmDelete_of_not_has kvs "clients" hc, gmDelete_of_not_has kvs "accounts" ha]
  simp

theorem stripped_rules (nodeConfig : NodeConfig) (users : List UserConfig) :
    (stripGenerated nodeConfig.lacksDirect (Generate nodeConfig users).1).Rules
      = nodeConfig.rules.filter hasTargetKey := by
  unfold stripGenerated
  simp only
  rw [generate_rules, List.eraseP_cons_of_pos (by rfl)]
  rfl

theorem firstOccurrenceByTag_of_nodup (l : List OutboundConfig)
    (h : (l.map (fun o => o.Tag)).Nodup) : firstOccurrenceByTag l = l := by
  induction l with
  | nil => rfl
  | cons ob rest ih =>
    rw [List.map_cons, List.nodup_cons] at h
    rw [firstOccurrenceByTag, ih h.2, List.filter_eq_self.2]
    intro o ho
    simp only [bne_iff_ne, ne_eq]
    intro heq
    exact h.1 (List.mem_map.2 ⟨o, ho, heq⟩)

theorem mem_firstOccurrenceByTag_of_find (l : List OutboundConfig) (t : String)
    (d : OutboundConfig) (h : l.find? (fun o => o.Tag == t) = some d) :
    d ∈ firstOccurrenceByTag l := by
  induction l with
  | nil => simp at h
  | cons ob rest ih =>
    rw [firstOccurrenceByTag]
    rw [List.find?_cons] at h
    by_cases hob : (ob.Tag == t) = true
    · rw [hob] at h
      simp only [Option.some.injEq] at h
      rw [← h]
      exact List.mem_cons_self _ _
    · have hob2 : (ob.Tag == t) = false := by simpa using hob
      rw [hob2] at h
      have hd := ih h
      have hdt : d.Tag = t := by
        have := List.find?_some h
        simpa using this
      apply List.mem_cons_of_mem
      rw [List.mem_filter]
      refine ⟨hd, ?_⟩
      simp only [bne_iff_ne, ne_eq, hdt]
      intro heq
      exact hob (by simp [heq])

theorem filter_tag_of_nodup (l : List OutboundConfig) (h : (l.map (fun o => o.Tag)).Nodup)
    (d : OutboundConfig) (hd : d ∈ l) :
    l.filter (fun o => o.Tag == d.Tag) = [d] := by
  induction l with
  | nil => simp at hd
  | cons ob rest ih =>
    rw [List.map_cons, List.nodup_cons] at h
    rcases List.mem_cons.1 hd with heq | hin
    · subst heq
      rw [List.filter_cons_of_pos (by simp)]
      congr 1
      rw [List.filter_eq_nil_iff]
      intro o ho
      simp only [beq_iff_eq]
      intro hot
      exact h.1 (List.mem_map.2 ⟨o, ho, hot⟩)
    · have hne : ¬ ob.Tag = d.Tag := by
        intro heq
        exact h.1 (List.mem_map.2 ⟨d, hin, heq.symm⟩)
      rw [List.filter_cons_of_neg (by simp [hne])]
      exact ih h.2 hin

theorem stripped_outbounds (nodeConfig : NodeConfig) (users : List UserConfig)
    (hapi : ∀ ob ∈ nodeConfig.Outbounds, ob.Tag ≠ "api") :
    (stripGenerated nodeConfig.lacksDirect (Generate nodeConfig users).1).Outbounds.Perm
      (firstOccurrenceByTag nodeConfig.Outbounds) := by
  have hfilter : nodeConfig.Outbounds.filter (fun ob => ob.Tag != "direct" && ob.Tag != "api")
      = nodeConfig.Outbounds.filter (fun ob => ob.Tag != "direct") := by
    apply List.filter_congr
    intro ob hob
    have := hapi ob hob
    simp [this]
  have hdir : ∀ (d : OutboundConfig),
      nodeConfig.Outbounds.find? (fun ob => ob.Tag == "direct") = some d → d.Tag = "direct" := by
    intro d hd
    have := List.find?_some hd
    simpa using this
  unfold stripGenerated
  simp only
  rw [generate_outbounds, normalizeOutbounds_eq, hfilter, ← firstOccurrenceByTag_filter]
  cases hfind : nodeConfig.Outbounds.find? (fun ob => ob.Tag == "direct") with
  | none =>
    have hlack : nodeConfig.lacksDirect = true := by
      unfold NodeConfig.lacksDirect
      rw [List.find?_eq_none] at hfind
      simp only [Bool.not_eq_true', List.any_eq_false]
      intro ob hob
      exact hfind ob hob
    rw [hlack]
    simp only [Option.getD_none, if_true]
    rw [List.eraseP_cons_of_neg (by decide), List.eraseP_cons_of_pos (by rfl),
      List.eraseP_cons_of_pos (by rfl), List.filter_eq_self.2]
    intro o ho
    simp only [bne_iff_ne, ne_eq]
    intro hot
    have hin := (firstOccurrenceByTag_sublist nodeConfig.Outbounds).subset ho
    rw [List.find?_eq_none] at hfind
    exact hfind o hin (by simp [hot])
  | some d =>
    have hdt := hdir d hfind
    have hlack : nodeConfig.lacksDirect = false := by
      unfold NodeConfig.lacksDirect
      simp only [Bool.not_eq_false', List.any_eq_true]
      exact ⟨d, List.mem_of_find?_eq_some hfind, by simp [hdt]⟩
    rw [hlack]
    simp only [Option.getD_some, Bool.false_eq_true, if_false]
    rw [List.eraseP_cons_of_neg (by simp [hdt]), List.eraseP_cons_of_pos (by rfl)]
    have hmem := mem_firstOccurrenceByTag_of_find _ _ d hfind
    have hone := filter_tag_of_nodup _ (firstOccurrenceByTag_nodup nodeConfig.Outbounds) d hmem
    rw [hdt] at hone
    have hperm := List.filter_append_perm (fun (o : OutboundConfig) => o.Tag == "direct")
      (firstOccurrenceByTag nodeConfig.Outbounds)
    rw [hone] at hperm
    exact hperm

/-! ## Claims about the round trip through the materializer -/

/-- C27 (as stated, refuted): the NodeConfig `exLossyNode` has the single inbound `in0`, no
tag `api`, two outbounds and two routing rules; the way back from its materialization
yields one routing rule (the rule without `outboundTag` and `balancerTag` is gone) and one
outbound (the second outbound of the tag `proxy` is gone). -/
theorem round_trip_loses_rule_and_outbound :
    (exLossyNode.Inbounds.map (fun ib => ib.Tag)).Nodup
    ∧ (∀ ib ∈ exLossyNode.Inbounds, ib.Tag ≠ "api")
    ∧ (∀ ob ∈ exLossyNode.Outbounds, ob.Tag ≠ "api")
    ∧ exLossyNode.rules.length = 2
    ∧ (stripGenerated exLossyNode.lacksDirect (Generate exLossyNode [exUserA]).1).Rules.length = 1
    ∧ exLossyNode.Outbounds.length = 2
    ∧ (stripGenerated exLossyNode.lacksDirect
        (Generate exLossyNode [exUserA]).1).Outbounds.length = 1 :=
  ⟨by decide, by decide, by decide, rfl, rfl, rfl, rfl⟩

/-- C27 (amended): for every NodeConfig whose outbounds do not use the reserved tag `api`
and every user list, taking Generate's result and stripping the `api-inbound` inbound and
the injected clients/accounts, the `api` outbound, the `direct` outbound when it was
synthesized, and the API routing rule yields: the original inbounds in their order, each
with its settings object less the keys `clients` and (for socks) `accounts`, hence the
original inbounds when their settings are objects without these keys; a permutation of
the first outbound of every tag, hence of the original outbounds when outbound tags are
unique; and the original routing rules that have an `outboundTag` or a `balancerTag`,
hence the original rules when all of them have one. -/
theorem generate_round_trip (nodeConfig : NodeConfig) (users : List UserConfig)
    (hapi : ∀ ob ∈ nodeConfig.Outbounds, ob.Tag ≠ "api") :
    (stripGenerated nodeConfig.lacksDirect (Generate nodeConfig users).1).Inbounds
        = nodeConfig.Inbounds.map InboundConfig.withoutMembers
    ∧ ((∀ ib ∈ nodeConfig.Inbounds, ∃ kvs, ib.Settings = JVal.obj kvs
          ∧ gmHas kvs "clients" = false ∧ gmHas kvs "accounts" = false) →
        (stripGenerated nodeConfig.lacksDirect (Generate nodeConfig users).1).Inbounds
          = nodeConfig.Inbounds)
    ∧ (stripGenerated nodeConfig.lacksDirect (Generate nodeConfig users).1).Outbounds.Perm
        (firstOccurrenceByTag nodeConfig.Outbounds)
    ∧ ((nodeConfig.Outbounds.map (fun ob => ob.Tag)).Nodup →
        (stripGenerated nodeConfig.lacksDirect (Generate nodeConfig users).1).Outbounds.Perm
          nodeConfig.Outbounds)
    ∧ (stripGenerated nodeConfig.lacksDirect (Generate nodeConfig users).1).Rules
        = nodeConfig.rules.filter hasTargetKey
    ∧ ((∀ r ∈ nodeConfig.rules, hasTargetKey r = true) →
        (stripGenerated nodeConfig.lacksDirect (Generate nodeConfig users).1).Rules
          = nodeConfig.rules) := by
  refine ⟨stripped_inbounds nodeConfig users, ?_, stripped_outbounds nodeConfig users hapi, ?_,
    stripped_rules nodeConfig users, ?_⟩
  · intro h
    rw [stripped_inbounds]
    conv_rhs => rw [← List.map_id nodeConfig.Inbounds]
    apply List.map_congr_left
    intro ib hib
    exact withoutMembers_eq_self ib (h ib hib)
  · intro h
    have := stripped_outbounds nodeConfig users hapi
    rw [firstOccurrenceByTag_of_nodup _ h] at this
    exact this
  · intro h
    rw [stripped_rules, List.filter_eq_self]
    exact h

/-- Witness for C27 (amended): the NodeConfig `exFullNode` with the users `a@x` and `u1`:
the way back yields its two inbounds, a permutation of its two outbounds, and its rule. -/
theorem generate_round_trip_witness :
    (stripGenerated exFullNode.lacksDirect
        (Generate exFullNode [exUserA, exUserU1]).1).Inbounds = exFullNode.Inbounds
    ∧ (stripGenerated exFullNode.lacksDirect
        (Generate exFullNode [exUserA, exUserU1]).1).Outbounds.Perm exFullNode.Outbounds
    ∧ (stripGenerated exFullNode.lacksDirect
        (Generate exFullNode [exUserA, exUserU1]).1).Rules = [exRule] :=
  ⟨(generate_round_trip exFullNode [exUserA, exUserU1] (by decide)).2.1
      (by
        intro ib hib
        simp only [exFullNode, mkNode, List.mem_cons, List.mem_singleton, List.mem_nil_iff,
          or_false] at hib
        rcases hib with rfl | rfl
        · exact ⟨_, rfl, rfl, rfl⟩
        · exact ⟨_, rfl, rfl, rfl⟩),
    (generate_round_trip exFullNode [exUserA, exUserU1] (by decide)).2.2.2.1 (by decide),
    (generate_round_trip exFullNode [exUserA, exUserU1] (by decide)).2.2.2.2.2 (by decide)⟩

end PanelAgent
